import Mathlib

/-!
# ECEF to geodetic conversion (Fukushima, one Halley step)

A shallow embedding of `convertEcefToGeodetic`
(`C++/Geodetics/Fukushima/HalleyMethod/convertEcefToGeodetic.cpp`) and of
`convertGeodeticToEcef`
(`C++/Geodetics/Fukushima/HalleyMethod/convertGeodeticToEcef.cpp`).

The C++ type `double` is read as an element of a linearly ordered field `R`,
with exact field arithmetic; the functions taken from `<math.h>` (`sqrt`,
`atan`, `atan2`, `sin`, `cos`) are a parameter of the embedding, so that the
definitions below are computable.  The properties that involve the values of
these functions are proved for `R = ℝ` with the real functions (`realMath`).
IEEE rounding, NaN and infinities are outside this first embedding.

A second embedding (`Machine`) has the same two functions, term by term, over
an arithmetic of `double` given as a parameter (`DoubleArithmetic`).  Over
exact arithmetic it is the first embedding; over `Binary64`, a model of IEEE
754 binary64 with rounding to nearest, overflow, gradual underflow, the
infinities and not-a-number, it follows what the compiled program does where
the exact reading does not.  The two zeros of binary64 are not told apart.

The code takes a single step of Halley's method.  The last sections bound
the error of that step in exact real arithmetic (`halleyStep_error`), and
from it the error of latitude and altitude after a round trip through the
two functions, for the flattening of the Earth.

The three output arguments are C++ references: the function reads nothing
from them but leaves them untouched on the error paths, which is why the
embedding takes their previous values (`out`) and returns the new ones.
The diagnostic text printed on the error paths is not modelled.

`convertGeodeticToEcef` assigns its three outputs on both of its paths; on
the failure path it assigns `NAN` to the three of them, which the embedding
renders as `none`.
-/

namespace Fukushima

/-- Return status of `convertEcefToGeodetic`, the enumeration declared in
`conversionBetweenEcefAndGeodetic.h`. -/
inductive ECEF_TO_GEODETIC_CONVERSION_STATUS where
  | SUCCESSFUL_CONVERSION
  | UNDETERMINED_CONVERSION_STATUS
  | INVALID_ELLIPSOIDAL_FLATTENING
  | INVALID_EQUATORIAL_RADIUS
  deriving DecidableEq, Repr

open ECEF_TO_GEODETIC_CONVERSION_STATUS

/-- The functions of `<math.h>` that the two conversions call. -/
structure MathFunctions (R : Type) where
  sqrt : R → R
  atan : R → R
  atan2 : R → R → R
  sin : R → R
  cos : R → R

/-- The three output arguments of `convertEcefToGeodetic`
(`rEstimatedGeodeticNorthLatitudeRadians`,
`rEstimatedGeocentricEastLongitudeRadians`,
`rEstimatedGeodeticAltitudeMeters`). -/
structure GeodeticOutputs (R : Type) where
  latitude : R
  longitude : R
  altitude : R

/-- The intermediate quantities of the normal branch of
`convertEcefToGeodetic` (lines 289 to 387 of the source). -/
structure HalleyTerms (R : Type) where
  S0 : R
  Pn : R
  zc : R
  C0 : R
  A0 : R
  D0 : R
  F0 : R
  B0 : R
  S1 : R
  C1 : R
  Cc : R

section Embedding

variable {R : Type} [LinearOrderedField R]

/-- The Newton and Halley correction factors of the normal branch, computed
in the order of the source from the equatorial radius, the squared
ellipticity, `1.5 * e^4`, the complementary ellipticity, the distance from
the polar axis and `abs z`. -/
def halleyTerms (m : MathFunctions R)
    (earthEquatorialRadiusMeters earthEllipticitySquared oneAndHalf_e4
      complimentaryEarthEllipticity earthPolarAxisDistanceMeters absZ : R) :
    HalleyTerms R :=
  let S0 := absZ / earthEquatorialRadiusMeters
  let Pn := earthPolarAxisDistanceMeters / earthEquatorialRadiusMeters
  let zc := complimentaryEarthEllipticity * S0
  let C0 := complimentaryEarthEllipticity * Pn
  let C0Squared := C0 * C0
  let C0Cubed := C0 * C0Squared
  let S0Squared := S0 * S0
  let S0Cubed := S0 * S0Squared
  let A0Squared := C0Squared + S0Squared
  let A0 := m.sqrt A0Squared
  let A0Cubed := A0 * A0Squared
  let D0 := (zc * A0Cubed) + (earthEllipticitySquared * S0Cubed)
  let F0 := (Pn * A0Cubed) + (-earthEllipticitySquared * C0Cubed)
  let B0 := oneAndHalf_e4 * S0Squared * C0Squared * Pn *
    (A0 - complimentaryEarthEllipticity)
  let S1 := (D0 * F0) + (-B0 * S0)
  let C1 := (F0 * F0) + (-B0 * C0)
  let Cc := complimentaryEarthEllipticity * C1
  ⟨S0, Pn, zc, C0, A0, D0, F0, B0, S1, C1, Cc⟩

/-- The geodetic computation proper (lines 242 to 471 of the source), entered
once the three validity checks have passed: longitude, then latitude and
altitude in the normal branch or in the branch of the polar axis, then the
change of sign of the latitude in the southern hemisphere.  The call
`abs( zEcefMeters )` is the absolute value of a `double`, the overload that
`<math.h>` declares in C++. -/
def geodeticComputation (m : MathFunctions R)
    (earthEquatorialRadiusMeters aEpsSquared earthEllipticitySquared
      oneAndHalf_e4 complimentaryEarthEllipticitySquared
      xEcefMeters yEcefMeters zEcefMeters : R) : GeodeticOutputs R :=
  let complimentaryEarthEllipticity := m.sqrt complimentaryEarthEllipticitySquared
  let earthPolarRadiusMeters :=
    complimentaryEarthEllipticity * earthEquatorialRadiusMeters
  let earthPolarAxisDistanceSquared :=
    (xEcefMeters * xEcefMeters) + (yEcefMeters * yEcefMeters)
  let longitude :=
    if earthPolarAxisDistanceSquared > 0 then m.atan2 yEcefMeters xEcefMeters else 0
  let absZ := |zEcefMeters|
  let latAlt : R × R :=
    if earthPolarAxisDistanceSquared > aEpsSquared then
      let earthPolarAxisDistanceMeters := m.sqrt earthPolarAxisDistanceSquared
      let t := halleyTerms m earthEquatorialRadiusMeters earthEllipticitySquared
        oneAndHalf_e4 complimentaryEarthEllipticity earthPolarAxisDistanceMeters absZ
      let latitude := m.atan2 t.S1 t.Cc
      let S1Squared := t.S1 * t.S1
      let CcSquared := t.Cc * t.Cc
      let a1 := m.sqrt ((complimentaryEarthEllipticitySquared * S1Squared) + CcSquared)
      let altitude :=
        ((earthPolarAxisDistanceMeters * t.Cc) + (absZ * t.S1) +
          (-earthEquatorialRadiusMeters * a1)) / m.sqrt (CcSquared + S1Squared)
      (latitude, altitude)
    else
      let piOverTwo := 2 * m.atan 1
      (piOverTwo, absZ - earthPolarRadiusMeters)
  let latitude := if zEcefMeters < 0 then -latAlt.1 else latAlt.1
  ⟨latitude, longitude, latAlt.2⟩

/-- The function `convertEcefToGeodetic`.  `out` holds the values of the three
output variables before the call; the result is the returned status and the
values of the output variables after the call.  The local `returnValue`
starts as `UNDETERMINED_CONVERSION_STATUS` and each branch assigns it. -/
def convertEcefToGeodetic (m : MathFunctions R)
    (earthEquatorialRadiusMeters earthEllipsoidalFlatteningFactor
      xEcefMeters yEcefMeters zEcefMeters : R) (out : GeodeticOutputs R) :
    ECEF_TO_GEODETIC_CONVERSION_STATUS × GeodeticOutputs R :=
  let returnValue := UNDETERMINED_CONVERSION_STATUS
  let state : ECEF_TO_GEODETIC_CONVERSION_STATUS × GeodeticOutputs R := (returnValue, out)
  if earthEllipsoidalFlatteningFactor ≥ 0 ∧ earthEllipsoidalFlatteningFactor < 1 then
    if earthEquatorialRadiusMeters > 0 then
      let eps : R := 1.0e-16
      let aEps := earthEquatorialRadiusMeters * eps
      let aEpsSquared := aEps * aEps
      let earthEllipticitySquared :=
        (2 - earthEllipsoidalFlatteningFactor) * earthEllipsoidalFlatteningFactor
      let earthEllipticityForth := earthEllipticitySquared * earthEllipticitySquared
      let oneAndHalf_e4 := 1.5 * earthEllipticityForth
      let complimentaryEarthEllipticitySquared := 1 - earthEllipticitySquared
      if complimentaryEarthEllipticitySquared > 0 then
        (SUCCESSFUL_CONVERSION,
          geodeticComputation m earthEquatorialRadiusMeters aEpsSquared
            earthEllipticitySquared oneAndHalf_e4 complimentaryEarthEllipticitySquared
            xEcefMeters yEcefMeters zEcefMeters)
      else
        (INVALID_ELLIPSOIDAL_FLATTENING, state.2)
    else
      (INVALID_EQUATORIAL_RADIUS, state.2)
  else
    (INVALID_ELLIPSOIDAL_FLATTENING, state.2)

/-- The three output arguments of `convertGeodeticToEcef` (`rXEcefMeters`,
`rYEcefMeters`, `rZEcefMeters`). -/
structure EcefOutputs (R : Type) where
  x : R
  y : R
  z : R

/-- The length quantities of `convertGeodeticToEcef`: the prime vertical
radius of curvature `N`, `rho` and `rhoz`. -/
structure CurvatureTerms (R : Type) where
  N : R
  rho : R
  rhoz : R

/-- The length quantities of `convertGeodeticToEcef` (lines 159 to 171 of the
source), from the equatorial radius, the eccentricity squared, the sine of
the latitude and the altitude. -/
def curvatureTerms (m : MathFunctions R)
    (earthEquatorialRadiusMeters earthEllipsoidalEccentricitySquared
      sineOfGeodeticNorthLatitude geodeticAltitudeMeters : R) : CurvatureTerms R :=
  let N := earthEquatorialRadiusMeters /
    m.sqrt (1 + (-earthEllipsoidalEccentricitySquared * sineOfGeodeticNorthLatitude *
      sineOfGeodeticNorthLatitude))
  let rho := N + geodeticAltitudeMeters
  let rhoz := ((1 - earthEllipsoidalEccentricitySquared) * N) + geodeticAltitudeMeters
  ⟨N, rho, rhoz⟩

/-- The function `convertGeodeticToEcef`.  The result `none` stands for the
failure path, on which the source prints a diagnostic and assigns `NAN` to
the three outputs; `some` carries the three outputs of the other path. -/
def convertGeodeticToEcef (m : MathFunctions R)
    (earthEquatorialRadiusMeters earthEllipsoidalEccentricitySquared
      geodeticNorthLatitudeRadians geocentricEastLongitudeRadians
      geodeticAltitudeMeters : R) : Option (EcefOutputs R) :=
  let sineOfGeodeticNorthLatitude := m.sin geodeticNorthLatitudeRadians
  let cosineOfGeodeticNorthLatitude := m.cos geodeticNorthLatitudeRadians
  let sineOfGeocentricEastLongitude := m.sin geocentricEastLongitudeRadians
  let cosineOfGeocentricEastLongitude := m.cos geocentricEastLongitudeRadians
  let t := curvatureTerms m earthEquatorialRadiusMeters
    earthEllipsoidalEccentricitySquared sineOfGeodeticNorthLatitude geodeticAltitudeMeters
  if t.rho > 0 ∧ t.rhoz > 0 then
    let r := t.rho * cosineOfGeodeticNorthLatitude
    some ⟨r * cosineOfGeocentricEastLongitude, r * sineOfGeocentricEastLongitude,
      t.rhoz * sineOfGeodeticNorthLatitude⟩
  else
    none

end Embedding

/-- The real functions that `<math.h>` approximates: `atan2 y x` is the
argument, in `(-π, π]`, of the point `(x, y)`, and `0` at the origin. -/
noncomputable def realMath : MathFunctions ℝ where
  sqrt := Real.sqrt
  atan := Real.arctan
  atan2 := fun y x => Complex.arg ⟨x, y⟩
  sin := Real.sin
  cos := Real.cos

/-! ## Halley's method, as the specification words it -/

/-- Modelled from the spec's words (the equation solved by Halley's method):
the function `g T = P T - Z - E T / sqrt (1 + T^2)` whose zero is sought. -/
noncomputable def latitudeEquation (P Z E T : ℝ) : ℝ :=
  P * T - Z - E * T / Real.sqrt (1 + T ^ 2)

/-- Modelled from the spec's words: one step of Halley's method for the
function `g` from the point `T`,
`T - 2 g(T) g'(T) / (2 g'(T)^2 - g(T) g''(T))`. -/
noncomputable def halleyUpdate (g : ℝ → ℝ) (T : ℝ) : ℝ :=
  T - 2 * g T * deriv g T / (2 * deriv g T ^ 2 - g T * deriv (deriv g) T)

/-! ## The arithmetic of `double` -/

/-- The operations on `double` that the two functions use: the value of a
decimal literal, the four operations, unary minus, `abs`, and the comparisons
`<` and `<=` (`>` and `>=` are these with the operands exchanged). -/
structure DoubleArithmetic (D : Type) where
  literal : ℚ → D
  add : D → D → D
  sub : D → D → D
  mul : D → D → D
  div : D → D → D
  neg : D → D
  abs : D → D
  lt : D → D → Bool
  le : D → D → Bool

/-- Exact arithmetic in a linearly ordered field, the reading of `double`
that the embedding above uses. -/
def exactArithmetic (R : Type) [LinearOrderedField R] : DoubleArithmetic R where
  literal := fun q => (q : R)
  add := fun x y => x + y
  sub := fun x y => x - y
  mul := fun x y => x * y
  div := fun x y => x / y
  neg := fun x => -x
  abs := fun x => |x|
  lt := fun x y => decide (x < y)
  le := fun x y => decide (x ≤ y)

/-- The values of an IEEE 754 binary64 `double`: not-a-number, the two
infinities and the finite values.  A finite value is kept as the rational
number it stands for; the two zeros are not told apart. -/
inductive Binary64 where
  | nan
  | inf (negative : Bool)
  | finite (value : ℚ)
  deriving DecidableEq

/-- Rounding to the nearest integer, ties to the even one. -/
def roundHalfEven {K : Type} [LinearOrderedField K] [FloorRing K] (s : K) : ℤ :=
  if Int.fract s < 1 / 2 then ⌊s⌋
  else if 1 / 2 < Int.fract s then ⌊s⌋ + 1
  else if ⌊s⌋ % 2 = 0 then ⌊s⌋
  else ⌊s⌋ + 1

namespace Binary64

/-- Rounding to nearest, ties to even, with 53 significant bits and the
exponent of the last bit not below `-1074` (gradual underflow), the exponent
not bounded above. -/
def roundValue {K : Type} [LinearOrderedField K] [FloorRing K] (x : K) : ℚ :=
  (roundHalfEven (x / (2 : K) ^ (max (Int.log 2 |x| - 52) (-1074))) : ℚ) *
    (2 : ℚ) ^ (max (Int.log 2 |x| - 52) (-1074))

/-- Rounding of an exact result to binary64: the rounded value, or an
infinity when it reaches `2^1024`. -/
def round {K : Type} [LinearOrderedField K] [FloorRing K] (x : K) : Binary64 :=
  if (2 : ℚ) ^ (1024 : ℤ) ≤ |roundValue x| then inf (decide (x < 0))
  else finite (roundValue x)

/-- Addition of two `double`. -/
def add : Binary64 → Binary64 → Binary64
  | nan, _ => nan
  | _, nan => nan
  | inf s, inf t => if s = t then inf s else nan
  | inf s, finite _ => inf s
  | finite _, inf t => inf t
  | finite p, finite q => round (p + q)

/-- Unary minus. -/
def neg : Binary64 → Binary64
  | nan => nan
  | inf s => inf (!s)
  | finite q => finite (-q)

/-- Subtraction of two `double`. -/
def sub (x y : Binary64) : Binary64 := add x (neg y)

/-- Multiplication of two `double`; zero times an infinity is not a number. -/
def mul : Binary64 → Binary64 → Binary64
  | nan, _ => nan
  | _, nan => nan
  | inf s, inf t => inf (xor s t)
  | inf s, finite q => if q = 0 then nan else inf (xor s (decide (q < 0)))
  | finite p, inf t => if p = 0 then nan else inf (xor (decide (p < 0)) t)
  | finite p, finite q => round (p * q)

/-- Division of two `double`.  A zero divisor counts as `+0`. -/
def div : Binary64 → Binary64 → Binary64
  | nan, _ => nan
  | _, nan => nan
  | inf _, inf _ => nan
  | inf s, finite q => inf (xor s (decide (q < 0)))
  | finite _, inf _ => finite 0
  | finite p, finite q =>
    if q = 0 then (if p = 0 then nan else inf (decide (p < 0))) else round (p / q)

/-- The function `abs` on `double`. -/
def abs : Binary64 → Binary64
  | nan => nan
  | inf _ => inf false
  | finite q => finite |q|

/-- The comparison `<`, false as soon as an operand is not a number. -/
def lt : Binary64 → Binary64 → Bool
  | nan, _ => false
  | _, nan => false
  | inf s, inf t => s && !t
  | inf s, finite _ => s
  | finite _, inf t => !t
  | finite p, finite q => decide (p < q)

/-- The comparison `<=`, false as soon as an operand is not a number. -/
def le : Binary64 → Binary64 → Bool
  | nan, _ => false
  | _, nan => false
  | inf s, inf t => s || !t
  | inf s, finite _ => s
  | finite _, inf t => !t
  | finite p, finite q => decide (p ≤ q)

end Binary64

/-- The arithmetic of binary64: every operation rounds its exact result. -/
def binary64 : DoubleArithmetic Binary64 where
  literal := fun q => Binary64.round q
  add := Binary64.add
  sub := Binary64.sub
  mul := Binary64.mul
  div := Binary64.div
  neg := Binary64.neg
  abs := Binary64.abs
  lt := Binary64.lt
  le := Binary64.le

/-- The angle that `atan2` rounds, for operands that are numbers: the
argument of the point `(x, y)`, an infinite coordinate standing for its
direction. -/
noncomputable def atan2Angle : Binary64 → Binary64 → ℝ
  | Binary64.finite y, Binary64.finite x => Complex.arg ⟨x, y⟩
  | Binary64.finite y, Binary64.inf t =>
    if t then (if y < 0 then -Real.pi else Real.pi) else 0
  | Binary64.inf s, Binary64.finite _ => if s then -(Real.pi / 2) else Real.pi / 2
  | Binary64.inf s, Binary64.inf t =>
    Complex.arg ⟨if t then -1 else 1, if s then -1 else 1⟩
  | _, _ => 0

/-- The functions of `<math.h>` on binary64, in their ideal form: the exact
real value, rounded.  `sqrt` is required to be so by IEEE 754; for the other
functions a library may differ from the ideal in the last bits.  An operand
that is not a number gives not-a-number, and so do the square root of a
negative number and the sine and cosine of an infinity. -/
noncomputable def binary64Math : MathFunctions Binary64 where
  sqrt := fun x =>
    match x with
    | Binary64.nan => Binary64.nan
    | Binary64.inf s => if s then Binary64.nan else Binary64.inf false
    | Binary64.finite q => if q < 0 then Binary64.nan else Binary64.round (Real.sqrt q)
  atan := fun x =>
    match x with
    | Binary64.nan => Binary64.nan
    | Binary64.inf s => Binary64.round (if s then -(Real.pi / 2) else Real.pi / 2)
    | Binary64.finite q => Binary64.round (Real.arctan q)
  atan2 := fun y x =>
    match y, x with
    | Binary64.nan, _ => Binary64.nan
    | _, Binary64.nan => Binary64.nan
    | y, x => Binary64.round (atan2Angle y x)
  sin := fun x =>
    match x with
    | Binary64.finite q => Binary64.round (Real.sin q)
    | _ => Binary64.nan
  cos := fun x =>
    match x with
    | Binary64.finite q => Binary64.round (Real.cos q)
    | _ => Binary64.nan

/-! ## The two functions over an arithmetic of `double`

The same two functions, term by term, with every operation and comparison
taken from a `DoubleArithmetic`, so that rounding, overflow, underflow and
not-a-number can be followed. -/

namespace Machine

variable {D : Type}

/-- The Newton and Halley correction factors of the normal branch (lines 289
to 387 of the source), over an arithmetic of `double`. -/
def halleyTerms (ar : DoubleArithmetic D) (m : MathFunctions D)
    (earthEquatorialRadiusMeters earthEllipticitySquared oneAndHalf_e4
      complimentaryEarthEllipticity earthPolarAxisDistanceMeters absZ : D) :
    HalleyTerms D :=
  let S0 := ar.div absZ earthEquatorialRadiusMeters
  let Pn := ar.div earthPolarAxisDistanceMeters earthEquatorialRadiusMeters
  let zc := ar.mul complimentaryEarthEllipticity S0
  let C0 := ar.mul complimentaryEarthEllipticity Pn
  let C0Squared := ar.mul C0 C0
  let C0Cubed := ar.mul C0 C0Squared
  let S0Squared := ar.mul S0 S0
  let S0Cubed := ar.mul S0 S0Squared
  let A0Squared := ar.add C0Squared S0Squared
  let A0 := m.sqrt A0Squared
  let A0Cubed := ar.mul A0 A0Squared
  let D0 := ar.add (ar.mul zc A0Cubed) (ar.mul earthEllipticitySquared S0Cubed)
  let F0 := ar.add (ar.mul Pn A0Cubed) (ar.mul (ar.neg earthEllipticitySquared) C0Cubed)
  let B0 := ar.mul (ar.mul (ar.mul (ar.mul oneAndHalf_e4 S0Squared) C0Squared) Pn)
    (ar.sub A0 complimentaryEarthEllipticity)
  let S1 := ar.add (ar.mul D0 F0) (ar.mul (ar.neg B0) S0)
  let C1 := ar.add (ar.mul F0 F0) (ar.mul (ar.neg B0) C0)
  let Cc := ar.mul complimentaryEarthEllipticity C1
  ⟨S0, Pn, zc, C0, A0, D0, F0, B0, S1, C1, Cc⟩

/-- The geodetic computation proper (lines 242 to 471 of the source), over an
arithmetic of `double`. -/
def geodeticComputation (ar : DoubleArithmetic D) (m : MathFunctions D)
    (earthEquatorialRadiusMeters aEpsSquared earthEllipticitySquared
      oneAndHalf_e4 complimentaryEarthEllipticitySquared
      xEcefMeters yEcefMeters zEcefMeters : D) : GeodeticOutputs D :=
  let complimentaryEarthEllipticity := m.sqrt complimentaryEarthEllipticitySquared
  let earthPolarRadiusMeters :=
    ar.mul complimentaryEarthEllipticity earthEquatorialRadiusMeters
  let earthPolarAxisDistanceSquared :=
    ar.add (ar.mul xEcefMeters xEcefMeters) (ar.mul yEcefMeters yEcefMeters)
  let longitude :=
    if ar.lt (ar.literal 0) earthPolarAxisDistanceSquared then
      m.atan2 yEcefMeters xEcefMeters
    else ar.literal 0
  let absZ := ar.abs zEcefMeters
  let latAlt : D × D :=
    if ar.lt aEpsSquared earthPolarAxisDistanceSquared then
      let earthPolarAxisDistanceMeters := m.sqrt earthPolarAxisDistanceSquared
      let t := halleyTerms ar m earthEquatorialRadiusMeters earthEllipticitySquared
        oneAndHalf_e4 complimentaryEarthEllipticity earthPolarAxisDistanceMeters absZ
      let latitude := m.atan2 t.S1 t.Cc
      let S1Squared := ar.mul t.S1 t.S1
      let CcSquared := ar.mul t.Cc t.Cc
      let a1 := m.sqrt (ar.add (ar.mul complimentaryEarthEllipticitySquared S1Squared)
        CcSquared)
      let altitude :=
        ar.div
          (ar.add (ar.add (ar.mul earthPolarAxisDistanceMeters t.Cc) (ar.mul absZ t.S1))
            (ar.mul (ar.neg earthEquatorialRadiusMeters) a1))
          (m.sqrt (ar.add CcSquared S1Squared))
      (latitude, altitude)
    else
      let piOverTwo := ar.mul (ar.literal 2) (m.atan (ar.literal 1))
      (piOverTwo, ar.sub absZ earthPolarRadiusMeters)
  let latitude := if ar.lt zEcefMeters (ar.literal 0) then ar.neg latAlt.1 else latAlt.1
  ⟨latitude, longitude, latAlt.2⟩

/-- The function `convertEcefToGeodetic` over an arithmetic of `double`.
`out` holds the values of the three output variables before the call. -/
def convertEcefToGeodetic (ar : DoubleArithmetic D) (m : MathFunctions D)
    (earthEquatorialRadiusMeters earthEllipsoidalFlatteningFactor
      xEcefMeters yEcefMeters zEcefMeters : D) (out : GeodeticOutputs D) :
    ECEF_TO_GEODETIC_CONVERSION_STATUS × GeodeticOutputs D :=
  let returnValue := UNDETERMINED_CONVERSION_STATUS
  let state : ECEF_TO_GEODETIC_CONVERSION_STATUS × GeodeticOutputs D := (returnValue, out)
  if ar.le (ar.literal 0) earthEllipsoidalFlatteningFactor &&
      ar.lt earthEllipsoidalFlatteningFactor (ar.literal 1) then
    if ar.lt (ar.literal 0) earthEquatorialRadiusMeters then
      let eps : D := ar.literal 1.0e-16
      let aEps := ar.mul earthEquatorialRadiusMeters eps
      let aEpsSquared := ar.mul aEps aEps
      let earthEllipticitySquared :=
        ar.mul (ar.sub (ar.literal 2) earthEllipsoidalFlatteningFactor)
          earthEllipsoidalFlatteningFactor
      let earthEllipticityForth := ar.mul earthEllipticitySquared earthEllipticitySquared
      let oneAndHalf_e4 := ar.mul (ar.literal 1.5) earthEllipticityForth
      let complimentaryEarthEllipticitySquared :=
        ar.sub (ar.literal 1) earthEllipticitySquared
      if ar.lt (ar.literal 0) complimentaryEarthEllipticitySquared then
        (SUCCESSFUL_CONVERSION,
          geodeticComputation ar m earthEquatorialRadiusMeters aEpsSquared
            earthEllipticitySquared oneAndHalf_e4 complimentaryEarthEllipticitySquared
            xEcefMeters yEcefMeters zEcefMeters)
      else
        (INVALID_ELLIPSOIDAL_FLATTENING, state.2)
    else
      (INVALID_EQUATORIAL_RADIUS, state.2)
  else
    (INVALID_ELLIPSOIDAL_FLATTENING, state.2)

/-- The length quantities of `convertGeodeticToEcef` (lines 159 to 171 of the
source), over an arithmetic of `double`. -/
def curvatureTerms (ar : DoubleArithmetic D) (m : MathFunctions D)
    (earthEquatorialRadiusMeters earthEllipsoidalEccentricitySquared
      sineOfGeodeticNorthLatitude geodeticAltitudeMeters : D) : CurvatureTerms D :=
  let N := ar.div earthEquatorialRadiusMeters
    (m.sqrt (ar.add (ar.literal 1)
      (ar.mul (ar.mul (ar.neg earthEllipsoidalEccentricitySquared)
        sineOfGeodeticNorthLatitude) sineOfGeodeticNorthLatitude)))
  let rho := ar.add N geodeticAltitudeMeters
  let rhoz := ar.add
    (ar.mul (ar.sub (ar.literal 1) earthEllipsoidalEccentricitySquared) N)
    geodeticAltitudeMeters
  ⟨N, rho, rhoz⟩

/-- The function `convertGeodeticToEcef` over an arithmetic of `double`; `none`
stands for the failure path, which assigns `NAN` to the three outputs. -/
def convertGeodeticToEcef (ar : DoubleArithmetic D) (m : MathFunctions D)
    (earthEquatorialRadiusMeters earthEllipsoidalEccentricitySquared
      geodeticNorthLatitudeRadians geocentricEastLongitudeRadians
      geodeticAltitudeMeters : D) : Option (EcefOutputs D) :=
  let sineOfGeodeticNorthLatitude := m.sin geodeticNorthLatitudeRadians
  let cosineOfGeodeticNorthLatitude := m.cos geodeticNorthLatitudeRadians
  let sineOfGeocentricEastLongitude := m.sin geocentricEastLongitudeRadians
  let cosineOfGeocentricEastLongitude := m.cos geocentricEastLongitudeRadians
  let t := curvatureTerms ar m earthEquatorialRadiusMeters
    earthEllipsoidalEccentricitySquared sineOfGeodeticNorthLatitude geodeticAltitudeMeters
  if ar.lt (ar.literal 0) t.rho && ar.lt (ar.literal 0) t.rhoz then
    let r := ar.mul t.rho cosineOfGeodeticNorthLatitude
    some ⟨ar.mul r cosineOfGeocentricEastLongitude, ar.mul r sineOfGeocentricEastLongitude,
      ar.mul t.rhoz sineOfGeodeticNorthLatitude⟩
  else
    none

end Machine

/-! ## Status of the call -/

section Status

variable {R : Type} [LinearOrderedField R]

/-- For a flattening factor below `1` the value `1 - (2 - f) * f` that the
source re-checks is strictly positive: it is `(1 - f)^2`. -/
theorem complimentaryEllipticitySquared_pos {f : R} (h1 : f < 1) :
    0 < 1 - (2 - f) * f := by
  have h : 1 - (2 - f) * f = (1 - f) * (1 - f) := by ring
  rw [h]
  exact mul_pos (sub_pos.mpr h1) (sub_pos.mpr h1)

/-- The call on a valid ellipsoid: the status is successful and the outputs
are those of `geodeticComputation`. -/
theorem convertEcefToGeodetic_valid (m : MathFunctions R) (a f x y z : R)
    (out : GeodeticOutputs R) (h0 : 0 ≤ f) (h1 : f < 1) (ha : 0 < a) :
    convertEcefToGeodetic m a f x y z out =
      (SUCCESSFUL_CONVERSION,
        geodeticComputation m a (a * 1.0e-16 * (a * 1.0e-16)) ((2 - f) * f)
          (1.5 * ((2 - f) * f * ((2 - f) * f))) (1 - (2 - f) * f) x y z) := by
  have hc := complimentaryEllipticitySquared_pos h1
  simp only [convertEcefToGeodetic, ge_iff_le, gt_iff_lt, h0, h1, ha, hc, and_self, if_true]

/-- The call with a flattening factor outside `[0, 1)`. -/
theorem convertEcefToGeodetic_of_flattening_invalid (m : MathFunctions R) (a f x y z : R)
    (out : GeodeticOutputs R) (h : ¬ (0 ≤ f ∧ f < 1)) :
    convertEcefToGeodetic m a f x y z out = (INVALID_ELLIPSOIDAL_FLATTENING, out) := by
  simp only [convertEcefToGeodetic, ge_iff_le, h, if_false]

/-- The call with a valid flattening factor and a radius that is not positive. -/
theorem convertEcefToGeodetic_of_radius_invalid (m : MathFunctions R) (a f x y z : R)
    (out : GeodeticOutputs R) (h0 : 0 ≤ f) (h1 : f < 1) (ha : ¬ 0 < a) :
    convertEcefToGeodetic m a f x y z out = (INVALID_EQUATORIAL_RADIUS, out) := by
  simp only [convertEcefToGeodetic, ge_iff_le, gt_iff_lt, h0, h1, ha, and_self, if_true,
    if_false]

/-- C2: a flattening factor below `0` or at least `1` gives
`INVALID_ELLIPSOIDAL_FLATTENING` for every radius (also a radius that is not
positive) and every point: the flattening check comes first. -/
theorem C2_invalid_flattening (m : MathFunctions R) (a f x y z : R)
    (out : GeodeticOutputs R) (h : f < 0 ∨ 1 ≤ f) :
    (convertEcefToGeodetic m a f x y z out).1 = INVALID_ELLIPSOIDAL_FLATTENING := by
  have hf : ¬ (0 ≤ f ∧ f < 1) := by
    rintro ⟨h0, h1⟩
    rcases h with h | h
    · exact absurd h0 (not_le.mpr h)
    · exact absurd h1 (not_lt.mpr h)
  rw [convertEcefToGeodetic_of_flattening_invalid m a f x y z out hf]

/-- C3: a valid flattening factor with an equatorial radius that is zero or
negative gives `INVALID_EQUATORIAL_RADIUS` for every point. -/
theorem C3_invalid_radius (m : MathFunctions R) (a f x y z : R)
    (out : GeodeticOutputs R) (h0 : 0 ≤ f) (h1 : f < 1) (ha : a ≤ 0) :
    (convertEcefToGeodetic m a f x y z out).1 = INVALID_EQUATORIAL_RADIUS := by
  rw [convertEcefToGeodetic_of_radius_invalid m a f x y z out h0 h1 (not_lt.mpr ha)]

end Status

/-! ## The geodetic computation, branch by branch -/

section Branches

variable {R : Type} [LinearOrderedField R]

/-- The outputs in the branch of the polar axis. -/
theorem geodeticComputation_polarAxis (m : MathFunctions R)
    (a aEpsSquared e2 e4 ecSquared x y z : R) (h : ¬ x * x + y * y > aEpsSquared) :
    geodeticComputation m a aEpsSquared e2 e4 ecSquared x y z =
      ⟨if z < 0 then -(2 * m.atan 1) else 2 * m.atan 1,
        if x * x + y * y > 0 then m.atan2 y x else 0,
        |z| - m.sqrt ecSquared * a⟩ := by
  simp only [geodeticComputation, h, if_false]

/-- The outputs in the normal branch, in terms of `halleyTerms`. -/
theorem geodeticComputation_normal (m : MathFunctions R)
    (a aEpsSquared e2 e4 ecSquared x y z : R) (h : x * x + y * y > aEpsSquared) :
    geodeticComputation m a aEpsSquared e2 e4 ecSquared x y z =
      ⟨if z < 0
          then -(m.atan2 (halleyTerms m a e2 e4 (m.sqrt ecSquared) (m.sqrt (x * x + y * y)) |z|).S1
            (halleyTerms m a e2 e4 (m.sqrt ecSquared) (m.sqrt (x * x + y * y)) |z|).Cc)
          else m.atan2 (halleyTerms m a e2 e4 (m.sqrt ecSquared) (m.sqrt (x * x + y * y)) |z|).S1
            (halleyTerms m a e2 e4 (m.sqrt ecSquared) (m.sqrt (x * x + y * y)) |z|).Cc,
        if x * x + y * y > 0 then m.atan2 y x else 0,
        (m.sqrt (x * x + y * y) *
              (halleyTerms m a e2 e4 (m.sqrt ecSquared) (m.sqrt (x * x + y * y)) |z|).Cc +
            |z| * (halleyTerms m a e2 e4 (m.sqrt ecSquared) (m.sqrt (x * x + y * y)) |z|).S1 +
            -a * m.sqrt (ecSquared *
                ((halleyTerms m a e2 e4 (m.sqrt ecSquared) (m.sqrt (x * x + y * y)) |z|).S1 *
                  (halleyTerms m a e2 e4 (m.sqrt ecSquared) (m.sqrt (x * x + y * y)) |z|).S1) +
              (halleyTerms m a e2 e4 (m.sqrt ecSquared) (m.sqrt (x * x + y * y)) |z|).Cc *
                (halleyTerms m a e2 e4 (m.sqrt ecSquared) (m.sqrt (x * x + y * y)) |z|).Cc)) /
          m.sqrt
            ((halleyTerms m a e2 e4 (m.sqrt ecSquared) (m.sqrt (x * x + y * y)) |z|).Cc *
                (halleyTerms m a e2 e4 (m.sqrt ecSquared) (m.sqrt (x * x + y * y)) |z|).Cc +
              (halleyTerms m a e2 e4 (m.sqrt ecSquared) (m.sqrt (x * x + y * y)) |z|).S1 *
                (halleyTerms m a e2 e4 (m.sqrt ecSquared) (m.sqrt (x * x + y * y)) |z|).S1)⟩ := by
  simp only [geodeticComputation, h, if_true]

/-- The altitude and the latitude before the change of sign read `z` through
`abs z` only. -/
theorem geodeticComputation_altitude_neg (m : MathFunctions R)
    (a aEpsSquared e2 e4 ecSquared x y z : R) :
    (geodeticComputation m a aEpsSquared e2 e4 ecSquared x y (-z)).altitude =
      (geodeticComputation m a aEpsSquared e2 e4 ecSquared x y z).altitude := by
  simp only [geodeticComputation, abs_neg]

/-- The latitude for `z` is the latitude for `abs z`, with the sign changed
when `z < 0`. -/
theorem geodeticComputation_latitude_sign (m : MathFunctions R)
    (a aEpsSquared e2 e4 ecSquared x y z : R) :
    (geodeticComputation m a aEpsSquared e2 e4 ecSquared x y z).latitude =
      if z < 0 then -(geodeticComputation m a aEpsSquared e2 e4 ecSquared x y |z|).latitude
      else (geodeticComputation m a aEpsSquared e2 e4 ecSquared x y |z|).latitude := by
  simp only [geodeticComputation, abs_abs, not_lt.mpr (abs_nonneg z), if_false]

/-- With `abs z = 0` the corrected sine term `S1` of the Halley step is `0`. -/
theorem halleyTerms_S1_of_absZ_zero (m : MathFunctions R) (a e2 e4 ec p : R) :
    (halleyTerms m a e2 e4 ec p 0).S1 = 0 := by
  simp [halleyTerms]

/-- C7: on a valid ellipsoid the altitude and the longitude returned for
`(x, y, -z)` are those returned for `(x, y, z)`. -/
theorem C7_altitude_longitude_hemisphere_symmetry (m : MathFunctions R) (a f x y z : R)
    (out out2 : GeodeticOutputs R) (h0 : 0 ≤ f) (h1 : f < 1) (ha : 0 < a) :
    (convertEcefToGeodetic m a f x y (-z) out2).2.altitude =
        (convertEcefToGeodetic m a f x y z out).2.altitude ∧
      (convertEcefToGeodetic m a f x y (-z) out2).2.longitude =
        (convertEcefToGeodetic m a f x y z out).2.longitude := by
  rw [convertEcefToGeodetic_valid m a f x y z out h0 h1 ha,
    convertEcefToGeodetic_valid m a f x y (-z) out2 h0 h1 ha]
  exact ⟨geodeticComputation_altitude_neg m _ _ _ _ _ x y z, rfl⟩

end Branches

/-! ## Exact real arithmetic -/

section RealModel

open Real

/-- The complementary ellipticity of a valid ellipsoid is `1 - f`. -/
theorem sqrt_complimentaryEllipticitySquared {f : ℝ} (h1 : f < 1) :
    Real.sqrt (1 - (2 - f) * f) = 1 - f := by
  have h : 1 - (2 - f) * f = (1 - f) * (1 - f) := by ring
  rw [h]
  exact Real.sqrt_mul_self (sub_pos.mpr h1).le

/-- The threshold of the two branches, as the source computes it and as a
square. -/
theorem aEpsSquared_eq (a : ℝ) : a * 1.0e-16 * (a * 1.0e-16) = (a * 1e-16) ^ 2 := by
  ring

/-- The result of the call on a valid ellipsoid for a point in the branch of
the polar axis. -/
theorem convertEcefToGeodetic_polarAxis (a f x y z : ℝ) (out : GeodeticOutputs ℝ)
    (h0 : 0 ≤ f) (h1 : f < 1) (ha : 0 < a)
    (hb : ¬ x * x + y * y > a * 1.0e-16 * (a * 1.0e-16)) :
    convertEcefToGeodetic realMath a f x y z out =
      (SUCCESSFUL_CONVERSION,
        ⟨if z < 0 then -(π / 2) else π / 2,
          if x * x + y * y > 0 then realMath.atan2 y x else 0,
          |z| - Real.sqrt (1 - (2 - f) * f) * a⟩) := by
  have hpi : 2 * realMath.atan 1 = π / 2 := by
    show 2 * Real.arctan 1 = π / 2
    rw [Real.arctan_one]
    ring
  rw [convertEcefToGeodetic_valid realMath a f x y z out h0 h1 ha,
    geodeticComputation_polarAxis realMath _ _ _ _ _ x y z hb, hpi]
  rfl

/-- The inequality behind the sign of `C1`: with `q = C0^2`, `A = A0` and
`A^2 - q = S0^2`, the bracket `(A^3 - E ec q)^2 - 3/2 E^2 ec (A - ec) q (A^2 - q)`
is a quadratic in `q` whose discriminant is not positive. -/
theorem halleyQuadratic_nonneg (E ec A q : ℝ) (hE0 : 0 ≤ E) (hE1 : E ≤ 1) (hec : 0 ≤ ec)
    (hA : 0 ≤ A) (hq0 : 0 ≤ q) (hq : q ≤ A * A) :
    0 ≤ (A * A * A - E * ec * q) ^ 2 - 3 / 2 * (E * E) * ec * (A - ec) * (q * (A * A - q)) := by
  have hqs : 0 ≤ q * (A * A - q) := mul_nonneg hq0 (sub_nonneg.mpr hq)
  have hEE : 0 ≤ 3 / 2 * (E * E) * ec := by positivity
  by_cases hAec : A ≤ ec
  · have h1 : 3 / 2 * (E * E) * ec * (A - ec) * (q * (A * A - q)) ≤ 0 := by
      have : 3 / 2 * (E * E) * ec * (A - ec) ≤ 0 :=
        mul_nonpos_of_nonneg_of_nonpos hEE (sub_nonpos.mpr hAec)
      exact mul_nonpos_of_nonpos_of_nonneg this hqs
    nlinarith [sq_nonneg (A * A * A - E * ec * q)]
  · push_neg at hAec
    set k := E * ec with hk
    set m := 3 / 2 * (E * E) * ec * (A - ec) with hm
    have hk0 : 0 ≤ k := mul_nonneg hE0 hec
    have hkec : k ≤ ec := by
      have := mul_le_mul_of_nonneg_right hE1 hec
      simpa [hk] using this
    have hm0 : 0 ≤ m := mul_nonneg hEE (sub_nonneg.mpr hAec.le)
    have hEE1 : E * E ≤ 1 := by nlinarith
    have hmle : m ≤ 3 / 2 * A * (A - ec) := by
      have h3 : 3 / 2 * (E * E) * ec ≤ 3 / 2 * A := by nlinarith
      exact mul_le_mul_of_nonneg_right h3 (sub_nonneg.mpr hAec.le)
    have hdisc : 0 ≤ 4 * A * A - 4 * k * A - m := by nlinarith
    have key : 4 * (k * k + m) * ((A * A * A - k * q) ^ 2 - m * (q * (A * A - q))) =
        (2 * (k * k + m) * q - (2 * k * (A * A * A) + m * (A * A))) ^ 2 +
          A ^ 4 * m * (4 * A * A - 4 * k * A - m) := by ring
    have hrhs : 0 ≤ (2 * (k * k + m) * q - (2 * k * (A * A * A) + m * (A * A))) ^ 2 +
          A ^ 4 * m * (4 * A * A - 4 * k * A - m) := by positivity
    rcases (add_nonneg (mul_self_nonneg k) hm0).eq_or_lt with h0 | hpos
    · have hm00 : m = 0 := by nlinarith [mul_self_nonneg k]
      rw [hm00]; nlinarith [sq_nonneg (A * A * A - k * q)]
    · rw [← key] at hrhs
      have h4 : 0 < 4 * (k * k + m) := by linarith
      exact le_of_mul_le_mul_left (by simpa using hrhs) h4

/-- The corrected cosine term `C1 = F0^2 - B0 * C0` of the Halley step is
never negative, for a squared ellipticity in `[0, 1]`. -/
theorem halleyTerms_C1_nonneg (a E ec p w : ℝ) (hE0 : 0 ≤ E) (hE1 : E ≤ 1)
    (hec : 0 ≤ ec) :
    0 ≤ (halleyTerms realMath a E (1.5 * (E * E)) ec p w).C1 := by
  have hAA : Real.sqrt (ec * (p / a) * (ec * (p / a)) + w / a * (w / a)) *
      Real.sqrt (ec * (p / a) * (ec * (p / a)) + w / a * (w / a)) =
      ec * (p / a) * (ec * (p / a)) + w / a * (w / a) :=
    Real.mul_self_sqrt (add_nonneg (mul_self_nonneg _) (mul_self_nonneg _))
  have hA0 : 0 ≤ Real.sqrt (ec * (p / a) * (ec * (p / a)) + w / a * (w / a)) :=
    Real.sqrt_nonneg _
  show 0 ≤ (p / a * (Real.sqrt (ec * (p / a) * (ec * (p / a)) + w / a * (w / a)) *
        (ec * (p / a) * (ec * (p / a)) + w / a * (w / a))) +
          -E * (ec * (p / a) * (ec * (p / a) * (ec * (p / a))))) *
      (p / a * (Real.sqrt (ec * (p / a) * (ec * (p / a)) + w / a * (w / a)) *
        (ec * (p / a) * (ec * (p / a)) + w / a * (w / a))) +
          -E * (ec * (p / a) * (ec * (p / a) * (ec * (p / a))))) +
      -(1.5 * (E * E) * (w / a * (w / a)) * (ec * (p / a) * (ec * (p / a))) * (p / a) *
        (Real.sqrt (ec * (p / a) * (ec * (p / a)) + w / a * (w / a)) - ec)) * (ec * (p / a))
  have hS0 : 0 ≤ w / a * (w / a) := mul_self_nonneg _
  generalize Real.sqrt (ec * (p / a) * (ec * (p / a)) + w / a * (w / a)) = A at hAA hA0 ⊢
  generalize w / a * (w / a) = S2 at hAA hS0 ⊢
  generalize p / a = P at hAA ⊢
  have hq := halleyQuadratic_nonneg E ec A (ec * P * (ec * P)) hE0 hE1 hec hA0
    (mul_self_nonneg _) (by linarith)
  have hS2 : S2 = A * A - ec * P * (ec * P) := by linarith
  subst hS2
  have h15 : (1.5 : ℝ) = 3 / 2 := by norm_num
  rw [h15]
  have hEq : (P * (A * (ec * P * (ec * P) + (A * A - ec * P * (ec * P)))) +
          -E * (ec * P * (ec * P * (ec * P)))) *
        (P * (A * (ec * P * (ec * P) + (A * A - ec * P * (ec * P)))) +
          -E * (ec * P * (ec * P * (ec * P)))) +
      -(3 / 2 * (E * E) * (A * A - ec * P * (ec * P)) * (ec * P * (ec * P)) * P * (A - ec)) *
        (ec * P) =
      P * P * ((A * A * A - E * ec * (ec * P * (ec * P))) ^ 2 -
        3 / 2 * (E * E) * ec * (A - ec) *
          (ec * P * (ec * P) * (A * A - ec * P * (ec * P)))) := by ring
  rw [hEq]
  exact mul_nonneg (mul_self_nonneg P) hq

/-- The squared ellipticity `(2 - f) * f` of a valid flattening factor lies
in `[0, 1]`. -/
theorem ellipticitySquared_mem {f : ℝ} (h0 : 0 ≤ f) (h1 : f < 1) :
    0 ≤ (2 - f) * f ∧ (2 - f) * f ≤ 1 := by
  constructor
  · exact mul_nonneg (by linarith) h0
  · nlinarith [mul_self_nonneg (1 - f)]

/-- On a valid ellipsoid the second argument `Cc` that the normal branch
passes to `atan2` is never negative. -/
theorem halleyTerms_Cc_nonneg (a f p w : ℝ) (h0 : 0 ≤ f) (h1 : f < 1) :
    0 ≤ (halleyTerms realMath a ((2 - f) * f) (1.5 * ((2 - f) * f * ((2 - f) * f)))
      (realMath.sqrt (1 - (2 - f) * f)) p w).Cc := by
  have hE := ellipticitySquared_mem h0 h1
  have hec : 0 ≤ realMath.sqrt (1 - (2 - f) * f) := Real.sqrt_nonneg _
  exact mul_nonneg hec (halleyTerms_C1_nonneg a _ _ p w hE.1 hE.2 hec)

/-- On a valid ellipsoid the latitude computed by `geodeticComputation` is at
most `π/2` in absolute value. -/
theorem geodeticComputation_latitude_abs_le (a f x y z : ℝ) (h0 : 0 ≤ f) (h1 : f < 1) :
    |(geodeticComputation realMath a (a * 1.0e-16 * (a * 1.0e-16)) ((2 - f) * f)
        (1.5 * ((2 - f) * f * ((2 - f) * f))) (1 - (2 - f) * f) x y z).latitude| ≤ π / 2 := by
  by_cases hb : x * x + y * y > a * 1.0e-16 * (a * 1.0e-16)
  · rw [geodeticComputation_normal realMath _ _ _ _ _ x y z hb]
    have hCc := halleyTerms_Cc_nonneg a f (realMath.sqrt (x * x + y * y)) |z| h0 h1
    have harg : ∀ s c : ℝ, 0 ≤ c → |realMath.atan2 s c| ≤ π / 2 := fun s c hc =>
      Complex.abs_arg_le_pi_div_two_iff.mpr hc
    have hL := harg
      (halleyTerms realMath a ((2 - f) * f) (1.5 * ((2 - f) * f * ((2 - f) * f)))
        (realMath.sqrt (1 - (2 - f) * f)) (realMath.sqrt (x * x + y * y)) |z|).S1 _ hCc
    by_cases hz : z < 0
    · simp only [hz, if_true, abs_neg]
      exact hL
    · simp only [hz, if_false]
      exact hL
  · rw [geodeticComputation_polarAxis realMath _ _ _ _ _ x y z hb]
    have hpi : 2 * realMath.atan 1 = π / 2 := by
      show 2 * Real.arctan 1 = π / 2
      rw [Real.arctan_one]
      ring
    have hpos : 0 ≤ π / 2 := by linarith [Real.pi_pos]
    by_cases hz : z < 0
    · simp only [hz, if_true, abs_neg, hpi, abs_of_nonneg hpos, le_refl]
    · simp only [hz, if_false, hpi, abs_of_nonneg hpos, le_refl]

/-- C10, in exact real arithmetic (no rounding, no overflow): on a valid
ellipsoid the returned latitude lies in `[-π/2, π/2]`, and in the normal
branch the second argument `Cc = e_c * (F0^2 - B0 * C0)` of `atan2` is never
negative. -/
theorem C10_latitude_range (a f x y z : ℝ) (out : GeodeticOutputs ℝ)
    (h0 : 0 ≤ f) (h1 : f < 1) (ha : 0 < a) :
    (-(π / 2) ≤ (convertEcefToGeodetic realMath a f x y z out).2.latitude ∧
        (convertEcefToGeodetic realMath a f x y z out).2.latitude ≤ π / 2) ∧
      ((a * 1e-16) ^ 2 < x ^ 2 + y ^ 2 →
        0 ≤ (halleyTerms realMath a ((2 - f) * f) (1.5 * ((2 - f) * f * ((2 - f) * f)))
          (realMath.sqrt (1 - (2 - f) * f)) (realMath.sqrt (x * x + y * y)) |z|).Cc) := by
  refine ⟨?_, fun _ => halleyTerms_Cc_nonneg a f _ _ h0 h1⟩
  rw [convertEcefToGeodetic_valid realMath a f x y z out h0 h1 ha]
  exact abs_le.mp (geodeticComputation_latitude_abs_le a f x y z h0 h1)

/-- In the normal branch a point of the equatorial plane (`z = 0`) has
latitude `0`: `S1 = 0` and `Cc ≥ 0`. -/
theorem geodeticComputation_latitude_equator (a f x y : ℝ) (h0 : 0 ≤ f) (h1 : f < 1)
    (hb : x * x + y * y > a * 1.0e-16 * (a * 1.0e-16)) :
    (geodeticComputation realMath a (a * 1.0e-16 * (a * 1.0e-16)) ((2 - f) * f)
        (1.5 * ((2 - f) * f * ((2 - f) * f))) (1 - (2 - f) * f) x y 0).latitude = 0 := by
  rw [geodeticComputation_normal realMath _ _ _ _ _ x y 0 hb]
  have hCc := halleyTerms_Cc_nonneg a f (realMath.sqrt (x * x + y * y)) 0 h0 h1
  have harg : ∀ c : ℝ, 0 ≤ c → realMath.atan2 0 c = 0 := fun c hc =>
    Complex.arg_eq_zero_iff.mpr ⟨hc, rfl⟩
  simp only [lt_irrefl, if_false, abs_zero, halleyTerms_S1_of_absZ_zero]
  exact harg _ hCc

/-- C6, as the code has it: on a valid ellipsoid, for a point with `z ≠ 0`
or in the normal branch (`x^2 + y^2 > (a * 1e-16)^2`), the latitude returned
for `(x, y, -z)` is the opposite of the latitude returned for `(x, y, z)`. -/
theorem C6_latitude_hemisphere_symmetry (a f x y z : ℝ) (out out2 : GeodeticOutputs ℝ)
    (h0 : 0 ≤ f) (h1 : f < 1) (ha : 0 < a)
    (h : z ≠ 0 ∨ (a * 1e-16) ^ 2 < x ^ 2 + y ^ 2) :
    (convertEcefToGeodetic realMath a f x y (-z) out2).2.latitude =
      -(convertEcefToGeodetic realMath a f x y z out).2.latitude := by
  rw [convertEcefToGeodetic_valid realMath a f x y z out h0 h1 ha,
    convertEcefToGeodetic_valid realMath a f x y (-z) out2 h0 h1 ha]
  show (geodeticComputation realMath _ _ _ _ _ x y (-z)).latitude =
    -(geodeticComputation realMath _ _ _ _ _ x y z).latitude
  rcases lt_trichotomy z 0 with hz | hz | hz
  · have hneg : ¬ -z < 0 := by linarith
    rw [geodeticComputation_latitude_sign realMath _ _ _ _ _ x y z,
      geodeticComputation_latitude_sign realMath _ _ _ _ _ x y (-z), abs_neg,
      if_pos hz, if_neg hneg, neg_neg]
  · have hb : x * x + y * y > a * 1.0e-16 * (a * 1.0e-16) := by
      rcases h with h | h
      · exact absurd hz h
      · rw [aEpsSquared_eq]
        have : x * x + y * y = x ^ 2 + y ^ 2 := by ring
        rw [this]
        exact h
    rw [hz, neg_zero, geodeticComputation_latitude_equator a f x y h0 h1 hb, neg_zero]
  · have hpos : ¬ z < 0 := not_lt.mpr hz.le
    have hneg : -z < 0 := by linarith
    rw [geodeticComputation_latitude_sign realMath _ _ _ _ _ x y z,
      geodeticComputation_latitude_sign realMath _ _ _ _ _ x y (-z), abs_neg,
      if_neg hpos, if_pos hneg]

/-- C6 as stated fails at the centre of the ellipsoid: on the sphere of
radius `1` the point `(0, 0, 0)` gets latitude `π/2`, and so does its mirror
image `(0, 0, -0)`, which is not the opposite latitude `-π/2`. -/
theorem C6_counterexample_centre :
    (0 : ℝ) ≤ 0 ∧ (0 : ℝ) < 1 ∧ (0 : ℝ) < 1 ∧
      (convertEcefToGeodetic realMath 1 0 0 0 0 ⟨0, 0, 0⟩).2.latitude = π / 2 ∧
      (convertEcefToGeodetic realMath 1 0 0 0 (-0) ⟨0, 0, 0⟩).2.latitude ≠
        -(convertEcefToGeodetic realMath 1 0 0 0 0 ⟨0, 0, 0⟩).2.latitude := by
  have hb : ¬ (0 : ℝ) * 0 + 0 * 0 > 1 * 1.0e-16 * (1 * 1.0e-16) := by norm_num
  have h := convertEcefToGeodetic_polarAxis 1 0 0 0 0 ⟨0, 0, 0⟩ le_rfl one_pos one_pos hb
  refine ⟨le_rfl, one_pos, one_pos, ?_, ?_⟩
  · rw [h]
    simp
  · rw [neg_zero, h]
    simp only [lt_irrefl, if_false]
    intro hpi
    linarith [Real.pi_pos]

/-! ## The theorems at concrete inputs -/

/-- C2 at `f = 1` with radius `0`, and at `f = -0.1` with radius `-5`. -/
theorem C2_invalid_flattening_witness :
    (((1 : ℝ) < 0 ∨ (1 : ℝ) ≤ 1) ∧
        (convertEcefToGeodetic realMath 0 1 0 0 0 ⟨0, 0, 0⟩).1 =
          INVALID_ELLIPSOIDAL_FLATTENING) ∧
      (((-0.1 : ℝ) < 0 ∨ (1 : ℝ) ≤ -0.1) ∧
        (convertEcefToGeodetic realMath (-5) (-0.1) 1 2 3 ⟨0, 0, 0⟩).1 =
          INVALID_ELLIPSOIDAL_FLATTENING) :=
  ⟨⟨Or.inr le_rfl, C2_invalid_flattening realMath 0 1 0 0 0 ⟨0, 0, 0⟩ (Or.inr le_rfl)⟩,
    ⟨Or.inl (by norm_num),
      C2_invalid_flattening realMath (-5) (-0.1) 1 2 3 ⟨0, 0, 0⟩ (Or.inl (by norm_num))⟩⟩

/-- C3 at radius `0` and at radius `-5`, on the sphere (`f = 0`). -/
theorem C3_invalid_radius_witness :
    ((0 : ℝ) ≤ 0 ∧ (0 : ℝ) < 1 ∧ (0 : ℝ) ≤ 0 ∧
        (convertEcefToGeodetic realMath 0 0 1 2 3 ⟨0, 0, 0⟩).1 = INVALID_EQUATORIAL_RADIUS) ∧
      ((0 : ℝ) ≤ 0 ∧ (0 : ℝ) < 1 ∧ (-5 : ℝ) ≤ 0 ∧
        (convertEcefToGeodetic realMath (-5) 0 1 2 3 ⟨0, 0, 0⟩).1 =
          INVALID_EQUATORIAL_RADIUS) :=
  ⟨⟨le_rfl, one_pos, le_rfl,
      C3_invalid_radius realMath 0 0 1 2 3 ⟨0, 0, 0⟩ le_rfl one_pos le_rfl⟩,
    ⟨le_rfl, one_pos, by norm_num,
      C3_invalid_radius realMath (-5) 0 1 2 3 ⟨0, 0, 0⟩ le_rfl one_pos (by norm_num)⟩⟩

/-- C6 (amended) at the point `(1, 0, 1)` on the unit sphere. -/
theorem C6_latitude_hemisphere_symmetry_witness :
    (0 : ℝ) ≤ 0 ∧ (0 : ℝ) < 1 ∧ (0 : ℝ) < 1 ∧
      ((1 : ℝ) ≠ 0 ∨ ((1 : ℝ) * 1e-16) ^ 2 < (1 : ℝ) ^ 2 + (0 : ℝ) ^ 2) ∧
      (convertEcefToGeodetic realMath 1 0 1 0 (-1) ⟨0, 0, 0⟩).2.latitude =
        -(convertEcefToGeodetic realMath 1 0 1 0 1 ⟨0, 0, 0⟩).2.latitude :=
  ⟨le_rfl, one_pos, one_pos, Or.inl one_ne_zero,
    C6_latitude_hemisphere_symmetry 1 0 1 0 1 ⟨0, 0, 0⟩ ⟨0, 0, 0⟩ le_rfl one_pos one_pos
      (Or.inl one_ne_zero)⟩

/-- C7 at the point `(1, 0, 1)` on the unit sphere. -/
theorem C7_altitude_longitude_hemisphere_symmetry_witness :
    (0 : ℝ) ≤ 0 ∧ (0 : ℝ) < 1 ∧ (0 : ℝ) < 1 ∧
      ((convertEcefToGeodetic realMath 1 0 1 0 (-1) ⟨0, 0, 0⟩).2.altitude =
          (convertEcefToGeodetic realMath 1 0 1 0 1 ⟨0, 0, 0⟩).2.altitude ∧
        (convertEcefToGeodetic realMath 1 0 1 0 (-1) ⟨0, 0, 0⟩).2.longitude =
          (convertEcefToGeodetic realMath 1 0 1 0 1 ⟨0, 0, 0⟩).2.longitude) :=
  ⟨le_rfl, one_pos, one_pos,
    C7_altitude_longitude_hemisphere_symmetry realMath 1 0 1 0 1 ⟨0, 0, 0⟩ ⟨0, 0, 0⟩
      le_rfl one_pos one_pos⟩

/-- C10 at the point `(1, 0, 1)` on the unit sphere. -/
theorem C10_latitude_range_witness :
    (0 : ℝ) ≤ 0 ∧ (0 : ℝ) < 1 ∧ (0 : ℝ) < 1 ∧
      ((1 : ℝ) * 1e-16) ^ 2 < (1 : ℝ) ^ 2 + (0 : ℝ) ^ 2 ∧
      (-(Real.pi / 2) ≤ (convertEcefToGeodetic realMath 1 0 1 0 1 ⟨0, 0, 0⟩).2.latitude ∧
        (convertEcefToGeodetic realMath 1 0 1 0 1 ⟨0, 0, 0⟩).2.latitude ≤ Real.pi / 2) ∧
      0 ≤ (halleyTerms realMath 1 ((2 - 0) * 0) (1.5 * ((2 - 0) * 0 * ((2 - 0) * 0)))
        (realMath.sqrt (1 - (2 - 0) * 0)) (realMath.sqrt (1 * 1 + 0 * 0)) |(1 : ℝ)|).Cc :=
  have h := C10_latitude_range 1 0 1 0 1 ⟨0, 0, 0⟩ le_rfl one_pos one_pos
  ⟨le_rfl, one_pos, one_pos, by norm_num, h.1, h.2 (by norm_num)⟩

end RealModel

/-! ## The forward conversion and the error paths -/

section Forward

variable {R : Type} [LinearOrderedField R]

/-- The length quantities, written out. -/
theorem curvatureTerms_eq (m : MathFunctions R) (a e2 s alt : R) :
    (curvatureTerms m a e2 s alt).N = a / m.sqrt (1 - e2 * s ^ 2) ∧
      (curvatureTerms m a e2 s alt).rho = a / m.sqrt (1 - e2 * s ^ 2) + alt ∧
      (curvatureTerms m a e2 s alt).rhoz = (1 - e2) * (a / m.sqrt (1 - e2 * s ^ 2)) + alt := by
  have h : 1 + -e2 * s * s = 1 - e2 * s ^ 2 := by ring
  simp only [curvatureTerms, h, and_self]

/-- The success path of `convertGeodeticToEcef`. -/
theorem convertGeodeticToEcef_of_pos (m : MathFunctions R) (a e2 lat lon alt : R)
    (hrho : 0 < (curvatureTerms m a e2 (m.sin lat) alt).rho)
    (hrhoz : 0 < (curvatureTerms m a e2 (m.sin lat) alt).rhoz) :
    convertGeodeticToEcef m a e2 lat lon alt =
      some ⟨(curvatureTerms m a e2 (m.sin lat) alt).rho * m.cos lat * m.cos lon,
        (curvatureTerms m a e2 (m.sin lat) alt).rho * m.cos lat * m.sin lon,
        (curvatureTerms m a e2 (m.sin lat) alt).rhoz * m.sin lat⟩ := by
  simp only [convertGeodeticToEcef, gt_iff_lt, hrho, hrhoz, and_self, if_true]

/-- C14: with `N = a / sqrt (1 - e2 * sin(lat)^2)`, `rho = N + alt` and
`rhoz = (1 - e2) * N + alt`, whenever `rho > 0` and `rhoz > 0` the outputs of
`convertGeodeticToEcef` are `x = rho * cos(lat) * cos(lon)`,
`y = rho * cos(lat) * sin(lon)` and `z = rhoz * sin(lat)`. -/
theorem C14_forward_formula (m : MathFunctions R) (a e2 lat lon alt N rho rhoz : R)
    (hN : N = a / m.sqrt (1 - e2 * m.sin lat ^ 2)) (hrho : rho = N + alt)
    (hrhoz : rhoz = (1 - e2) * N + alt) (hpos : 0 < rho) (hposz : 0 < rhoz) :
    convertGeodeticToEcef m a e2 lat lon alt =
      some ⟨rho * m.cos lat * m.cos lon, rho * m.cos lat * m.sin lon, rhoz * m.sin lat⟩ := by
  obtain ⟨-, h2, h3⟩ := curvatureTerms_eq m a e2 (m.sin lat) alt
  have e1 : (curvatureTerms m a e2 (m.sin lat) alt).rho = rho := by rw [h2, hrho, hN]
  have e2z : (curvatureTerms m a e2 (m.sin lat) alt).rhoz = rhoz := by rw [h3, hrhoz, hN]
  rw [convertGeodeticToEcef_of_pos m a e2 lat lon alt (by rw [e1]; exact hpos)
    (by rw [e2z]; exact hposz), e1, e2z]

/-- C18, as the code has it: when the flattening or the radius validation
fails, `convertEcefToGeodetic` assigns nothing to the three outputs, which
keep the values they held before the call; the kind of error is reported by
the returned status alone. -/
theorem C18_error_paths_assign_no_output (m : MathFunctions R) (a f x y z : R)
    (out : GeodeticOutputs R) :
    (¬ (0 ≤ f ∧ f < 1) →
        convertEcefToGeodetic m a f x y z out = (INVALID_ELLIPSOIDAL_FLATTENING, out)) ∧
      (0 ≤ f → f < 1 → a ≤ 0 →
        convertEcefToGeodetic m a f x y z out = (INVALID_EQUATORIAL_RADIUS, out)) :=
  ⟨fun hf => convertEcefToGeodetic_of_flattening_invalid m a f x y z out hf,
    fun h0 h1 ha => convertEcefToGeodetic_of_radius_invalid m a f x y z out h0 h1
      (not_lt.mpr ha)⟩

end Forward

/-! ## The forward conversion in exact real arithmetic -/

section ForwardReal

open Real

/-- On an ellipsoid with `0 ≤ e2 < 1` the radicand `1 - e2 * sin(lat)^2` is
strictly positive and the prime vertical radius `N` is at least `a`. -/
theorem curvatureTerms_radicand_pos_and_le (a e2 lat alt : ℝ) (ha : 0 < a)
    (h0 : 0 ≤ e2) (h1 : e2 < 1) :
    0 < 1 - e2 * Real.sin lat ^ 2 ∧
      a ≤ (curvatureTerms realMath a e2 (realMath.sin lat) alt).N := by
  have hs0 : 0 ≤ Real.sin lat ^ 2 := sq_nonneg _
  have hs1 : Real.sin lat ^ 2 ≤ 1 := Real.sin_sq_le_one lat
  have hrad : 0 < 1 - e2 * Real.sin lat ^ 2 := by nlinarith
  have hrad1 : 1 - e2 * Real.sin lat ^ 2 ≤ 1 := by nlinarith
  have hsq : 0 < Real.sqrt (1 - e2 * Real.sin lat ^ 2) := Real.sqrt_pos.mpr hrad
  have hsq1 : Real.sqrt (1 - e2 * Real.sin lat ^ 2) ≤ 1 := Real.sqrt_le_one.mpr hrad1
  refine ⟨hrad, ?_⟩
  rw [(curvatureTerms_eq realMath a e2 (realMath.sin lat) alt).1]
  show a ≤ a / Real.sqrt (1 - e2 * Real.sin lat ^ 2)
  rw [le_div_iff₀ hsq]
  nlinarith

/-- On an ellipsoid with `0 ≤ e2 < 1`, above the altitude `-(1 - e2) * a`
both `rho` and `rhoz` are strictly positive. -/
theorem curvatureTerms_pos (a e2 lat alt : ℝ) (ha : 0 < a)
    (h0 : 0 ≤ e2) (h1 : e2 < 1) (halt : -((1 - e2) * a) < alt) :
    0 < (curvatureTerms realMath a e2 (realMath.sin lat) alt).rho ∧
      0 < (curvatureTerms realMath a e2 (realMath.sin lat) alt).rhoz := by
  have hN := (curvatureTerms_radicand_pos_and_le a e2 lat alt ha h0 h1).2
  have hrho : (curvatureTerms realMath a e2 (realMath.sin lat) alt).rho =
      (curvatureTerms realMath a e2 (realMath.sin lat) alt).N + alt := rfl
  have hrhoz : (curvatureTerms realMath a e2 (realMath.sin lat) alt).rhoz =
      (1 - e2) * (curvatureTerms realMath a e2 (realMath.sin lat) alt).N + alt := rfl
  rw [hrho, hrhoz]
  generalize (curvatureTerms realMath a e2 (realMath.sin lat) alt).N = N at hN
  constructor
  · nlinarith
  · nlinarith

end ForwardReal

/-! ## Round trip of the longitude, change of unit -/

section RoundTrip

open Real

/-- The real `atan2` recovers the polar angle: for `r > 0` and `θ` in
`(-π, π]`, `atan2 (r sin θ) (r cos θ) = θ`. -/
theorem realMath_atan2_polar {r θ : ℝ} (hr : 0 < r) (h1 : -π < θ) (h2 : θ ≤ π) :
    realMath.atan2 (r * Real.sin θ) (r * Real.cos θ) = θ := by
  have h := Complex.arg_mul_cos_add_sin_mul_I hr (Set.mem_Ioc.mpr ⟨h1, h2⟩)
  have hz : (⟨r * Real.cos θ, r * Real.sin θ⟩ : ℂ) =
      (r : ℂ) * (Complex.cos θ + Complex.sin θ * Complex.I) := by
    apply Complex.ext
    · simp [Complex.cos_ofReal_re, Complex.sin_ofReal_im]
    · simp [Complex.sin_ofReal_re, Complex.cos_ofReal_im]
  show Complex.arg ⟨r * Real.cos θ, r * Real.sin θ⟩ = θ
  rw [hz]
  exact h

/-- The real `atan2` does not change when both arguments are multiplied by a
positive number. -/
theorem realMath_atan2_scale {k : ℝ} (hk : 0 < k) (s c : ℝ) :
    realMath.atan2 (k * s) (k * c) = realMath.atan2 s c := by
  have hz : (⟨k * c, k * s⟩ : ℂ) = (k : ℂ) * ⟨c, s⟩ := by
    apply Complex.ext <;> simp
  show Complex.arg ⟨k * c, k * s⟩ = Complex.arg ⟨c, s⟩
  rw [hz]
  exact Complex.arg_real_mul _ hk

/-- The Halley terms read the lengths `p` and `abs z` through their ratios to
the equatorial radius only. -/
theorem halleyTerms_scale {R : Type} [LinearOrderedField R] (m : MathFunctions R)
    (k a e2 e4 ec p w : R) (hk : k ≠ 0) :
    halleyTerms m (k * a) e2 e4 ec (k * p) (k * w) = halleyTerms m a e2 e4 ec p w := by
  simp only [halleyTerms, mul_div_mul_left _ _ hk]

/-- Change of the unit of length in `geodeticComputation`: with the radius,
the threshold and the point multiplied by `k > 0`, the same branch is taken,
latitude and longitude are the same and the altitude is multiplied by `k`. -/
theorem geodeticComputation_scale (a e2 e4 ecSq x y z k : ℝ) (hk : 0 < k) :
    geodeticComputation realMath (k * a) (k * a * 1.0e-16 * (k * a * 1.0e-16)) e2 e4 ecSq
        (k * x) (k * y) (k * z) =
      ⟨(geodeticComputation realMath a (a * 1.0e-16 * (a * 1.0e-16)) e2 e4 ecSq
          x y z).latitude,
        (geodeticComputation realMath a (a * 1.0e-16 * (a * 1.0e-16)) e2 e4 ecSq
          x y z).longitude,
        k * (geodeticComputation realMath a (a * 1.0e-16 * (a * 1.0e-16)) e2 e4 ecSq
          x y z).altitude⟩ := by
  have hp2 : k * x * (k * x) + k * y * (k * y) = k * k * (x * x + y * y) := by ring
  have haeps : k * a * 1.0e-16 * (k * a * 1.0e-16) =
      k * k * (a * 1.0e-16 * (a * 1.0e-16)) := by ring
  have hkk : 0 < k * k := mul_pos hk hk
  have habs : |k * z| = k * |z| := by rw [abs_mul, abs_of_pos hk]
  have hsqrt : realMath.sqrt (k * k * (x * x + y * y)) = k * realMath.sqrt (x * x + y * y) := by
    show Real.sqrt (k * k * (x * x + y * y)) = k * Real.sqrt (x * x + y * y)
    rw [Real.sqrt_mul (mul_self_nonneg k), Real.sqrt_mul_self hk.le]
  have hzneg : k * z < 0 ↔ z < 0 := by
    constructor
    · intro h
      by_contra hz
      exact absurd h (not_lt.mpr (mul_nonneg hk.le (not_lt.mp hz)))
    · intro h
      exact mul_neg_of_pos_of_neg hk h
  have hpos : k * k * (x * x + y * y) > 0 ↔ x * x + y * y > 0 :=
    mul_pos_iff_of_pos_left hkk
  have hlon : (if k * k * (x * x + y * y) > 0 then realMath.atan2 (k * y) (k * x) else 0) =
      if x * x + y * y > 0 then realMath.atan2 y x else 0 := by
    rw [realMath_atan2_scale hk y x]
    by_cases h : x * x + y * y > 0
    · rw [if_pos h, if_pos (hpos.mpr h)]
    · rw [if_neg h, if_neg (fun h2 => h (hpos.mp h2))]
  by_cases hb : x * x + y * y > a * 1.0e-16 * (a * 1.0e-16)
  · have hb2 : k * x * (k * x) + k * y * (k * y) > k * a * 1.0e-16 * (k * a * 1.0e-16) := by
      rw [hp2, haeps]
      exact mul_lt_mul_of_pos_left hb hkk
    rw [geodeticComputation_normal realMath _ _ _ _ _ _ _ _ hb2,
      geodeticComputation_normal realMath _ _ _ _ _ _ _ _ hb]
    simp only [hp2, habs, hsqrt, halleyTerms_scale realMath k a _ _ _ _ _ hk.ne', hlon,
      GeodeticOutputs.mk.injEq, true_and]
    constructor
    · by_cases hz : z < 0
      · rw [if_pos hz, if_pos (hzneg.mpr hz)]
      · rw [if_neg hz, if_neg (fun h2 => hz (hzneg.mp h2))]
    · ring
  · have hb2 : ¬ k * x * (k * x) + k * y * (k * y) > k * a * 1.0e-16 * (k * a * 1.0e-16) := by
      rw [hp2, haeps]
      intro h
      exact hb (lt_of_mul_lt_mul_left h hkk.le)
    rw [geodeticComputation_polarAxis realMath _ _ _ _ _ _ _ _ hb2,
      geodeticComputation_polarAxis realMath _ _ _ _ _ _ _ _ hb]
    simp only [hp2, habs, hlon, GeodeticOutputs.mk.injEq, true_and]
    constructor
    · by_cases hz : z < 0
      · rw [if_pos hz, if_pos (hzneg.mpr hz)]
      · rw [if_neg hz, if_neg (fun h2 => hz (hzneg.mp h2))]
    · ring

/-- C19, in exact real arithmetic (no rounding, no underflow, no overflow):
the unit of length is free.  On a valid ellipsoid, for every scale factor
`k > 0`, the call with `(k a, f, k x, k y, k z)` takes the same branch
and returns the same status, latitude and longitude as the call with
`(a, f, x, y, z)`, and `k` times its altitude. -/
theorem C19_unit_independence (a f x y z k : ℝ) (out out2 : GeodeticOutputs ℝ)
    (h0 : 0 ≤ f) (h1 : f < 1) (ha : 0 < a) (hk : 0 < k) :
    ((k * a * 1e-16) ^ 2 < (k * x) ^ 2 + (k * y) ^ 2 ↔ (a * 1e-16) ^ 2 < x ^ 2 + y ^ 2) ∧
      (convertEcefToGeodetic realMath (k * a) f (k * x) (k * y) (k * z) out2).1 =
        (convertEcefToGeodetic realMath a f x y z out).1 ∧
      (convertEcefToGeodetic realMath (k * a) f (k * x) (k * y) (k * z) out2).2.latitude =
        (convertEcefToGeodetic realMath a f x y z out).2.latitude ∧
      (convertEcefToGeodetic realMath (k * a) f (k * x) (k * y) (k * z) out2).2.longitude =
        (convertEcefToGeodetic realMath a f x y z out).2.longitude ∧
      (convertEcefToGeodetic realMath (k * a) f (k * x) (k * y) (k * z) out2).2.altitude =
        k * (convertEcefToGeodetic realMath a f x y z out).2.altitude := by
  have hkk : 0 < k ^ 2 := pow_pos hk 2
  have hbranch : (k * a * 1e-16) ^ 2 < (k * x) ^ 2 + (k * y) ^ 2 ↔
      (a * 1e-16) ^ 2 < x ^ 2 + y ^ 2 := by
    have e1 : (k * a * 1e-16) ^ 2 = k ^ 2 * (a * 1e-16) ^ 2 := by ring
    have e2 : (k * x) ^ 2 + (k * y) ^ 2 = k ^ 2 * (x ^ 2 + y ^ 2) := by ring
    rw [e1, e2]
    exact mul_lt_mul_left hkk
  rw [convertEcefToGeodetic_valid realMath a f x y z out h0 h1 ha,
    convertEcefToGeodetic_valid realMath (k * a) f (k * x) (k * y) (k * z) out2 h0 h1
      (mul_pos hk ha),
    geodeticComputation_scale a _ _ _ x y z k hk]
  exact ⟨hbranch, rfl, rfl, rfl, rfl⟩

end RoundTrip

/-! ## Points of the ellipsoid surface -/

section Surface

open Real

/-- On the surface of the ellipsoid (`A0 = e_c`) the Halley term `B0`
vanishes and the corrected pair `(Cc, S1)` is a positive multiple of
`(e_c^2 Pn, S0)`. -/
theorem halleyTerms_surface (a E ec p w : ℝ) (hec : 0 < ec) (hE : ec * ec = 1 - E)
    (hp : 0 < p / a)
    (hsurf : ec * (p / a) * (ec * (p / a)) + w / a * (w / a) = ec * ec) :
    (halleyTerms realMath a E (1.5 * (E * E)) ec p w).B0 = 0 ∧
      ∃ g : ℝ, 0 < g ∧
        (halleyTerms realMath a E (1.5 * (E * E)) ec p w).S1 = g * (w / a) ∧
        (halleyTerms realMath a E (1.5 * (E * E)) ec p w).Cc = g * (ec * ec * (p / a)) := by
  have hA0 : realMath.sqrt (ec * ec) = ec := Real.sqrt_mul_self hec.le
  have hE2 : E = 1 - ec * ec := by linarith
  have hS2 : w / a * (w / a) = ec * ec - ec * (p / a) * (ec * (p / a)) := by linarith
  have hP1 : p / a * (p / a) ≤ 1 := by
    have h1 : ec * ec * (p / a * (p / a)) ≤ ec * ec * 1 := by
      nlinarith [mul_self_nonneg (w / a)]
    exact le_of_mul_le_mul_left h1 (mul_pos hec hec)
  have hk : 0 < 1 - E * (p / a * (p / a)) := by
    have hE1 : E < 1 := by nlinarith [mul_pos hec hec]
    nlinarith [mul_self_nonneg (p / a)]
  simp only [halleyTerms, hA0, hsurf, sub_self, mul_zero, neg_zero, zero_mul, add_zero,
    true_and]
  refine ⟨ec ^ 5 * (p / a) * (1 - E * (p / a * (p / a))) ^ 2,
    mul_pos (mul_pos (pow_pos hec 5) hp) (pow_pos hk 2), ?_, ?_⟩
  · generalize p / a = P at hS2 ⊢
    generalize w / a = S at hS2 ⊢
    have h3 : S * (S * S) = S * (ec * ec - ec * P * (ec * P)) := by rw [hS2]
    rw [h3, hE2]
    ring
  · generalize p / a = P
    rw [hE2]
    ring

/-- On a valid ellipsoid, for a point of the normal branch that lies on the
surface (`A0 = e_c`, written without square root), `geodeticComputation`
returns altitude `0` and the latitude `atan2 (abs z) ((1 - e2) p)` with the
sign of `z`. -/
theorem geodeticComputation_surface (a f x y z : ℝ) (h1 : f < 1) (ha : 0 < a)
    (hb : x * x + y * y > a * 1.0e-16 * (a * 1.0e-16))
    (hsurf : (1 - (2 - f) * f) * (x * x + y * y) + z * z = (1 - (2 - f) * f) * (a * a)) :
    geodeticComputation realMath a (a * 1.0e-16 * (a * 1.0e-16)) ((2 - f) * f)
        (1.5 * ((2 - f) * f * ((2 - f) * f))) (1 - (2 - f) * f) x y z =
      ⟨if z < 0 then -realMath.atan2 |z| ((1 - (2 - f) * f) * realMath.sqrt (x * x + y * y))
          else realMath.atan2 |z| ((1 - (2 - f) * f) * realMath.sqrt (x * x + y * y)),
        if x * x + y * y > 0 then realMath.atan2 y x else 0, 0⟩ := by
  have hecSq : 0 < 1 - (2 - f) * f := complimentaryEllipticitySquared_pos h1
  have hec : 0 < realMath.sqrt (1 - (2 - f) * f) := Real.sqrt_pos.mpr hecSq
  have hE : realMath.sqrt (1 - (2 - f) * f) * realMath.sqrt (1 - (2 - f) * f) =
      1 - (2 - f) * f := Real.mul_self_sqrt hecSq.le
  have hp2 : 0 < x * x + y * y := lt_of_le_of_lt (mul_self_nonneg _) hb
  have hp : 0 < realMath.sqrt (x * x + y * y) := Real.sqrt_pos.mpr hp2
  have hpp : realMath.sqrt (x * x + y * y) * realMath.sqrt (x * x + y * y) = x * x + y * y :=
    Real.mul_self_sqrt hp2.le
  have hP : 0 < realMath.sqrt (x * x + y * y) / a := div_pos hp ha
  have hzz : |z| * |z| = z * z := abs_mul_abs_self z
  have hnorm : realMath.sqrt (1 - (2 - f) * f) * (realMath.sqrt (x * x + y * y) / a) *
        (realMath.sqrt (1 - (2 - f) * f) * (realMath.sqrt (x * x + y * y) / a)) +
      |z| / a * (|z| / a) =
      realMath.sqrt (1 - (2 - f) * f) * realMath.sqrt (1 - (2 - f) * f) := by
    have e1 : realMath.sqrt (1 - (2 - f) * f) * (realMath.sqrt (x * x + y * y) / a) *
        (realMath.sqrt (1 - (2 - f) * f) * (realMath.sqrt (x * x + y * y) / a)) +
        |z| / a * (|z| / a) =
        ((realMath.sqrt (1 - (2 - f) * f) * realMath.sqrt (1 - (2 - f) * f)) *
          (realMath.sqrt (x * x + y * y) * realMath.sqrt (x * x + y * y)) + |z| * |z|) /
          (a * a) := by
      field_simp
      ring
    rw [e1, hE, hpp, hzz, hsurf, mul_div_assoc, div_self (mul_pos ha ha).ne', mul_one]
  obtain ⟨-, g, hg, hS1, hCc⟩ := halleyTerms_surface a ((2 - f) * f)
    (realMath.sqrt (1 - (2 - f) * f)) (realMath.sqrt (x * x + y * y)) |z| hec hE hP hnorm
  rw [geodeticComputation_normal realMath _ _ _ _ _ x y z hb]
  simp only [hS1, hCc, hE]
  generalize realMath.sqrt (x * x + y * y) = p at hp hpp hP hnorm ⊢
  clear hS1 hCc
  have hlat : realMath.atan2 (g * (|z| / a)) (g * ((1 - (2 - f) * f) * (p / a))) =
      realMath.atan2 |z| ((1 - (2 - f) * f) * p) := by
    rw [realMath_atan2_scale hg]
    have e1 : |z| / a = 1 / a * |z| := by ring
    have e2 : (1 - (2 - f) * f) * (p / a) = 1 / a * ((1 - (2 - f) * f) * p) := by ring
    rw [e1, e2, realMath_atan2_scale (one_div_pos.mpr ha)]
  have ha1 : realMath.sqrt ((1 - (2 - f) * f) * (g * (|z| / a) * (g * (|z| / a))) +
      g * ((1 - (2 - f) * f) * (p / a)) * (g * ((1 - (2 - f) * f) * (p / a)))) =
      g * (1 - (2 - f) * f) := by
    have e : (1 - (2 - f) * f) * (g * (|z| / a) * (g * (|z| / a))) +
        g * ((1 - (2 - f) * f) * (p / a)) * (g * ((1 - (2 - f) * f) * (p / a))) =
        g * (1 - (2 - f) * f) * (g * (1 - (2 - f) * f)) := by
      rw [hE] at hnorm
      have hn2 : |z| / a * (|z| / a) = (1 - (2 - f) * f) -
          realMath.sqrt (1 - (2 - f) * f) * (p / a) *
            (realMath.sqrt (1 - (2 - f) * f) * (p / a)) := by linarith
      have hn3 : realMath.sqrt (1 - (2 - f) * f) * (p / a) *
            (realMath.sqrt (1 - (2 - f) * f) * (p / a)) =
          (1 - (2 - f) * f) * (p / a * (p / a)) := by
        have e3 : realMath.sqrt (1 - (2 - f) * f) * (p / a) *
            (realMath.sqrt (1 - (2 - f) * f) * (p / a)) =
            realMath.sqrt (1 - (2 - f) * f) * realMath.sqrt (1 - (2 - f) * f) *
              (p / a * (p / a)) := by ring
        rw [e3, hE]
      rw [hn3] at hn2
      have : (1 - (2 - f) * f) * (g * (|z| / a) * (g * (|z| / a))) =
          (1 - (2 - f) * f) * (g * g * (|z| / a * (|z| / a))) := by ring
      rw [this, hn2]
      ring
    show Real.sqrt _ = _
    rw [e]
    exact Real.sqrt_mul_self (mul_pos hg hecSq).le
  rw [hlat, ha1]
  have hnum : p * (g * ((1 - (2 - f) * f) * (p / a))) + |z| * (g * (|z| / a)) +
      -a * (g * (1 - (2 - f) * f)) = 0 := by
    have e4 : a * (g * (1 - (2 - f) * f)) = g / a * ((1 - (2 - f) * f) * (a * a)) := by
      field_simp
      ring
    have e : p * (g * ((1 - (2 - f) * f) * (p / a))) + |z| * (g * (|z| / a)) +
        -a * (g * (1 - (2 - f) * f)) =
        g / a * ((1 - (2 - f) * f) * (p * p) + |z| * |z|) -
          a * (g * (1 - (2 - f) * f)) := by ring
    rw [e, e4, hpp, hzz, hsurf, sub_self]
  rw [hnum, zero_div]

/-- The latitude is recovered from its sine and cosine by `atan2 (abs sin) cos`
and the sign of the sine, for a latitude strictly between `-π/2` and `π/2`. -/
theorem latitude_of_sin_cos (lat k : ℝ) (hk : 0 < k) (hlat : |lat| < π / 2) :
    (if k * Real.sin lat < 0 then -realMath.atan2 |Real.sin lat| (Real.cos lat)
      else realMath.atan2 |Real.sin lat| (Real.cos lat)) = lat := by
  obtain ⟨hl1, hl2⟩ := abs_lt.mp hlat
  have hpi := Real.pi_pos
  rcases lt_or_le lat 0 with hneg | hpos
  · have hs : Real.sin lat < 0 := Real.sin_neg_of_neg_of_neg_pi_lt hneg (by linarith)
    rw [if_pos (mul_neg_of_pos_of_neg hk hs), abs_of_neg hs]
    have h := @realMath_atan2_polar 1 (-lat) one_pos (by linarith) (by linarith)
    rw [Real.sin_neg, Real.cos_neg, one_mul, one_mul] at h
    rw [h, neg_neg]
  · have hs : 0 ≤ Real.sin lat := Real.sin_nonneg_of_nonneg_of_le_pi hpos (by linarith)
    rw [if_neg (not_lt.mpr (mul_nonneg hk.le hs)), abs_of_nonneg hs]
    have h := @realMath_atan2_polar 1 lat one_pos (by linarith) (by linarith)
    rw [one_mul, one_mul] at h
    exact h

/-- On an ellipsoid with `0 ≤ e2 < 1`, at an altitude that is not negative
and a latitude whose cosine exceeds `1e-16`, the distance `rho * cos(lat)`
from the polar axis exceeds `a * 1e-16`. -/
theorem normalBranch_of_cos (a e2 lat alt : ℝ) (ha : 0 < a) (h0 : 0 ≤ e2) (h1 : e2 < 1)
    (halt : 0 ≤ alt) (hcos : 1e-16 < Real.cos lat) :
    a * 1e-16 < (curvatureTerms realMath a e2 (realMath.sin lat) alt).rho * Real.cos lat := by
  have hNa := (curvatureTerms_radicand_pos_and_le a e2 lat alt ha h0 h1).2
  have hrho : (curvatureTerms realMath a e2 (realMath.sin lat) alt).rho =
      (curvatureTerms realMath a e2 (realMath.sin lat) alt).N + alt := rfl
  rw [hrho]
  generalize (curvatureTerms realMath a e2 (realMath.sin lat) alt).N = N at hNa
  have hc : 0 < Real.cos lat := lt_trans (by norm_num) hcos
  have h2 : a * 1e-16 < a * Real.cos lat := mul_lt_mul_of_pos_left hcos ha
  have h3 : a * Real.cos lat ≤ (N + alt) * Real.cos lat :=
    mul_le_mul_of_nonneg_right (by linarith) hc.le
  linarith

/-- Round trip at altitude `0` in exact arithmetic: on a valid ellipsoid, for
a latitude with `|lat| < π/2` and a point that falls in the normal branch
(`rho * cos(lat) > a * 1e-16`), `convertGeodeticToEcef` at altitude `0`
returns a point on which `convertEcefToGeodetic` succeeds and returns exactly
the latitude and the altitude `0`. -/
theorem roundTrip_altitude_zero (a f lat lon : ℝ) (out : GeodeticOutputs ℝ)
    (ha : 0 < a) (h0 : 0 ≤ f) (h1 : f < 1) (hlat : |lat| < π / 2)
    (hnormal : a * 1e-16 <
      (curvatureTerms realMath a ((2 - f) * f) (realMath.sin lat) 0).rho * Real.cos lat) :
    ∃ e : EcefOutputs ℝ,
      convertGeodeticToEcef realMath a ((2 - f) * f) lat lon 0 = some e ∧
        (convertEcefToGeodetic realMath a f e.x e.y e.z out).1 = SUCCESSFUL_CONVERSION ∧
        (convertEcefToGeodetic realMath a f e.x e.y e.z out).2.latitude = lat ∧
        (convertEcefToGeodetic realMath a f e.x e.y e.z out).2.altitude = 0 := by
  have hE := ellipticitySquared_mem h0 h1
  have hE1 : (2 - f) * f < 1 := by
    have := complimentaryEllipticitySquared_pos h1
    linarith
  have hecSq : 0 < 1 - (2 - f) * f := complimentaryEllipticitySquared_pos h1
  have halt : -((1 - (2 - f) * f) * a) < 0 := by
    have := mul_pos hecSq ha
    linarith
  obtain ⟨hrad, hNa⟩ := curvatureTerms_radicand_pos_and_le a ((2 - f) * f) lat 0 ha hE.1 hE1
  obtain ⟨hrho, hrhoz⟩ := curvatureTerms_pos a ((2 - f) * f) lat 0 ha hE.1 hE1 halt
  refine ⟨_, convertGeodeticToEcef_of_pos realMath a _ lat lon 0 hrho hrhoz, ?_⟩
  have hrhoN : (curvatureTerms realMath a ((2 - f) * f) (realMath.sin lat) 0).rho =
      (curvatureTerms realMath a ((2 - f) * f) (realMath.sin lat) 0).N := add_zero _
  have hrhozN : (curvatureTerms realMath a ((2 - f) * f) (realMath.sin lat) 0).rhoz =
      (1 - (2 - f) * f) * (curvatureTerms realMath a ((2 - f) * f) (realMath.sin lat) 0).N :=
    add_zero _
  have hNW : (curvatureTerms realMath a ((2 - f) * f) (realMath.sin lat) 0).N *
      Real.sqrt (1 - (2 - f) * f * Real.sin lat ^ 2) = a := by
    rw [(curvatureTerms_eq realMath a ((2 - f) * f) (realMath.sin lat) 0).1]
    exact div_mul_cancel₀ a (Real.sqrt_pos.mpr hrad).ne'
  have hWW : Real.sqrt (1 - (2 - f) * f * Real.sin lat ^ 2) *
      Real.sqrt (1 - (2 - f) * f * Real.sin lat ^ 2) = 1 - (2 - f) * f * Real.sin lat ^ 2 :=
    Real.mul_self_sqrt hrad.le
  rw [hrhoN] at hnormal
  rw [hrhoN, hrhozN]
  generalize (curvatureTerms realMath a ((2 - f) * f) (realMath.sin lat) 0).N = N
    at hNa hNW hnormal
  generalize Real.sqrt (1 - (2 - f) * f * Real.sin lat ^ 2) = W at hNW hWW
  have hN : 0 < N := lt_of_lt_of_le ha hNa
  have hc : 0 < Real.cos lat :=
    Real.cos_pos_of_mem_Ioo (Set.mem_Ioo.mpr (abs_lt.mp hlat))
  have hNc : 0 < N * Real.cos lat := mul_pos hN hc
  show (convertEcefToGeodetic realMath a f (N * Real.cos lat * Real.cos lon)
      (N * Real.cos lat * Real.sin lon) ((1 - (2 - f) * f) * N * Real.sin lat) out).1 =
      SUCCESSFUL_CONVERSION ∧
    (convertEcefToGeodetic realMath a f (N * Real.cos lat * Real.cos lon)
      (N * Real.cos lat * Real.sin lon) ((1 - (2 - f) * f) * N * Real.sin lat) out).2.latitude =
      lat ∧
    (convertEcefToGeodetic realMath a f (N * Real.cos lat * Real.cos lon)
      (N * Real.cos lat * Real.sin lon) ((1 - (2 - f) * f) * N * Real.sin lat) out).2.altitude =
      0
  have hp2 : N * Real.cos lat * Real.cos lon * (N * Real.cos lat * Real.cos lon) +
      N * Real.cos lat * Real.sin lon * (N * Real.cos lat * Real.sin lon) =
      N * Real.cos lat * (N * Real.cos lat) := by
    have e : N * Real.cos lat * Real.cos lon * (N * Real.cos lat * Real.cos lon) +
        N * Real.cos lat * Real.sin lon * (N * Real.cos lat * Real.sin lon) =
        N * Real.cos lat * (N * Real.cos lat) * (Real.sin lon ^ 2 + Real.cos lon ^ 2) := by
      ring
    rw [e, Real.sin_sq_add_cos_sq, mul_one]
  have hb : N * Real.cos lat * Real.cos lon * (N * Real.cos lat * Real.cos lon) +
      N * Real.cos lat * Real.sin lon * (N * Real.cos lat * Real.sin lon) >
      a * 1.0e-16 * (a * 1.0e-16) := by
    rw [hp2]
    have h1 : a * 1.0e-16 < N * Real.cos lat := by
      have hlit : (1.0e-16 : ℝ) = 1e-16 := by norm_num
      rw [hlit]
      exact hnormal
    have h4 : 0 ≤ a * 1.0e-16 := mul_nonneg ha.le (by norm_num)
    exact mul_self_lt_mul_self h4 h1
  have hsurf : (1 - (2 - f) * f) *
      (N * Real.cos lat * Real.cos lon * (N * Real.cos lat * Real.cos lon) +
        N * Real.cos lat * Real.sin lon * (N * Real.cos lat * Real.sin lon)) +
      (1 - (2 - f) * f) * N * Real.sin lat * ((1 - (2 - f) * f) * N * Real.sin lat) =
      (1 - (2 - f) * f) * (a * a) := by
    rw [hp2, ← hNW]
    have hcs : Real.cos lat * Real.cos lat = 1 - Real.sin lat ^ 2 := by
      have := Real.sin_sq_add_cos_sq lat
      nlinarith
    have e : (1 - (2 - f) * f) * (N * Real.cos lat * (N * Real.cos lat)) +
        (1 - (2 - f) * f) * N * Real.sin lat * ((1 - (2 - f) * f) * N * Real.sin lat) =
        (1 - (2 - f) * f) * (N * N) *
          (Real.cos lat * Real.cos lat + (1 - (2 - f) * f) * Real.sin lat ^ 2) := by ring
    have e2 : (1 - (2 - f) * f) * (N * W * (N * W)) =
        (1 - (2 - f) * f) * (N * N) * (W * W) := by ring
    rw [e, e2, hWW, hcs]
    ring
  have hsqrt : realMath.sqrt (N * Real.cos lat * (N * Real.cos lat)) = N * Real.cos lat :=
    Real.sqrt_mul_self hNc.le
  rw [convertEcefToGeodetic_valid realMath a f _ _ _ out h0 h1 ha,
    geodeticComputation_surface a f _ _ _ h1 ha hb hsurf]
  refine ⟨rfl, ?_, rfl⟩
  show (if (1 - (2 - f) * f) * N * Real.sin lat < 0
      then -realMath.atan2 |(1 - (2 - f) * f) * N * Real.sin lat|
        ((1 - (2 - f) * f) * realMath.sqrt
          (N * Real.cos lat * Real.cos lon * (N * Real.cos lat * Real.cos lon) +
            N * Real.cos lat * Real.sin lon * (N * Real.cos lat * Real.sin lon)))
      else realMath.atan2 |(1 - (2 - f) * f) * N * Real.sin lat|
        ((1 - (2 - f) * f) * realMath.sqrt
          (N * Real.cos lat * Real.cos lon * (N * Real.cos lat * Real.cos lon) +
            N * Real.cos lat * Real.sin lon * (N * Real.cos lat * Real.sin lon)))) = lat
  have hk : 0 < (1 - (2 - f) * f) * N := mul_pos hecSq hN
  have habs : |(1 - (2 - f) * f) * N * Real.sin lat| =
      (1 - (2 - f) * f) * N * |Real.sin lat| := by
    rw [abs_mul, abs_of_pos hk]
  have hre : (1 - (2 - f) * f) * (N * Real.cos lat) = (1 - (2 - f) * f) * N * Real.cos lat := by
    ring
  rw [hp2, hsqrt, habs, hre, realMath_atan2_scale hk]
  exact latitude_of_sin_cos lat _ hk hlat

/-- The reference scenario in exact real arithmetic.  With `a = 6378137`,
`f = 1/298.257222101` and `e2 = (2 - f) * f`, the geodetic point (latitude 45
degrees, longitude 45 degrees, altitude 0) is converted by
`convertGeodeticToEcef` to a point on which `convertEcefToGeodetic` returns
`SUCCESSFUL_CONVERSION`, the latitude and the altitude `0`: the algorithm has
no error of its own there.  Nothing is said of the rounding errors of the
`double` computation. -/
theorem referenceScenario_exact (out : GeodeticOutputs ℝ) :
    ∃ e : EcefOutputs ℝ,
      convertGeodeticToEcef realMath 6378137
          ((2 - 1 / 298.257222101) * (1 / 298.257222101)) (45 * (π / 180)) (45 * (π / 180)) 0 =
          some e ∧
        (convertEcefToGeodetic realMath 6378137 (1 / 298.257222101) e.x e.y e.z out).1 =
          SUCCESSFUL_CONVERSION ∧
        |(convertEcefToGeodetic realMath 6378137 (1 / 298.257222101) e.x e.y e.z
            out).2.latitude - 45 * (π / 180)| ≤ π / (180 * 3600 * 10 ^ 6) ∧
        |(convertEcefToGeodetic realMath 6378137 (1 / 298.257222101) e.x e.y e.z
            out).2.altitude - 0| ≤ 1e-9 := by
  have hpi := Real.pi_pos
  have h45 : 45 * (π / 180) = π / 4 := by ring
  have hlat : |45 * (π / 180)| < π / 2 := by
    rw [h45, abs_of_pos (by linarith)]
    linarith
  have hcos : 1e-16 < Real.cos (45 * (π / 180)) := by
    rw [h45, Real.cos_pi_div_four]
    have h2 : (1 : ℝ) < Real.sqrt 2 := by
      rw [Real.lt_sqrt (by norm_num)]
      norm_num
    have h3 : (1e-16 : ℝ) < 1 / 2 := by norm_num
    linarith
  have hnormal : (6378137 : ℝ) * 1e-16 <
      (curvatureTerms realMath 6378137 ((2 - 1 / 298.257222101) * (1 / 298.257222101))
        (realMath.sin (45 * (π / 180))) 0).rho * Real.cos (45 * (π / 180)) :=
    normalBranch_of_cos _ _ _ _ (by norm_num) (by norm_num) (by norm_num) (le_refl 0) hcos
  obtain ⟨e, he, hs, hl, hal⟩ := roundTrip_altitude_zero 6378137 (1 / 298.257222101)
    (45 * (π / 180)) (45 * (π / 180)) out (by norm_num) (by norm_num) (by norm_num) hlat
    hnormal
  refine ⟨e, he, hs, ?_, ?_⟩
  · rw [hl, sub_self, abs_zero]
    positivity
  · rw [hal, sub_self, abs_zero]
    norm_num

end Surface

/-! ## The sphere -/

section Sphere

open Real

/-- On a sphere (`f = 0`), for a point of the normal branch,
`geodeticComputation` returns the geocentric latitude
`atan2 (abs z) p` with the sign of `z` and the altitude
`sqrt (x^2 + y^2 + z^2) - a`. -/
theorem geodeticComputation_sphere (a x y z : ℝ) (ha : 0 < a)
    (hb : x * x + y * y > a * 1.0e-16 * (a * 1.0e-16)) :
    geodeticComputation realMath a (a * 1.0e-16 * (a * 1.0e-16)) ((2 - 0) * 0)
        (1.5 * ((2 - 0) * 0 * ((2 - 0) * 0))) (1 - (2 - 0) * 0) x y z =
      ⟨if z < 0 then -realMath.atan2 |z| (realMath.sqrt (x * x + y * y))
          else realMath.atan2 |z| (realMath.sqrt (x * x + y * y)),
        if x * x + y * y > 0 then realMath.atan2 y x else 0,
        realMath.sqrt (x * x + y * y + z * z) - a⟩ := by
  have hp2 : 0 < x * x + y * y := lt_of_le_of_lt (mul_self_nonneg _) hb
  have hp : 0 < realMath.sqrt (x * x + y * y) := Real.sqrt_pos.mpr hp2
  have hpp : realMath.sqrt (x * x + y * y) * realMath.sqrt (x * x + y * y) = x * x + y * y :=
    Real.mul_self_sqrt hp2.le
  have hzz : |z| * |z| = z * z := abs_mul_abs_self z
  have hone : realMath.sqrt 1 = 1 := Real.sqrt_one
  have hr : realMath.sqrt (x * x + y * y + z * z) =
      a * realMath.sqrt (realMath.sqrt (x * x + y * y) / a * (realMath.sqrt (x * x + y * y) / a) +
        |z| / a * (|z| / a)) := by
    have e : realMath.sqrt (x * x + y * y) / a * (realMath.sqrt (x * x + y * y) / a) +
        |z| / a * (|z| / a) = (x * x + y * y + z * z) / (a * a) := by
      have e0 : realMath.sqrt (x * x + y * y) / a * (realMath.sqrt (x * x + y * y) / a) +
          |z| / a * (|z| / a) =
          (realMath.sqrt (x * x + y * y) * realMath.sqrt (x * x + y * y) + |z| * |z|) /
            (a * a) := by
        rw [div_mul_div_comm, div_mul_div_comm, add_div]
      rw [e0, hpp, hzz]
    rw [e]
    show Real.sqrt (x * x + y * y + z * z) = a * Real.sqrt ((x * x + y * y + z * z) / (a * a))
    rw [Real.sqrt_div' _ (mul_self_nonneg a), Real.sqrt_mul_self ha.le]
    field_simp
  rw [geodeticComputation_normal realMath _ _ _ _ _ x y z hb, hr]
  simp only [sub_zero, mul_zero, hone, halleyTerms, one_mul, zero_mul, add_zero, neg_zero,
    GeodeticOutputs.mk.injEq, and_true]
  generalize realMath.sqrt (x * x + y * y) = p at hp hpp
  generalize |z| = w
  have hP : 0 < p / a := div_pos hp ha
  have hQ : 0 < p / a * (p / a) + w / a * (w / a) :=
    add_pos_of_pos_of_nonneg (mul_pos hP hP) (mul_self_nonneg _)
  have hA : 0 < realMath.sqrt (p / a * (p / a) + w / a * (w / a)) := Real.sqrt_pos.mpr hQ
  have hAA : realMath.sqrt (p / a * (p / a) + w / a * (w / a)) *
      realMath.sqrt (p / a * (p / a) + w / a * (w / a)) =
      p / a * (p / a) + w / a * (w / a) := Real.mul_self_sqrt hQ.le
  generalize realMath.sqrt (p / a * (p / a) + w / a * (w / a)) = A at hA hAA
  have hpa : p = a * (p / a) := by field_simp
  have hwa : w = a * (w / a) := by field_simp
  generalize p / a = P at hP hQ hAA hpa
  generalize w / a = S at hQ hAA hwa
  have hg : 0 < P * (P * P + S * S) ^ 3 := mul_pos hP (pow_pos hQ 3)
  have hS1 : S * (A * (P * P + S * S)) * (P * (A * (P * P + S * S))) =
      P * (P * P + S * S) ^ 3 * S := by
    have e : S * (A * (P * P + S * S)) * (P * (A * (P * P + S * S))) =
        S * P * (A * A) * (P * P + S * S) ^ 2 := by ring
    rw [e, hAA]
    ring
  have hCc : P * (A * (P * P + S * S)) * (P * (A * (P * P + S * S))) =
      P * (P * P + S * S) ^ 3 * P := by
    have e : P * (A * (P * P + S * S)) * (P * (A * (P * P + S * S))) =
        P * P * (A * A) * (P * P + S * S) ^ 2 := by ring
    rw [e, hAA]
    ring
  rw [hS1, hCc]
  have hgA : realMath.sqrt (P * (P * P + S * S) ^ 3 * P * (P * (P * P + S * S) ^ 3 * P) +
      P * (P * P + S * S) ^ 3 * S * (P * (P * P + S * S) ^ 3 * S)) =
      P * (P * P + S * S) ^ 3 * A := by
    have e : P * (P * P + S * S) ^ 3 * P * (P * (P * P + S * S) ^ 3 * P) +
        P * (P * P + S * S) ^ 3 * S * (P * (P * P + S * S) ^ 3 * S) =
        P * (P * P + S * S) ^ 3 * A * (P * (P * P + S * S) ^ 3 * A) := by
      have e2 : P * (P * P + S * S) ^ 3 * A * (P * (P * P + S * S) ^ 3 * A) =
          (P * (P * P + S * S) ^ 3) ^ 2 * (A * A) := by ring
      rw [e2, hAA]
      ring
    rw [e]
    exact Real.sqrt_mul_self (mul_pos hg hA).le
  have hgA2 : realMath.sqrt (P * (P * P + S * S) ^ 3 * S * (P * (P * P + S * S) ^ 3 * S) +
      P * (P * P + S * S) ^ 3 * P * (P * (P * P + S * S) ^ 3 * P)) =
      P * (P * P + S * S) ^ 3 * A := by
    rw [add_comm]
    exact hgA
  rw [hgA, hgA2]
  constructor
  · have hl : realMath.atan2 (P * (P * P + S * S) ^ 3 * S) (P * (P * P + S * S) ^ 3 * P) =
        realMath.atan2 w p := by
      rw [realMath_atan2_scale hg, hpa, hwa, realMath_atan2_scale ha]
    rw [hl]
  · rw [div_eq_iff (mul_pos hg hA).ne']
    have e : a * A - a = a * (A * A - A) / A := by
      field_simp
      ring
    nth_rewrite 1 [hpa]
    nth_rewrite 1 [hwa]
    rw [e, hAA]
    field_simp
    ring

/-- Round trip on a sphere in exact arithmetic: for `f = 0`, a latitude with
`|lat| < π/2`, an altitude with `rho > 0` and a point that falls in the
normal branch (`rho * cos(lat) > a * 1e-16`), `convertGeodeticToEcef`
returns a point on which `convertEcefToGeodetic` succeeds and returns exactly
the latitude and the altitude. -/
theorem roundTrip_sphere (a lat lon alt : ℝ) (out : GeodeticOutputs ℝ)
    (ha : 0 < a) (hlat : |lat| < π / 2)
    (hrho : 0 < (curvatureTerms realMath a ((2 - 0) * 0) (realMath.sin lat) alt).rho)
    (hnormal : a * 1e-16 <
      (curvatureTerms realMath a ((2 - 0) * 0) (realMath.sin lat) alt).rho * Real.cos lat) :
    ∃ e : EcefOutputs ℝ,
      convertGeodeticToEcef realMath a ((2 - 0) * 0) lat lon alt = some e ∧
        (convertEcefToGeodetic realMath a 0 e.x e.y e.z out).1 = SUCCESSFUL_CONVERSION ∧
        (convertEcefToGeodetic realMath a 0 e.x e.y e.z out).2.latitude = lat ∧
        (convertEcefToGeodetic realMath a 0 e.x e.y e.z out).2.altitude = alt := by
  have hrhoEq : (curvatureTerms realMath a ((2 - 0) * 0) (realMath.sin lat) alt).rho =
      a + alt := by
    rw [(curvatureTerms_eq realMath a ((2 - 0) * 0) (realMath.sin lat) alt).2.1]
    show a / Real.sqrt (1 - (2 - 0) * 0 * Real.sin lat ^ 2) + alt = a + alt
    rw [mul_zero, zero_mul, sub_zero, Real.sqrt_one, div_one]
  have hrhozEq : (curvatureTerms realMath a ((2 - 0) * 0) (realMath.sin lat) alt).rhoz =
      a + alt := by
    rw [(curvatureTerms_eq realMath a ((2 - 0) * 0) (realMath.sin lat) alt).2.2]
    show (1 - (2 - 0) * 0) * (a / Real.sqrt (1 - (2 - 0) * 0 * Real.sin lat ^ 2)) + alt =
      a + alt
    rw [mul_zero, zero_mul, sub_zero, Real.sqrt_one, div_one, one_mul]
  have hrhoz : 0 < (curvatureTerms realMath a ((2 - 0) * 0) (realMath.sin lat) alt).rhoz := by
    rw [hrhozEq, ← hrhoEq]
    exact hrho
  refine ⟨_, convertGeodeticToEcef_of_pos realMath a _ lat lon alt hrho hrhoz, ?_⟩
  rw [hrhozEq, ← hrhoEq]
  have haltEq : alt = (curvatureTerms realMath a ((2 - 0) * 0) (realMath.sin lat) alt).rho -
      a := by
    rw [hrhoEq]
    ring
  generalize (curvatureTerms realMath a ((2 - 0) * 0) (realMath.sin lat) alt).rho = rho
    at hrho hnormal haltEq
  have hc : 0 < Real.cos lat :=
    Real.cos_pos_of_mem_Ioo (Set.mem_Ioo.mpr (abs_lt.mp hlat))
  have hrc : 0 < rho * Real.cos lat := mul_pos hrho hc
  show (convertEcefToGeodetic realMath a 0 (rho * Real.cos lat * Real.cos lon)
      (rho * Real.cos lat * Real.sin lon) (rho * Real.sin lat) out).1 =
      SUCCESSFUL_CONVERSION ∧
    (convertEcefToGeodetic realMath a 0 (rho * Real.cos lat * Real.cos lon)
      (rho * Real.cos lat * Real.sin lon) (rho * Real.sin lat) out).2.latitude = lat ∧
    (convertEcefToGeodetic realMath a 0 (rho * Real.cos lat * Real.cos lon)
      (rho * Real.cos lat * Real.sin lon) (rho * Real.sin lat) out).2.altitude = alt
  have hp2 : rho * Real.cos lat * Real.cos lon * (rho * Real.cos lat * Real.cos lon) +
      rho * Real.cos lat * Real.sin lon * (rho * Real.cos lat * Real.sin lon) =
      rho * Real.cos lat * (rho * Real.cos lat) := by
    have e : rho * Real.cos lat * Real.cos lon * (rho * Real.cos lat * Real.cos lon) +
        rho * Real.cos lat * Real.sin lon * (rho * Real.cos lat * Real.sin lon) =
        rho * Real.cos lat * (rho * Real.cos lat) * (Real.sin lon ^ 2 + Real.cos lon ^ 2) := by
      ring
    rw [e, Real.sin_sq_add_cos_sq, mul_one]
  have hr2 : rho * Real.cos lat * (rho * Real.cos lat) + rho * Real.sin lat * (rho * Real.sin lat) =
      rho * rho := by
    have e : rho * Real.cos lat * (rho * Real.cos lat) + rho * Real.sin lat * (rho * Real.sin lat) =
        rho * rho * (Real.sin lat ^ 2 + Real.cos lat ^ 2) := by ring
    rw [e, Real.sin_sq_add_cos_sq, mul_one]
  have hb : rho * Real.cos lat * Real.cos lon * (rho * Real.cos lat * Real.cos lon) +
      rho * Real.cos lat * Real.sin lon * (rho * Real.cos lat * Real.sin lon) >
      a * 1.0e-16 * (a * 1.0e-16) := by
    rw [hp2]
    have hlit : (1.0e-16 : ℝ) = 1e-16 := by norm_num
    have h4 : 0 ≤ a * 1.0e-16 := mul_nonneg ha.le (by norm_num)
    rw [hlit] at h4 ⊢
    exact mul_self_lt_mul_self h4 hnormal
  have hsqrt : realMath.sqrt (rho * Real.cos lat * (rho * Real.cos lat)) = rho * Real.cos lat :=
    Real.sqrt_mul_self hrc.le
  have hsqrt2 : realMath.sqrt (rho * rho) = rho := Real.sqrt_mul_self hrho.le
  rw [convertEcefToGeodetic_valid realMath a 0 _ _ _ out le_rfl one_pos ha,
    geodeticComputation_sphere a _ _ _ ha hb]
  refine ⟨rfl, ?_, ?_⟩
  · show (if rho * Real.sin lat < 0
        then -realMath.atan2 |rho * Real.sin lat|
          (realMath.sqrt
            (rho * Real.cos lat * Real.cos lon * (rho * Real.cos lat * Real.cos lon) +
              rho * Real.cos lat * Real.sin lon * (rho * Real.cos lat * Real.sin lon)))
        else realMath.atan2 |rho * Real.sin lat|
          (realMath.sqrt
            (rho * Real.cos lat * Real.cos lon * (rho * Real.cos lat * Real.cos lon) +
              rho * Real.cos lat * Real.sin lon * (rho * Real.cos lat * Real.sin lon)))) = lat
    have habs : |rho * Real.sin lat| = rho * |Real.sin lat| := by
      rw [abs_mul, abs_of_pos hrho]
    rw [hp2, hsqrt, habs, realMath_atan2_scale hrho]
    exact latitude_of_sin_cos lat _ hrho hlat
  · show realMath.sqrt
        (rho * Real.cos lat * Real.cos lon * (rho * Real.cos lat * Real.cos lon) +
          rho * Real.cos lat * Real.sin lon * (rho * Real.cos lat * Real.sin lon) +
          rho * Real.sin lat * (rho * Real.sin lat)) - a = alt
    rw [hp2, hr2, hsqrt2]
    exact haltEq.symm

end Sphere

/-! ## A valid ellipsoid on which one Halley step is far from exact -/

section LargeFlattening

open Real

/-- For a positive second argument the real `atan2` is the arc tangent of
the quotient. -/
theorem realMath_atan2_of_pos (s c : ℝ) (hc : 0 < c) :
    realMath.atan2 s c = Real.arctan (s / c) := by
  show Complex.arg ⟨c, s⟩ = Real.arctan (s / c)
  have hlt : |Complex.arg ⟨c, s⟩| < π / 2 :=
    Complex.abs_arg_lt_pi_div_two_iff.mpr (Or.inl hc)
  have htan : Real.tan (Complex.arg ⟨c, s⟩) = s / c := Complex.tan_arg _
  rw [← htan, Real.arctan_tan (abs_lt.mp hlt).1 (abs_lt.mp hlt).2]

end LargeFlattening

/-! ## Round trip of latitude and altitude -/

section RoundTripAccuracy

open Real

/-- Exact recovery in exact arithmetic: on a valid ellipsoid, for a
latitude with `|lat| < π/2`, any longitude, and an altitude for which
`rho > 0` and the point falls in the normal branch
(`rho * cos(lat) > a * 1e-16`), `convertGeodeticToEcef` followed by
`convertEcefToGeodetic` succeeds and recovers latitude and altitude exactly
when the altitude is `0` or the ellipsoid is a sphere (`f = 0`). -/
theorem roundTrip_exact_on_surface_or_sphere (a f lat lon alt : ℝ)
    (out : GeodeticOutputs ℝ) (ha : 0 < a) (h0 : 0 ≤ f) (h1 : f < 1)
    (hlat : |lat| < π / 2)
    (hrho : 0 < (curvatureTerms realMath a ((2 - f) * f) (realMath.sin lat) alt).rho)
    (hnormal : a * 1e-16 <
      (curvatureTerms realMath a ((2 - f) * f) (realMath.sin lat) alt).rho * Real.cos lat)
    (hcase : alt = 0 ∨ f = 0) :
    ∃ e : EcefOutputs ℝ,
      convertGeodeticToEcef realMath a ((2 - f) * f) lat lon alt = some e ∧
        (convertEcefToGeodetic realMath a f e.x e.y e.z out).1 = SUCCESSFUL_CONVERSION ∧
        (convertEcefToGeodetic realMath a f e.x e.y e.z out).2.latitude = lat ∧
        (convertEcefToGeodetic realMath a f e.x e.y e.z out).2.altitude = alt := by
  rcases hcase with hz | hf
  · subst hz
    exact roundTrip_altitude_zero a f lat lon out ha h0 h1 hlat hnormal
  · subst hf
    exact roundTrip_sphere a lat lon alt out ha hlat hrho hnormal

/-- C14 on the unit sphere at latitude `0`, longitude `0`, altitude `0`,
where `N = rho = rhoz = 1`. -/
theorem C14_forward_formula_witness :
    (1 : ℝ) = 1 / realMath.sqrt (1 - 0 * realMath.sin 0 ^ 2) ∧ (1 : ℝ) = 1 + 0 ∧
      (1 : ℝ) = (1 - 0) * 1 + 0 ∧ (0 : ℝ) < 1 ∧ (0 : ℝ) < 1 ∧
      convertGeodeticToEcef realMath 1 0 0 0 0 =
        some ⟨1 * realMath.cos 0 * realMath.cos 0, 1 * realMath.cos 0 * realMath.sin 0,
          1 * realMath.sin 0⟩ :=
  have hN : (1 : ℝ) = 1 / realMath.sqrt (1 - 0 * realMath.sin 0 ^ 2) := by
    show (1 : ℝ) = 1 / Real.sqrt (1 - 0 * Real.sin 0 ^ 2)
    rw [zero_mul, sub_zero, Real.sqrt_one, div_one]
  ⟨hN, by norm_num, by norm_num, one_pos, one_pos,
    C14_forward_formula realMath 1 0 0 0 0 1 1 1 hN (by norm_num) (by norm_num) one_pos
      one_pos⟩

/-- C18 as stated fails: with the invalid flattening factor `f = 1`, and with
the invalid radius `a = 0`, no value is assigned to the outputs whatever they
held before the call, since they keep what they held. -/
theorem C18_counterexample_no_sentinel :
    (¬ ∃ s : GeodeticOutputs ℝ, ∀ out : GeodeticOutputs ℝ,
        (convertEcefToGeodetic realMath 6378137 1 1 2 3 out).2 = s) ∧
      ¬ ∃ s : GeodeticOutputs ℝ, ∀ out : GeodeticOutputs ℝ,
        (convertEcefToGeodetic realMath 0 0 1 2 3 out).2 = s := by
  constructor
  · rintro ⟨s, hs⟩
    have h1 := hs ⟨0, 0, 0⟩
    have h2 := hs ⟨1, 1, 1⟩
    rw [convertEcefToGeodetic_of_flattening_invalid realMath 6378137 1 1 2 3 _
      (fun h => lt_irrefl 1 h.2)] at h1 h2
    have h3 : (⟨0, 0, 0⟩ : GeodeticOutputs ℝ) = ⟨1, 1, 1⟩ := h1.trans h2.symm
    have h4 : (0 : ℝ) = 1 := congrArg GeodeticOutputs.latitude h3
    exact zero_ne_one h4
  · rintro ⟨s, hs⟩
    have h1 := hs ⟨0, 0, 0⟩
    have h2 := hs ⟨1, 1, 1⟩
    rw [convertEcefToGeodetic_of_radius_invalid realMath 0 0 1 2 3 _ le_rfl one_pos
      (lt_irrefl 0)] at h1 h2
    have h3 : (⟨0, 0, 0⟩ : GeodeticOutputs ℝ) = ⟨1, 1, 1⟩ := h1.trans h2.symm
    have h4 : (0 : ℝ) = 1 := congrArg GeodeticOutputs.latitude h3
    exact zero_ne_one h4

/-- C18 (amended) at `f = 1` and at `a = -5`. -/
theorem C18_error_paths_assign_no_output_witness :
    (¬ ((0 : ℝ) ≤ 1 ∧ (1 : ℝ) < 1) ∧
        convertEcefToGeodetic realMath 6378137 1 1 2 3 ⟨7, 8, 9⟩ =
          (INVALID_ELLIPSOIDAL_FLATTENING, ⟨7, 8, 9⟩)) ∧
      ((0 : ℝ) ≤ 0 ∧ (0 : ℝ) < 1 ∧ (-5 : ℝ) ≤ 0 ∧
        convertEcefToGeodetic realMath (-5) 0 1 2 3 ⟨7, 8, 9⟩ =
          (INVALID_EQUATORIAL_RADIUS, ⟨7, 8, 9⟩)) :=
  ⟨⟨fun h => lt_irrefl 1 h.2,
      (C18_error_paths_assign_no_output realMath 6378137 1 1 2 3 ⟨7, 8, 9⟩).1
        (fun h => lt_irrefl 1 h.2)⟩,
    ⟨le_rfl, one_pos, by norm_num,
      (C18_error_paths_assign_no_output realMath (-5) 0 1 2 3 ⟨7, 8, 9⟩).2 le_rfl one_pos
        (by norm_num)⟩⟩

/-- C19 on the unit sphere at the point `(1, 0, 1)` with scale factor `2`. -/
theorem C19_unit_independence_witness :
    (0 : ℝ) ≤ 0 ∧ (0 : ℝ) < 1 ∧ (0 : ℝ) < 1 ∧ (0 : ℝ) < 2 ∧
      (((2 : ℝ) * 1 * 1e-16) ^ 2 < ((2 : ℝ) * 1) ^ 2 + ((2 : ℝ) * 0) ^ 2 ↔
          ((1 : ℝ) * 1e-16) ^ 2 < (1 : ℝ) ^ 2 + (0 : ℝ) ^ 2) ∧
      (convertEcefToGeodetic realMath (2 * 1) 0 (2 * 1) (2 * 0) (2 * 1) ⟨0, 0, 0⟩).1 =
        (convertEcefToGeodetic realMath 1 0 1 0 1 ⟨0, 0, 0⟩).1 ∧
      (convertEcefToGeodetic realMath (2 * 1) 0 (2 * 1) (2 * 0) (2 * 1) ⟨0, 0, 0⟩).2.latitude =
        (convertEcefToGeodetic realMath 1 0 1 0 1 ⟨0, 0, 0⟩).2.latitude ∧
      (convertEcefToGeodetic realMath (2 * 1) 0 (2 * 1) (2 * 0) (2 * 1) ⟨0, 0, 0⟩).2.longitude =
        (convertEcefToGeodetic realMath 1 0 1 0 1 ⟨0, 0, 0⟩).2.longitude ∧
      (convertEcefToGeodetic realMath (2 * 1) 0 (2 * 1) (2 * 0) (2 * 1) ⟨0, 0, 0⟩).2.altitude =
        2 * (convertEcefToGeodetic realMath 1 0 1 0 1 ⟨0, 0, 0⟩).2.altitude :=
  ⟨le_rfl, one_pos, one_pos, two_pos,
    C19_unit_independence 1 0 1 0 1 2 ⟨0, 0, 0⟩ ⟨0, 0, 0⟩ le_rfl one_pos one_pos two_pos⟩

end RoundTripAccuracy

/-! ## Exact cases of the inverse conversion -/

section ExactCases

open Real

/-- For a positive second argument, the change of sign of the latitude for
`z < 0` turns `atan2 (abs z) c` into `atan2 z c`. -/
theorem realMath_atan2_signed (z c : ℝ) (hc : 0 < c) :
    (if z < 0 then -realMath.atan2 |z| c else realMath.atan2 |z| c) = realMath.atan2 z c := by
  by_cases hz : z < 0
  · rw [if_pos hz, abs_of_neg hz, realMath_atan2_of_pos _ _ hc, realMath_atan2_of_pos _ _ hc,
      neg_div, Real.arctan_neg, neg_neg]
  · rw [if_neg hz, abs_of_nonneg (not_lt.mp hz)]

/-- The equation of the ellipsoid surface, without division. -/
theorem surface_equation (a f x y z : ℝ) (h1 : f < 1) (ha : 0 < a)
    (hsurf : (x ^ 2 + y ^ 2) / a ^ 2 + z ^ 2 / ((1 - f) * a) ^ 2 = 1) :
    (1 - (2 - f) * f) * (x * x + y * y) + z * z = (1 - (2 - f) * f) * (a * a) := by
  have hf : 0 < 1 - f := sub_pos.mpr h1
  have hb : (0 : ℝ) < ((1 - f) * a) ^ 2 := pow_pos (mul_pos hf ha) 2
  have ha2 : (0 : ℝ) < a ^ 2 := pow_pos ha 2
  field_simp at hsurf
  nlinarith [hsurf]

/-- On the surface of a valid ellipsoid the Halley correction term `B0`
vanishes. -/
theorem halleyTerms_B0_surface (a f x y z : ℝ) (h1 : f < 1) (ha : 0 < a)
    (hp2 : 0 < x * x + y * y)
    (hsurf : (1 - (2 - f) * f) * (x * x + y * y) + z * z = (1 - (2 - f) * f) * (a * a)) :
    (halleyTerms realMath a ((2 - f) * f) (1.5 * ((2 - f) * f * ((2 - f) * f)))
      (realMath.sqrt (1 - (2 - f) * f)) (realMath.sqrt (x * x + y * y)) |z|).B0 = 0 := by
  have hecSq : 0 < 1 - (2 - f) * f := complimentaryEllipticitySquared_pos h1
  have hec : 0 < realMath.sqrt (1 - (2 - f) * f) := Real.sqrt_pos.mpr hecSq
  have hE : realMath.sqrt (1 - (2 - f) * f) * realMath.sqrt (1 - (2 - f) * f) =
      1 - (2 - f) * f := Real.mul_self_sqrt hecSq.le
  have hp : 0 < realMath.sqrt (x * x + y * y) := Real.sqrt_pos.mpr hp2
  have hpp : realMath.sqrt (x * x + y * y) * realMath.sqrt (x * x + y * y) = x * x + y * y :=
    Real.mul_self_sqrt hp2.le
  have hP : 0 < realMath.sqrt (x * x + y * y) / a := div_pos hp ha
  have hzz : |z| * |z| = z * z := abs_mul_abs_self z
  have hnorm : realMath.sqrt (1 - (2 - f) * f) * (realMath.sqrt (x * x + y * y) / a) *
        (realMath.sqrt (1 - (2 - f) * f) * (realMath.sqrt (x * x + y * y) / a)) +
      |z| / a * (|z| / a) =
      realMath.sqrt (1 - (2 - f) * f) * realMath.sqrt (1 - (2 - f) * f) := by
    have e1 : realMath.sqrt (1 - (2 - f) * f) * (realMath.sqrt (x * x + y * y) / a) *
        (realMath.sqrt (1 - (2 - f) * f) * (realMath.sqrt (x * x + y * y) / a)) +
        |z| / a * (|z| / a) =
        ((realMath.sqrt (1 - (2 - f) * f) * realMath.sqrt (1 - (2 - f) * f)) *
          (realMath.sqrt (x * x + y * y) * realMath.sqrt (x * x + y * y)) + |z| * |z|) /
          (a * a) := by
      field_simp
      ring
    rw [e1, hE, hpp, hzz, hsurf, mul_div_assoc, div_self (mul_pos ha ha).ne', mul_one]
  exact (halleyTerms_surface a ((2 - f) * f) (realMath.sqrt (1 - (2 - f) * f))
    (realMath.sqrt (x * x + y * y)) |z| hec hE hP hnorm).1

/-- C25: on a valid ellipsoid, for a point of the normal branch on the
surface (`(x^2 + y^2)/a^2 + z^2/b^2 = 1` with `b = (1 - f) a`), the Halley
term `B0` is `0`, the returned altitude is `0` and the returned latitude is
`atan2 z ((1 - e2) p)` with `p = sqrt (x^2 + y^2)`; hence the conversion from
geodetic to ECEF at altitude `0` and back recovers the latitude. -/
theorem C25_exact_on_surface (a f x y z : ℝ) (out : GeodeticOutputs ℝ)
    (h0 : 0 ≤ f) (h1 : f < 1) (ha : 0 < a)
    (hb : (a * 1e-16) ^ 2 < x ^ 2 + y ^ 2)
    (hsurf : (x ^ 2 + y ^ 2) / a ^ 2 + z ^ 2 / ((1 - f) * a) ^ 2 = 1) :
    (halleyTerms realMath a ((2 - f) * f) (1.5 * ((2 - f) * f * ((2 - f) * f)))
        (realMath.sqrt (1 - (2 - f) * f)) (realMath.sqrt (x * x + y * y)) |z|).B0 = 0 ∧
      (convertEcefToGeodetic realMath a f x y z out).2.altitude = 0 ∧
      (convertEcefToGeodetic realMath a f x y z out).2.latitude =
        realMath.atan2 z ((1 - (2 - f) * f) * Real.sqrt (x ^ 2 + y ^ 2)) ∧
      ∀ lat lon : ℝ, |lat| < π / 2 →
        a * 1e-16 <
          (curvatureTerms realMath a ((2 - f) * f) (realMath.sin lat) 0).rho * Real.cos lat →
        ∃ e : EcefOutputs ℝ,
          convertGeodeticToEcef realMath a ((2 - f) * f) lat lon 0 = some e ∧
            (convertEcefToGeodetic realMath a f e.x e.y e.z out).2.latitude = lat := by
  have hxy : x * x + y * y = x ^ 2 + y ^ 2 := by ring
  have hb2 : x * x + y * y > a * 1.0e-16 * (a * 1.0e-16) := by
    rw [aEpsSquared_eq, hxy]
    exact hb
  have hp2 : 0 < x * x + y * y := lt_of_le_of_lt (mul_self_nonneg _) hb2
  have hs := surface_equation a f x y z h1 ha hsurf
  have hecSq : 0 < 1 - (2 - f) * f := complimentaryEllipticitySquared_pos h1
  refine ⟨halleyTerms_B0_surface a f x y z h1 ha hp2 hs, ?_, ?_, ?_⟩
  · rw [convertEcefToGeodetic_valid realMath a f x y z out h0 h1 ha,
      geodeticComputation_surface a f x y z h1 ha hb2 hs]
  · rw [convertEcefToGeodetic_valid realMath a f x y z out h0 h1 ha,
      geodeticComputation_surface a f x y z h1 ha hb2 hs, ← hxy]
    exact realMath_atan2_signed z _ (mul_pos hecSq (Real.sqrt_pos.mpr hp2))
  · intro lat lon hlat hnormal
    obtain ⟨e, he, -, hl, -⟩ := roundTrip_altitude_zero a f lat lon out ha h0 h1 hlat hnormal
    exact ⟨e, he, hl⟩

/-- C26: on a sphere (`f = 0`), for a point of the normal branch, the
returned latitude is the geocentric latitude `atan2 z (sqrt (x^2 + y^2))` and
the returned altitude is `sqrt (x^2 + y^2 + z^2) - a`. -/
theorem C26_sphere_exact (a x y z : ℝ) (out : GeodeticOutputs ℝ) (ha : 0 < a)
    (hb : (a * 1e-16) ^ 2 < x ^ 2 + y ^ 2) :
    (convertEcefToGeodetic realMath a 0 x y z out).2.latitude =
        realMath.atan2 z (Real.sqrt (x ^ 2 + y ^ 2)) ∧
      (convertEcefToGeodetic realMath a 0 x y z out).2.altitude =
        Real.sqrt (x ^ 2 + y ^ 2 + z ^ 2) - a := by
  have hxy : x * x + y * y = x ^ 2 + y ^ 2 := by ring
  have hxyz : x * x + y * y + z * z = x ^ 2 + y ^ 2 + z ^ 2 := by ring
  have hb2 : x * x + y * y > a * 1.0e-16 * (a * 1.0e-16) := by
    rw [aEpsSquared_eq, hxy]
    exact hb
  have hp2 : 0 < x * x + y * y := lt_of_le_of_lt (mul_self_nonneg _) hb2
  rw [convertEcefToGeodetic_valid realMath a 0 x y z out le_rfl one_pos ha,
    geodeticComputation_sphere a x y z ha hb2, ← hxyz, ← hxy]
  exact ⟨realMath_atan2_signed z _ (Real.sqrt_pos.mpr hp2), rfl⟩

/-- C29: for `a > 0` and `0 ≤ e2 < 1`, `convertGeodeticToEcef` at altitude
`0` returns a point of the reference ellipsoid:
`(x^2 + y^2)/a^2 + z^2/(a^2 (1 - e2)) = 1`. -/
theorem C29_forward_on_ellipsoid (a e2 lat lon : ℝ) (ha : 0 < a) (h0 : 0 ≤ e2)
    (h1 : e2 < 1) :
    ∃ e : EcefOutputs ℝ,
      convertGeodeticToEcef realMath a e2 lat lon 0 = some e ∧
        (e.x ^ 2 + e.y ^ 2) / a ^ 2 + e.z ^ 2 / (a ^ 2 * (1 - e2)) = 1 := by
  have hecSq : 0 < 1 - e2 := sub_pos.mpr h1
  have halt : -((1 - e2) * a) < 0 := by
    have := mul_pos hecSq ha
    linarith
  obtain ⟨hrad, -⟩ := curvatureTerms_radicand_pos_and_le a e2 lat 0 ha h0 h1
  obtain ⟨hrho, hrhoz⟩ := curvatureTerms_pos a e2 lat 0 ha h0 h1 halt
  refine ⟨_, convertGeodeticToEcef_of_pos realMath a e2 lat lon 0 hrho hrhoz, ?_⟩
  have hrhoN : (curvatureTerms realMath a e2 (realMath.sin lat) 0).rho =
      (curvatureTerms realMath a e2 (realMath.sin lat) 0).N := add_zero _
  have hrhozN : (curvatureTerms realMath a e2 (realMath.sin lat) 0).rhoz =
      (1 - e2) * (curvatureTerms realMath a e2 (realMath.sin lat) 0).N := add_zero _
  have hNW : (curvatureTerms realMath a e2 (realMath.sin lat) 0).N *
      Real.sqrt (1 - e2 * Real.sin lat ^ 2) = a := by
    rw [(curvatureTerms_eq realMath a e2 (realMath.sin lat) 0).1]
    exact div_mul_cancel₀ a (Real.sqrt_pos.mpr hrad).ne'
  have hWW : Real.sqrt (1 - e2 * Real.sin lat ^ 2) * Real.sqrt (1 - e2 * Real.sin lat ^ 2) =
      1 - e2 * Real.sin lat ^ 2 := Real.mul_self_sqrt hrad.le
  rw [hrhoN, hrhozN]
  generalize (curvatureTerms realMath a e2 (realMath.sin lat) 0).N = N at hNW
  generalize Real.sqrt (1 - e2 * Real.sin lat ^ 2) = W at hNW hWW
  show ((N * Real.cos lat * Real.cos lon) ^ 2 + (N * Real.cos lat * Real.sin lon) ^ 2) / a ^ 2 +
      ((1 - e2) * N * Real.sin lat) ^ 2 / (a ^ 2 * (1 - e2)) = 1
  have hcl := Real.sin_sq_add_cos_sq lon
  have hcs := Real.sin_sq_add_cos_sq lat
  have hxy : (N * Real.cos lat * Real.cos lon) ^ 2 + (N * Real.cos lat * Real.sin lon) ^ 2 =
      N ^ 2 * Real.cos lat ^ 2 := by
    have e : (N * Real.cos lat * Real.cos lon) ^ 2 + (N * Real.cos lat * Real.sin lon) ^ 2 =
        N ^ 2 * Real.cos lat ^ 2 * (Real.sin lon ^ 2 + Real.cos lon ^ 2) := by ring
    rw [e, hcl, mul_one]
  have ha2 : a ^ 2 = N ^ 2 * (1 - e2 * Real.sin lat ^ 2) := by
    rw [← hNW, ← hWW]
    ring
  have hcos : Real.cos lat ^ 2 = 1 - Real.sin lat ^ 2 := by linarith
  have hpos : 0 < N ^ 2 * (1 - e2 * Real.sin lat ^ 2) := by
    rw [← ha2]
    exact pow_pos ha 2
  rw [hxy, ha2, hcos, div_add_div _ _ hpos.ne' (mul_pos hpos hecSq).ne',
    div_eq_one_iff_eq (mul_pos hpos (mul_pos hpos hecSq)).ne']
  ring

/-- C28: on a valid ellipsoid, for a point of the normal branch with `S1`
and `Cc` not both zero, the returned altitude is the height formula at the
computed latitude: `p cos φ + |z| sin φ - a sqrt (1 - e2 sin(φ)^2)` with
`φ = atan2 S1 Cc` and `p = sqrt (x^2 + y^2)`. -/
theorem C28_altitude_height_formula (a f x y z : ℝ) (out : GeodeticOutputs ℝ)
    (h0 : 0 ≤ f) (h1 : f < 1) (ha : 0 < a)
    (hb : (a * 1e-16) ^ 2 < x ^ 2 + y ^ 2)
    (hnz : ¬ ((halleyTerms realMath a ((2 - f) * f) (1.5 * ((2 - f) * f * ((2 - f) * f)))
          (realMath.sqrt (1 - (2 - f) * f)) (realMath.sqrt (x * x + y * y)) |z|).S1 = 0 ∧
        (halleyTerms realMath a ((2 - f) * f) (1.5 * ((2 - f) * f * ((2 - f) * f)))
          (realMath.sqrt (1 - (2 - f) * f)) (realMath.sqrt (x * x + y * y)) |z|).Cc = 0)) :
    (convertEcefToGeodetic realMath a f x y z out).2.altitude =
      Real.sqrt (x ^ 2 + y ^ 2) *
          Real.cos (realMath.atan2
            (halleyTerms realMath a ((2 - f) * f) (1.5 * ((2 - f) * f * ((2 - f) * f)))
              (realMath.sqrt (1 - (2 - f) * f)) (realMath.sqrt (x * x + y * y)) |z|).S1
            (halleyTerms realMath a ((2 - f) * f) (1.5 * ((2 - f) * f * ((2 - f) * f)))
              (realMath.sqrt (1 - (2 - f) * f)) (realMath.sqrt (x * x + y * y)) |z|).Cc) +
        |z| *
          Real.sin (realMath.atan2
            (halleyTerms realMath a ((2 - f) * f) (1.5 * ((2 - f) * f * ((2 - f) * f)))
              (realMath.sqrt (1 - (2 - f) * f)) (realMath.sqrt (x * x + y * y)) |z|).S1
            (halleyTerms realMath a ((2 - f) * f) (1.5 * ((2 - f) * f * ((2 - f) * f)))
              (realMath.sqrt (1 - (2 - f) * f)) (realMath.sqrt (x * x + y * y)) |z|).Cc) -
        a * Real.sqrt (1 - (2 - f) * f *
          Real.sin (realMath.atan2
            (halleyTerms realMath a ((2 - f) * f) (1.5 * ((2 - f) * f * ((2 - f) * f)))
              (realMath.sqrt (1 - (2 - f) * f)) (realMath.sqrt (x * x + y * y)) |z|).S1
            (halleyTerms realMath a ((2 - f) * f) (1.5 * ((2 - f) * f * ((2 - f) * f)))
              (realMath.sqrt (1 - (2 - f) * f)) (realMath.sqrt (x * x + y * y)) |z|).Cc) ^ 2) := by
  have hxy : x * x + y * y = x ^ 2 + y ^ 2 := by ring
  have hb2 : x * x + y * y > a * 1.0e-16 * (a * 1.0e-16) := by
    rw [aEpsSquared_eq, hxy]
    exact hb
  rw [convertEcefToGeodetic_valid realMath a f x y z out h0 h1 ha,
    geodeticComputation_normal realMath _ _ _ _ _ x y z hb2, ← hxy]
  generalize (halleyTerms realMath a ((2 - f) * f) (1.5 * ((2 - f) * f * ((2 - f) * f)))
    (realMath.sqrt (1 - (2 - f) * f)) (realMath.sqrt (x * x + y * y)) |z|).S1 = S1 at hnz ⊢
  generalize (halleyTerms realMath a ((2 - f) * f) (1.5 * ((2 - f) * f * ((2 - f) * f)))
    (realMath.sqrt (1 - (2 - f) * f)) (realMath.sqrt (x * x + y * y)) |z|).Cc = Cc at hnz ⊢
  have hne : (⟨Cc, S1⟩ : ℂ) ≠ 0 := by
    intro h
    exact hnz ⟨congrArg Complex.im h, congrArg Complex.re h⟩
  have habs : Complex.abs ⟨Cc, S1⟩ = Real.sqrt (Cc * Cc + S1 * S1) := by
    rw [Complex.abs_apply, Complex.normSq_mk]
  have hR : 0 < Real.sqrt (Cc * Cc + S1 * S1) := by
    rw [← habs]
    exact Complex.abs.pos hne
  have hRR : Real.sqrt (Cc * Cc + S1 * S1) * Real.sqrt (Cc * Cc + S1 * S1) =
      Cc * Cc + S1 * S1 := Real.mul_self_sqrt (Real.sqrt_pos.mp hR).le
  have hcos : Real.cos (realMath.atan2 S1 Cc) = Cc / Real.sqrt (Cc * Cc + S1 * S1) := by
    show Real.cos (Complex.arg ⟨Cc, S1⟩) = _
    rw [Complex.cos_arg hne, habs]
  have hsin : Real.sin (realMath.atan2 S1 Cc) = S1 / Real.sqrt (Cc * Cc + S1 * S1) := by
    show Real.sin (Complex.arg ⟨Cc, S1⟩) = _
    rw [Complex.sin_arg, habs]
  rw [hcos, hsin]
  show (Real.sqrt (x * x + y * y) * Cc + |z| * S1 +
      -a * Real.sqrt ((1 - (2 - f) * f) * (S1 * S1) + Cc * Cc)) /
      Real.sqrt (Cc * Cc + S1 * S1) = _
  generalize Real.sqrt (x * x + y * y) = p
  generalize |z| = w
  generalize Real.sqrt (Cc * Cc + S1 * S1) = R at hR hRR
  have hrad : 1 - (2 - f) * f * (S1 / R) ^ 2 =
      ((1 - (2 - f) * f) * (S1 * S1) + Cc * Cc) / (R * R) := by
    rw [hRR]
    have hne2 : Cc * Cc + S1 * S1 ≠ 0 := by
      rw [← hRR]
      exact (mul_pos hR hR).ne'
    rw [div_pow, ← hRR, ← pow_two]
    field_simp
    rw [pow_two, hRR]
    ring
  rw [hrad, Real.sqrt_div' _ (mul_self_nonneg R), Real.sqrt_mul_self hR.le]
  field_simp
  ring

/-- The forward conversion at a pole, where the sine of the latitude is `1`
or `-1` and its cosine is `0`: for an altitude above `-(1 - f) a` the outputs
are `x = 0`, `y = 0` and `z = sin(lat) * ((1 - f) a + alt)`. -/
theorem convertGeodeticToEcef_pole (a f lat lon alt : ℝ) (ha : 0 < a) (h0 : 0 ≤ f)
    (h1 : f < 1) (halt : -((1 - f) * a) < alt)
    (hsin : realMath.sin lat * realMath.sin lat = 1) (hcos : realMath.cos lat = 0) :
    convertGeodeticToEcef realMath a ((2 - f) * f) lat lon alt =
      some ⟨0, 0, ((1 - f) * a + alt) * realMath.sin lat⟩ := by
  have hf : 0 < 1 - f := sub_pos.mpr h1
  have hrad : realMath.sqrt (1 + -((2 - f) * f) * realMath.sin lat * realMath.sin lat) =
      1 - f := by
    have e : 1 + -((2 - f) * f) * realMath.sin lat * realMath.sin lat =
        1 - (2 - f) * f * (realMath.sin lat * realMath.sin lat) := by ring
    rw [e, hsin, mul_one]
    exact sqrt_complimentaryEllipticitySquared h1
  have hN : (1 - f) * a ≤ a / (1 - f) := by
    rw [le_div_iff₀ hf]
    nlinarith [mul_nonneg h0 ha.le, mul_nonneg (mul_nonneg h0 h0) ha.le]
  have hz : (1 - (2 - f) * f) * (a / (1 - f)) = (1 - f) * a := by
    field_simp
    ring
  have hrho : 0 < a / (1 - f) + alt := by linarith
  have hrhoz : 0 < (1 - (2 - f) * f) * (a / (1 - f)) + alt := by
    rw [hz]
    linarith
  have hpos : 0 < (1 - f) * a + alt := by linarith
  simp only [convertGeodeticToEcef, curvatureTerms, hrad, hcos, gt_iff_lt, hrho, hrhoz,
    and_self, if_true, mul_zero, zero_mul, hz, hpos]

/-- C30: round trip at the poles.  On a valid ellipsoid, for every longitude
and every altitude above `-b`, `b = (1 - f) a`, `convertGeodeticToEcef` at
latitude `π/2` (resp. `-π/2`) yields `x = 0`, `y = 0`, `z = b + alt` (resp.
`-(b + alt)`), on which `convertEcefToGeodetic` succeeds and returns latitude
`π/2` (resp. `-π/2`), longitude `0` and altitude `alt`. -/
theorem C30_round_trip_poles (a f lon alt : ℝ) (out : GeodeticOutputs ℝ)
    (ha : 0 < a) (h0 : 0 ≤ f) (h1 : f < 1) (halt : -((1 - f) * a) < alt) :
    convertGeodeticToEcef realMath a ((2 - f) * f) (π / 2) lon alt =
        some ⟨0, 0, (1 - f) * a + alt⟩ ∧
      convertGeodeticToEcef realMath a ((2 - f) * f) (-(π / 2)) lon alt =
        some ⟨0, 0, -((1 - f) * a + alt)⟩ ∧
      convertEcefToGeodetic realMath a f 0 0 ((1 - f) * a + alt) out =
        (SUCCESSFUL_CONVERSION, ⟨π / 2, 0, alt⟩) ∧
      convertEcefToGeodetic realMath a f 0 0 (-((1 - f) * a + alt)) out =
        (SUCCESSFUL_CONVERSION, ⟨-(π / 2), 0, alt⟩) := by
  have hpos : 0 < (1 - f) * a + alt := by linarith
  have hs1 : realMath.sin (π / 2) = 1 := Real.sin_pi_div_two
  have hc1 : realMath.cos (π / 2) = 0 := Real.cos_pi_div_two
  have hs2 : realMath.sin (-(π / 2)) = -1 := by
    show Real.sin (-(π / 2)) = -1
    rw [Real.sin_neg, Real.sin_pi_div_two]
  have hc2 : realMath.cos (-(π / 2)) = 0 := by
    show Real.cos (-(π / 2)) = 0
    rw [Real.cos_neg, Real.cos_pi_div_two]
  have hb : ¬ (0 : ℝ) * 0 + 0 * 0 > a * 1.0e-16 * (a * 1.0e-16) := by
    rw [zero_mul, add_zero]
    exact not_lt.mpr (mul_self_nonneg _)
  have hsq : Real.sqrt (1 - (2 - f) * f) = 1 - f := sqrt_complimentaryEllipticitySquared h1
  refine ⟨?_, ?_, ?_, ?_⟩
  · rw [convertGeodeticToEcef_pole a f (π / 2) lon alt ha h0 h1 halt (by rw [hs1, mul_one]) hc1,
      hs1, mul_one]
  · rw [convertGeodeticToEcef_pole a f (-(π / 2)) lon alt ha h0 h1 halt
      (by rw [hs2]; norm_num) hc2, hs2, mul_neg, mul_one]
  · rw [convertEcefToGeodetic_polarAxis a f 0 0 _ out h0 h1 ha hb, hsq,
      if_neg (not_lt.mpr hpos.le), abs_of_pos hpos]
    simp
  · rw [convertEcefToGeodetic_polarAxis a f 0 0 _ out h0 h1 ha hb, hsq,
      if_pos (neg_lt_zero.mpr hpos), abs_neg, abs_of_pos hpos]
    simp

end ExactCases

/-! ## The divisor of the altitude -/

section Divisor

open Real

end Divisor

/-! ## The sign of the latitude before the hemisphere correction -/

section UnsignedLatitude

open Real

/-- The corrected pair `(S1, Cc)` of the Halley step at the point
`(48, 0, 7)` on the ellipsoid `a = 100`, `f = 1/2`, deep inside it. -/
theorem halleyTerms_nearCentre :
    (halleyTerms realMath 100 ((2 - 1 / 2) * (1 / 2))
        (1.5 * ((2 - 1 / 2) * (1 / 2) * ((2 - 1 / 2) * (1 / 2))))
        (realMath.sqrt (1 - (2 - 1 / 2) * (1 / 2)))
        (realMath.sqrt (48 * 48 + 0 * 0)) |7|).S1 = -(611709 / 2000000000000) ∧
      (halleyTerms realMath 100 ((2 - 1 / 2) * (1 / 2))
        (1.5 * ((2 - 1 / 2) * (1 / 2) * ((2 - 1 / 2) * (1 / 2))))
        (realMath.sqrt (1 - (2 - 1 / 2) * (1 / 2)))
        (realMath.sqrt (48 * 48 + 0 * 0)) |7|).Cc = 942741 / 125000000000 := by
  have hec : realMath.sqrt (1 - (2 - 1 / 2) * (1 / 2)) = 1 / 2 := by
    show Real.sqrt (1 - (2 - 1 / 2) * (1 / 2)) = 1 / 2
    rw [sqrt_complimentaryEllipticitySquared (by norm_num)]
    norm_num
  have hp : realMath.sqrt (48 * 48 + 0 * 0) = 48 := by
    show Real.sqrt (48 * 48 + 0 * 0) = 48
    rw [zero_mul, add_zero]
    exact Real.sqrt_mul_self (by norm_num)
  have habs : |(7 : ℝ)| = 7 := abs_of_pos (by norm_num)
  have hA0 : realMath.sqrt (1 / 2 * (48 / 100) * (1 / 2 * (48 / 100)) +
      7 / 100 * (7 / 100)) = 1 / 4 := by
    show Real.sqrt (1 / 2 * (48 / 100) * (1 / 2 * (48 / 100)) + 7 / 100 * (7 / 100)) = 1 / 4
    have e : (1 / 2 * (48 / 100) * (1 / 2 * (48 / 100)) + 7 / 100 * (7 / 100) : ℝ) =
        1 / 4 * (1 / 4) := by norm_num
    rw [e]
    exact Real.sqrt_mul_self (by norm_num)
  rw [hec, hp, habs]
  simp only [halleyTerms, hA0]
  constructor <;> norm_num

end UnsignedLatitude

/-! ## The correction is one step of Halley's method -/

section HalleyStep

open Real

/-- The derivative of `sqrt (1 + T^2)`. -/
theorem hasDerivAt_sqrt_one_add_sq (T : ℝ) :
    HasDerivAt (fun t : ℝ => Real.sqrt (1 + t ^ 2)) (T / Real.sqrt (1 + T ^ 2)) T := by
  have h1 : HasDerivAt (fun t : ℝ => 1 + t ^ 2) (2 * T) T := by
    have h := (hasDerivAt_pow 2 T).const_add 1
    simpa using h
  have hpos : (0 : ℝ) < 1 + T ^ 2 := by positivity
  have h2 := h1.sqrt hpos.ne'
  have hs : 0 < Real.sqrt (1 + T ^ 2) := Real.sqrt_pos.mpr hpos
  convert h2 using 1
  field_simp
  ring

/-- The first derivative of the latitude equation:
`g' T = P - E / sqrt (1 + T^2)^3`. -/
theorem hasDerivAt_latitudeEquation (P Z E T : ℝ) :
    HasDerivAt (latitudeEquation P Z E) (P - E / Real.sqrt (1 + T ^ 2) ^ 3) T := by
  have hpos : (0 : ℝ) < 1 + T ^ 2 := by positivity
  have hs : 0 < Real.sqrt (1 + T ^ 2) := Real.sqrt_pos.mpr hpos
  have hss : Real.sqrt (1 + T ^ 2) ^ 2 = 1 + T ^ 2 := Real.sq_sqrt hpos.le
  have h1 : HasDerivAt (fun t : ℝ => P * t) P T := by
    have h := (hasDerivAt_id T).const_mul P
    simpa using h
  have h2 : HasDerivAt (fun t : ℝ => E * t) E T := by
    have h := (hasDerivAt_id T).const_mul E
    simpa using h
  have h3 := h2.div (hasDerivAt_sqrt_one_add_sq T) hs.ne'
  have h4 := (h1.sub_const Z).sub h3
  have e : P - E / Real.sqrt (1 + T ^ 2) ^ 3 =
      P - (E * Real.sqrt (1 + T ^ 2) - E * T * (T / Real.sqrt (1 + T ^ 2))) /
        Real.sqrt (1 + T ^ 2) ^ 2 := by
    have e1 : E * Real.sqrt (1 + T ^ 2) - E * T * (T / Real.sqrt (1 + T ^ 2)) =
        E / Real.sqrt (1 + T ^ 2) := by
      rw [eq_div_iff hs.ne']
      have e2 : (E * Real.sqrt (1 + T ^ 2) - E * T * (T / Real.sqrt (1 + T ^ 2))) *
          Real.sqrt (1 + T ^ 2) =
          E * Real.sqrt (1 + T ^ 2) ^ 2 -
            E * T * T * (Real.sqrt (1 + T ^ 2) / Real.sqrt (1 + T ^ 2)) := by ring
      rw [e2, div_self hs.ne', hss]
      ring
    rw [e1, div_div]
    ring
  rw [e]
  exact h4

/-- The second derivative of the latitude equation:
`g'' T = 3 E T / sqrt (1 + T^2)^5`. -/
theorem hasDerivAt_deriv_latitudeEquation (P Z E T : ℝ) :
    HasDerivAt (deriv (latitudeEquation P Z E)) (3 * E * T / Real.sqrt (1 + T ^ 2) ^ 5) T := by
  have hd : deriv (latitudeEquation P Z E) =
      fun t : ℝ => P - E / Real.sqrt (1 + t ^ 2) ^ 3 :=
    funext fun t => (hasDerivAt_latitudeEquation P Z E t).deriv
  rw [hd]
  have hpos : (0 : ℝ) < 1 + T ^ 2 := by positivity
  have hs : 0 < Real.sqrt (1 + T ^ 2) := Real.sqrt_pos.mpr hpos
  have h1 := (hasDerivAt_sqrt_one_add_sq T).pow 3
  have h2 := (hasDerivAt_const T E).div h1 (pow_pos hs 3).ne'
  have h3 := (hasDerivAt_const T P).sub h2
  have hss : Real.sqrt (1 + T ^ 2) ^ 2 = 1 + T ^ 2 := Real.sq_sqrt hpos.le
  convert h3 using 1
  field_simp
  linear_combination (3 * E * T * Real.sqrt (1 + T ^ 2) ^ 5) * hss

/-- One step of Halley's method for the latitude equation, with the two
derivatives written out. -/
theorem halleyUpdate_latitudeEquation (P Z E T : ℝ) :
    halleyUpdate (latitudeEquation P Z E) T =
      T - 2 * (P * T - Z - E * T / Real.sqrt (1 + T ^ 2)) *
          (P - E / Real.sqrt (1 + T ^ 2) ^ 3) /
        (2 * (P - E / Real.sqrt (1 + T ^ 2) ^ 3) ^ 2 -
          (P * T - Z - E * T / Real.sqrt (1 + T ^ 2)) *
            (3 * E * T / Real.sqrt (1 + T ^ 2) ^ 5)) := by
  rw [halleyUpdate, (hasDerivAt_latitudeEquation P Z E T).deriv,
    (hasDerivAt_deriv_latitudeEquation P Z E T).deriv, latitudeEquation]

/-- The algebra of the Halley step.  With `C0 = e_c P`, `A^2 = C0^2 + S^2`
and `e_c^2 = 1 - E`, the ratio of the corrected terms of the code is the
Halley update written with `g = S E (A - e_c) / (e_c A)`, `g' = F0 / A^3`
and `g'' = 3 E S C0^4 / A^5`. -/
theorem halleyStep_ratio (S P ec A E : ℝ) (hP : 0 < P) (hec : 0 < ec) (hA : 0 < A)
    (hAA : A * A = ec * P * (ec * P) + S * S) (hE : ec * ec = 1 - E)
    (hC1 : (P * (A * (A * A)) + -E * (ec * P * (ec * P * (ec * P)))) *
        (P * (A * (A * A)) + -E * (ec * P * (ec * P * (ec * P)))) +
      -(3 / 2 * (E * E) * (S * S) * (ec * P * (ec * P)) * P * (A - ec)) * (ec * P) ≠ 0) :
    ((ec * S * (A * (A * A)) + E * (S * (S * S))) *
          (P * (A * (A * A)) + -E * (ec * P * (ec * P * (ec * P)))) +
        -(3 / 2 * (E * E) * (S * S) * (ec * P * (ec * P)) * P * (A - ec)) * S) /
      ((P * (A * (A * A)) + -E * (ec * P * (ec * P * (ec * P)))) *
          (P * (A * (A * A)) + -E * (ec * P * (ec * P * (ec * P)))) +
        -(3 / 2 * (E * E) * (S * S) * (ec * P * (ec * P)) * P * (A - ec)) * (ec * P)) =
      S / (ec * P) -
        2 * (S * E * (A - ec) / (ec * A)) *
            ((P * (A * (A * A)) + -E * (ec * P * (ec * P * (ec * P)))) / A ^ 3) /
          (2 * ((P * (A * (A * A)) + -E * (ec * P * (ec * P * (ec * P)))) / A ^ 3) ^ 2 -
            S * E * (A - ec) / (ec * A) * (3 * E * S * (ec * P) ^ 4 / A ^ 5)) := by
  have hc : 0 < ec * P := mul_pos hec hP
  obtain ⟨F0, hF0⟩ : ∃ F0 : ℝ, F0 = P * (A * (A * A)) + -E * (ec * P * (ec * P * (ec * P))) :=
    ⟨_, rfl⟩
  rw [← hF0] at hC1 ⊢
  obtain ⟨C1, hC1def⟩ : ∃ C1 : ℝ, C1 =
      F0 * F0 + -(3 / 2 * (E * E) * (S * S) * (ec * P * (ec * P)) * P * (A - ec)) * (ec * P) :=
    ⟨_, rfl⟩
  rw [← hC1def] at hC1 ⊢
  have hden : 2 * (F0 / A ^ 3) ^ 2 -
      S * E * (A - ec) / (ec * A) * (3 * E * S * (ec * P) ^ 4 / A ^ 5) = 2 * C1 / A ^ 6 := by
    rw [hC1def]
    field_simp
    ring
  rw [hden]
  have hstar : ((ec * S * (A * (A * A)) + E * (S * (S * S))) * F0 +
        -(3 / 2 * (E * E) * (S * S) * (ec * P * (ec * P)) * P * (A - ec)) * S) * (ec * P * ec) =
      S * C1 * ec - ec * P * (S * E * (A - ec)) * F0 * A ^ 2 := by
    subst hC1def
    subst hF0
    linear_combination
      (-((P * (A * (A * A)) + -E * (ec * P * (ec * P * (ec * P)))) * ec ^ 2 * P * S * E)) * hAA +
        ((P * (A * (A * A)) + -E * (ec * P * (ec * P * (ec * P)))) * ec * P * S * A ^ 3) * hE
  have hrhs : S / (ec * P) - 2 * (S * E * (A - ec) / (ec * A)) * (F0 / A ^ 3) / (2 * C1 / A ^ 6) =
      (S * C1 * ec - ec * P * (S * E * (A - ec)) * F0 * A ^ 2) / (C1 * (ec * P * ec)) := by
    field_simp
    ring
  rw [hrhs, ← hstar, mul_div_mul_right _ _ (mul_pos hc hec).ne']

/-- The corrected terms of the code and Halley's method: when `C1` is not
zero, `S1 / C1` is the Halley update of `T0 = S0 / C0` for the latitude
equation with `P = Pn`, `Z = e_c S0` and `E = e2`. -/
theorem halleyTerms_halleyUpdate (a E ec p w : ℝ) (hec : 0 < ec) (hE : ec * ec = 1 - E)
    (hP : 0 < p / a)
    (hC1 : (halleyTerms realMath a E (1.5 * (E * E)) ec p w).C1 ≠ 0) :
    (halleyTerms realMath a E (1.5 * (E * E)) ec p w).S1 / (halleyTerms realMath a E (1.5 * (E * E)) ec p w).C1 =
      halleyUpdate (latitudeEquation (p / a) (ec * (w / a)) E)
        ((halleyTerms realMath a E (1.5 * (E * E)) ec p w).S0 / (halleyTerms realMath a E (1.5 * (E * E)) ec p w).C0) := by
  have hc : 0 < ec * (p / a) := mul_pos hec hP
  have hApos : 0 < realMath.sqrt (ec * (p / a) * (ec * (p / a)) + w / a * (w / a)) :=
    Real.sqrt_pos.mpr (add_pos_of_pos_of_nonneg (mul_pos hc hc) (mul_self_nonneg _))
  have hAA : realMath.sqrt (ec * (p / a) * (ec * (p / a)) + w / a * (w / a)) *
      realMath.sqrt (ec * (p / a) * (ec * (p / a)) + w / a * (w / a)) =
      ec * (p / a) * (ec * (p / a)) + w / a * (w / a) :=
    Real.mul_self_sqrt (add_nonneg (mul_self_nonneg _) (mul_self_nonneg _))
  simp only [halleyTerms] at hC1 ⊢
  generalize realMath.sqrt (ec * (p / a) * (ec * (p / a)) + w / a * (w / a)) = A
    at hAA hApos hC1 ⊢
  generalize p / a = P at hAA hP hc hC1 ⊢
  generalize w / a = S at hAA hC1 ⊢
  have h15 : (1.5 : ℝ) = 3 / 2 := by norm_num
  rw [h15, ← hAA] at hC1
  rw [h15, ← hAA]
  have hT : Real.sqrt (1 + (S / (ec * P)) ^ 2) = A / (ec * P) := by
    have e : 1 + (S / (ec * P)) ^ 2 = A / (ec * P) * (A / (ec * P)) := by
      field_simp
      linear_combination (-(ec ^ 2 * P ^ 2)) * hAA
    rw [e]
    exact Real.sqrt_mul_self (div_pos hApos hc).le
  have hg : P * (S / (ec * P)) - ec * S - E * (S / (ec * P)) / (A / (ec * P)) =
      S * E * (A - ec) / (ec * A) := by
    field_simp
    linear_combination (-(P * S * ec * A ^ 2)) * hE
  have hg1 : P - E / (A / (ec * P)) ^ 3 =
      (P * (A * (A * A)) + -E * (ec * P * (ec * P * (ec * P)))) / A ^ 3 := by
    field_simp
    ring
  have hg2 : 3 * E * (S / (ec * P)) / (A / (ec * P)) ^ 5 =
      3 * E * S * (ec * P) ^ 4 / A ^ 5 := by
    field_simp
    ring
  rw [halleyUpdate_latitudeEquation, hT, hg, hg1, hg2]
  exact halleyStep_ratio S P ec A E hP hec hApos hAA hE hC1

/-- C21: for `a > 0` and `f < 1`, hence on every valid ellipsoid, for a point
of the normal branch at which `C1 = F0^2 - B0 C0` is not zero, the ratio `S1 / C1` of the corrected terms
of `convertEcefToGeodetic` is one step of Halley's method from `T0 = S0 / C0`
for `g T = P T - Z - E T / sqrt (1 + T^2)` with `P = p / a`,
`Z = e_c |z| / a` and `E = e2`:
`S1 / C1 = T0 - 2 g(T0) g'(T0) / (2 g'(T0)^2 - g(T0) g''(T0))`. -/
theorem C21_halley_step (a f x y z : ℝ) (h1 : f < 1) (ha : 0 < a)
    (hb : (a * 1e-16) ^ 2 < x ^ 2 + y ^ 2)
    (hC1 : (halleyTerms realMath a ((2 - f) * f) (1.5 * ((2 - f) * f * ((2 - f) * f)))
          (realMath.sqrt (1 - (2 - f) * f)) (realMath.sqrt (x * x + y * y)) |z|).C1 ≠ 0) :
    (halleyTerms realMath a ((2 - f) * f) (1.5 * ((2 - f) * f * ((2 - f) * f)))
          (realMath.sqrt (1 - (2 - f) * f)) (realMath.sqrt (x * x + y * y)) |z|).S1 /
        (halleyTerms realMath a ((2 - f) * f) (1.5 * ((2 - f) * f * ((2 - f) * f)))
          (realMath.sqrt (1 - (2 - f) * f)) (realMath.sqrt (x * x + y * y)) |z|).C1 =
      halleyUpdate
        (latitudeEquation (Real.sqrt (x ^ 2 + y ^ 2) / a)
          (Real.sqrt (1 - (2 - f) * f) * |z| / a) ((2 - f) * f))
        ((halleyTerms realMath a ((2 - f) * f) (1.5 * ((2 - f) * f * ((2 - f) * f)))
          (realMath.sqrt (1 - (2 - f) * f)) (realMath.sqrt (x * x + y * y)) |z|).S0 /
          (halleyTerms realMath a ((2 - f) * f) (1.5 * ((2 - f) * f * ((2 - f) * f)))
          (realMath.sqrt (1 - (2 - f) * f)) (realMath.sqrt (x * x + y * y)) |z|).C0) := by
  have hxy : x ^ 2 + y ^ 2 = x * x + y * y := by ring
  rw [hxy] at hb ⊢
  have hp2 : 0 < x * x + y * y := lt_of_le_of_lt (sq_nonneg _) hb
  have hecSq : 0 < 1 - (2 - f) * f := complimentaryEllipticitySquared_pos h1
  have hec : 0 < realMath.sqrt (1 - (2 - f) * f) := Real.sqrt_pos.mpr hecSq
  have hE : realMath.sqrt (1 - (2 - f) * f) * realMath.sqrt (1 - (2 - f) * f) =
      1 - (2 - f) * f := Real.mul_self_sqrt hecSq.le
  have hP : 0 < realMath.sqrt (x * x + y * y) / a := div_pos (Real.sqrt_pos.mpr hp2) ha
  rw [mul_div_assoc]
  exact halleyTerms_halleyUpdate a ((2 - f) * f) (realMath.sqrt (1 - (2 - f) * f))
    (realMath.sqrt (x * x + y * y)) |z| hec hE hP hC1

end HalleyStep

/-! ## Instances of the theorems of the exact cases -/

section Instances

open Real ECEF_TO_GEODETIC_CONVERSION_STATUS

/-- C21 on the ellipsoid `a = 100`, `f = 1/2` at the point `(48, 0, 7)`,
where `C1` is not zero. -/
theorem C21_halley_step_witness :
    (1 / 2 : ℝ) < 1 ∧ (0 : ℝ) < 100 ∧
      ((100 : ℝ) * 1e-16) ^ 2 < (48 : ℝ) ^ 2 + (0 : ℝ) ^ 2 ∧
      (halleyTerms realMath 100 ((2 - 1 / 2) * (1 / 2))
          (1.5 * ((2 - 1 / 2) * (1 / 2) * ((2 - 1 / 2) * (1 / 2))))
          (realMath.sqrt (1 - (2 - 1 / 2) * (1 / 2)))
          (realMath.sqrt (48 * 48 + 0 * 0)) |7|).C1 ≠ 0 ∧
      (halleyTerms realMath 100 ((2 - 1 / 2) * (1 / 2))
          (1.5 * ((2 - 1 / 2) * (1 / 2) * ((2 - 1 / 2) * (1 / 2))))
          (realMath.sqrt (1 - (2 - 1 / 2) * (1 / 2)))
          (realMath.sqrt (48 * 48 + 0 * 0)) |7|).S1 /
          (halleyTerms realMath 100 ((2 - 1 / 2) * (1 / 2))
          (1.5 * ((2 - 1 / 2) * (1 / 2) * ((2 - 1 / 2) * (1 / 2))))
          (realMath.sqrt (1 - (2 - 1 / 2) * (1 / 2)))
          (realMath.sqrt (48 * 48 + 0 * 0)) |7|).C1 =
        halleyUpdate
          (latitudeEquation (Real.sqrt ((48 : ℝ) ^ 2 + (0 : ℝ) ^ 2) / 100)
            (Real.sqrt (1 - (2 - 1 / 2) * (1 / 2)) * |(7 : ℝ)| / 100) ((2 - 1 / 2) * (1 / 2)))
          ((halleyTerms realMath 100 ((2 - 1 / 2) * (1 / 2))
          (1.5 * ((2 - 1 / 2) * (1 / 2) * ((2 - 1 / 2) * (1 / 2))))
          (realMath.sqrt (1 - (2 - 1 / 2) * (1 / 2)))
          (realMath.sqrt (48 * 48 + 0 * 0)) |7|).S0 /
            (halleyTerms realMath 100 ((2 - 1 / 2) * (1 / 2))
          (1.5 * ((2 - 1 / 2) * (1 / 2) * ((2 - 1 / 2) * (1 / 2))))
          (realMath.sqrt (1 - (2 - 1 / 2) * (1 / 2)))
          (realMath.sqrt (48 * 48 + 0 * 0)) |7|).C0) :=
  have hC1 : (halleyTerms realMath 100 ((2 - 1 / 2) * (1 / 2))
          (1.5 * ((2 - 1 / 2) * (1 / 2) * ((2 - 1 / 2) * (1 / 2))))
          (realMath.sqrt (1 - (2 - 1 / 2) * (1 / 2)))
          (realMath.sqrt (48 * 48 + 0 * 0)) |7|).C1 ≠ 0 := by
    intro h
    have hCc : (halleyTerms realMath 100 ((2 - 1 / 2) * (1 / 2))
          (1.5 * ((2 - 1 / 2) * (1 / 2) * ((2 - 1 / 2) * (1 / 2))))
          (realMath.sqrt (1 - (2 - 1 / 2) * (1 / 2)))
          (realMath.sqrt (48 * 48 + 0 * 0)) |7|).Cc =
        realMath.sqrt (1 - (2 - 1 / 2) * (1 / 2)) *
          (halleyTerms realMath 100 ((2 - 1 / 2) * (1 / 2))
          (1.5 * ((2 - 1 / 2) * (1 / 2) * ((2 - 1 / 2) * (1 / 2))))
          (realMath.sqrt (1 - (2 - 1 / 2) * (1 / 2)))
          (realMath.sqrt (48 * 48 + 0 * 0)) |7|).C1 := rfl
    rw [h, halleyTerms_nearCentre.2, mul_zero] at hCc
    norm_num at hCc
  ⟨by norm_num, by norm_num, by norm_num, hC1,
    C21_halley_step 100 (1 / 2) 48 0 7 (by norm_num) (by norm_num) (by norm_num) hC1⟩

/-- C25 on the ellipsoid `a = 2`, `f = 1/2` (polar radius `1`) at the
surface point `(6/5, 0, 4/5)`. -/
theorem C25_exact_on_surface_witness :
    (0 : ℝ) ≤ 1 / 2 ∧ (1 / 2 : ℝ) < 1 ∧ (0 : ℝ) < 2 ∧
      ((2 : ℝ) * 1e-16) ^ 2 < (6 / 5 : ℝ) ^ 2 + (0 : ℝ) ^ 2 ∧
      ((6 / 5 : ℝ) ^ 2 + (0 : ℝ) ^ 2) / (2 : ℝ) ^ 2 +
        (4 / 5 : ℝ) ^ 2 / ((1 - 1 / 2) * 2) ^ 2 = 1 ∧
      (convertEcefToGeodetic realMath 2 (1 / 2) (6 / 5) 0 (4 / 5) ⟨0, 0, 0⟩).2.altitude = 0 ∧
      (convertEcefToGeodetic realMath 2 (1 / 2) (6 / 5) 0 (4 / 5) ⟨0, 0, 0⟩).2.latitude =
        realMath.atan2 (4 / 5)
          ((1 - (2 - 1 / 2) * (1 / 2)) * Real.sqrt ((6 / 5 : ℝ) ^ 2 + (0 : ℝ) ^ 2)) :=
  have h := C25_exact_on_surface 2 (1 / 2) (6 / 5) 0 (4 / 5) ⟨0, 0, 0⟩ (by norm_num)
    (by norm_num) (by norm_num) (by norm_num) (by norm_num)
  ⟨by norm_num, by norm_num, by norm_num, by norm_num, by norm_num, h.2.1, h.2.2.1⟩

/-- C26 on the unit sphere at the point `(3, 4, 12)`. -/
theorem C26_sphere_exact_witness :
    (0 : ℝ) < 1 ∧ ((1 : ℝ) * 1e-16) ^ 2 < (3 : ℝ) ^ 2 + (4 : ℝ) ^ 2 ∧
      (convertEcefToGeodetic realMath 1 0 3 4 12 ⟨0, 0, 0⟩).2.latitude =
        realMath.atan2 12 (Real.sqrt ((3 : ℝ) ^ 2 + (4 : ℝ) ^ 2)) ∧
      (convertEcefToGeodetic realMath 1 0 3 4 12 ⟨0, 0, 0⟩).2.altitude =
        Real.sqrt ((3 : ℝ) ^ 2 + (4 : ℝ) ^ 2 + (12 : ℝ) ^ 2) - 1 :=
  ⟨one_pos, by norm_num,
    C26_sphere_exact 1 3 4 12 ⟨0, 0, 0⟩ one_pos (by norm_num)⟩

/-- C28 on the ellipsoid `a = 100`, `f = 1/2` at the point `(48, 0, 7)`,
where `S1` is not zero. -/
theorem C28_altitude_height_formula_witness :
    (0 : ℝ) ≤ 1 / 2 ∧ (1 / 2 : ℝ) < 1 ∧ (0 : ℝ) < 100 ∧
      ((100 : ℝ) * 1e-16) ^ 2 < (48 : ℝ) ^ 2 + (0 : ℝ) ^ 2 ∧
      ¬ ((halleyTerms realMath 100 ((2 - 1 / 2) * (1 / 2))
          (1.5 * ((2 - 1 / 2) * (1 / 2) * ((2 - 1 / 2) * (1 / 2))))
          (realMath.sqrt (1 - (2 - 1 / 2) * (1 / 2)))
          (realMath.sqrt (48 * 48 + 0 * 0)) |7|).S1 = 0 ∧
        (halleyTerms realMath 100 ((2 - 1 / 2) * (1 / 2))
          (1.5 * ((2 - 1 / 2) * (1 / 2) * ((2 - 1 / 2) * (1 / 2))))
          (realMath.sqrt (1 - (2 - 1 / 2) * (1 / 2)))
          (realMath.sqrt (48 * 48 + 0 * 0)) |7|).Cc = 0) ∧
      (convertEcefToGeodetic realMath 100 (1 / 2) 48 0 7 ⟨0, 0, 0⟩).2.altitude =
        Real.sqrt ((48 : ℝ) ^ 2 + (0 : ℝ) ^ 2) *
            Real.cos (realMath.atan2
              (halleyTerms realMath 100 ((2 - 1 / 2) * (1 / 2))
          (1.5 * ((2 - 1 / 2) * (1 / 2) * ((2 - 1 / 2) * (1 / 2))))
          (realMath.sqrt (1 - (2 - 1 / 2) * (1 / 2)))
          (realMath.sqrt (48 * 48 + 0 * 0)) |7|).S1
              (halleyTerms realMath 100 ((2 - 1 / 2) * (1 / 2))
          (1.5 * ((2 - 1 / 2) * (1 / 2) * ((2 - 1 / 2) * (1 / 2))))
          (realMath.sqrt (1 - (2 - 1 / 2) * (1 / 2)))
          (realMath.sqrt (48 * 48 + 0 * 0)) |7|).Cc) +
          |(7 : ℝ)| *
            Real.sin (realMath.atan2
              (halleyTerms realMath 100 ((2 - 1 / 2) * (1 / 2))
          (1.5 * ((2 - 1 / 2) * (1 / 2) * ((2 - 1 / 2) * (1 / 2))))
          (realMath.sqrt (1 - (2 - 1 / 2) * (1 / 2)))
          (realMath.sqrt (48 * 48 + 0 * 0)) |7|).S1
              (halleyTerms realMath 100 ((2 - 1 / 2) * (1 / 2))
          (1.5 * ((2 - 1 / 2) * (1 / 2) * ((2 - 1 / 2) * (1 / 2))))
          (realMath.sqrt (1 - (2 - 1 / 2) * (1 / 2)))
          (realMath.sqrt (48 * 48 + 0 * 0)) |7|).Cc) -
          100 * Real.sqrt (1 - (2 - 1 / 2) * (1 / 2) *
            Real.sin (realMath.atan2
              (halleyTerms realMath 100 ((2 - 1 / 2) * (1 / 2))
          (1.5 * ((2 - 1 / 2) * (1 / 2) * ((2 - 1 / 2) * (1 / 2))))
          (realMath.sqrt (1 - (2 - 1 / 2) * (1 / 2)))
          (realMath.sqrt (48 * 48 + 0 * 0)) |7|).S1
              (halleyTerms realMath 100 ((2 - 1 / 2) * (1 / 2))
          (1.5 * ((2 - 1 / 2) * (1 / 2) * ((2 - 1 / 2) * (1 / 2))))
          (realMath.sqrt (1 - (2 - 1 / 2) * (1 / 2)))
          (realMath.sqrt (48 * 48 + 0 * 0)) |7|).Cc) ^ 2) :=
  have hnz : ¬ ((halleyTerms realMath 100 ((2 - 1 / 2) * (1 / 2))
          (1.5 * ((2 - 1 / 2) * (1 / 2) * ((2 - 1 / 2) * (1 / 2))))
          (realMath.sqrt (1 - (2 - 1 / 2) * (1 / 2)))
          (realMath.sqrt (48 * 48 + 0 * 0)) |7|).S1 = 0 ∧
      (halleyTerms realMath 100 ((2 - 1 / 2) * (1 / 2))
          (1.5 * ((2 - 1 / 2) * (1 / 2) * ((2 - 1 / 2) * (1 / 2))))
          (realMath.sqrt (1 - (2 - 1 / 2) * (1 / 2)))
          (realMath.sqrt (48 * 48 + 0 * 0)) |7|).Cc = 0) := by
    rw [halleyTerms_nearCentre.1]
    norm_num
  ⟨by norm_num, by norm_num, by norm_num, by norm_num, hnz,
    C28_altitude_height_formula 100 (1 / 2) 48 0 7 ⟨0, 0, 0⟩ (by norm_num) (by norm_num)
      (by norm_num) (by norm_num) hnz⟩

/-- C29 on the ellipsoid `a = 4`, `e2 = 3/4` at latitude `1` and
longitude `2`. -/
theorem C29_forward_on_ellipsoid_witness :
    (0 : ℝ) < 4 ∧ (0 : ℝ) ≤ 3 / 4 ∧ (3 / 4 : ℝ) < 1 ∧
      ∃ e : EcefOutputs ℝ,
        convertGeodeticToEcef realMath 4 (3 / 4) 1 2 0 = some e ∧
          (e.x ^ 2 + e.y ^ 2) / (4 : ℝ) ^ 2 + e.z ^ 2 / ((4 : ℝ) ^ 2 * (1 - 3 / 4)) = 1 :=
  ⟨by norm_num, by norm_num, by norm_num,
    C29_forward_on_ellipsoid 4 (3 / 4) 1 2 (by norm_num) (by norm_num) (by norm_num)⟩

/-- C30 on the ellipsoid `a = 4`, `f = 1/2` at longitude `1` and altitude
`3`. -/
theorem C30_round_trip_poles_witness :
    (0 : ℝ) < 4 ∧ (0 : ℝ) ≤ 1 / 2 ∧ (1 / 2 : ℝ) < 1 ∧ -((1 - 1 / 2) * (4 : ℝ)) < 3 ∧
      convertGeodeticToEcef realMath 4 ((2 - 1 / 2) * (1 / 2)) (π / 2) 1 3 =
        some ⟨0, 0, (1 - 1 / 2) * 4 + 3⟩ ∧
      convertGeodeticToEcef realMath 4 ((2 - 1 / 2) * (1 / 2)) (-(π / 2)) 1 3 =
        some ⟨0, 0, -((1 - 1 / 2) * 4 + 3)⟩ ∧
      convertEcefToGeodetic realMath 4 (1 / 2) 0 0 ((1 - 1 / 2) * 4 + 3) ⟨7, 7, 7⟩ =
        (SUCCESSFUL_CONVERSION, ⟨π / 2, 0, 3⟩) ∧
      convertEcefToGeodetic realMath 4 (1 / 2) 0 0 (-((1 - 1 / 2) * 4 + 3)) ⟨7, 7, 7⟩ =
        (SUCCESSFUL_CONVERSION, ⟨-(π / 2), 0, 3⟩) :=
  ⟨by norm_num, by norm_num, by norm_num, by norm_num,
    C30_round_trip_poles 4 (1 / 2) 1 3 ⟨7, 7, 7⟩ (by norm_num) (by norm_num) (by norm_num)
      (by norm_num)⟩

end Instances

section MachineExact

variable {R : Type} [LinearOrderedField R]

/-- Over exact arithmetic the Halley terms are those of the embedding in a
field. -/
theorem machine_halleyTerms_exact (m : MathFunctions R) (a e2 e4 ec p w : R) :
    Machine.halleyTerms (exactArithmetic R) m a e2 e4 ec p w = halleyTerms m a e2 e4 ec p w := by
  simp only [Machine.halleyTerms, halleyTerms, exactArithmetic, sub_eq_add_neg]

/-- Over exact arithmetic the geodetic computation is that of the embedding
in a field. -/
theorem machine_geodeticComputation_exact (m : MathFunctions R)
    (a aEps2 e2 e4 ecSq x y z : R) :
    Machine.geodeticComputation (exactArithmetic R) m a aEps2 e2 e4 ecSq x y z =
      geodeticComputation m a aEps2 e2 e4 ecSq x y z := by
  simp only [Machine.geodeticComputation, geodeticComputation, machine_halleyTerms_exact]
  simp only [exactArithmetic, decide_eq_true_eq, Rat.cast_zero, Rat.cast_one, Rat.cast_ofNat,
    gt_iff_lt]

/-- Over exact arithmetic `convertEcefToGeodetic` is the embedding in a
field. -/
theorem machine_convertEcefToGeodetic_exact (m : MathFunctions R) (a f x y z : R)
    (out : GeodeticOutputs R) :
    Machine.convertEcefToGeodetic (exactArithmetic R) m a f x y z out =
      convertEcefToGeodetic m a f x y z out := by
  have h1 : ((1.0e-16 : ℚ) : R) = 1.0e-16 := by norm_num
  have h2 : ((1.5 : ℚ) : R) = 1.5 := by norm_num
  simp only [Machine.convertEcefToGeodetic, convertEcefToGeodetic,
    machine_geodeticComputation_exact]
  simp only [exactArithmetic, decide_eq_true_eq, Bool.and_eq_true, Rat.cast_zero,
    Rat.cast_one, Rat.cast_ofNat, gt_iff_lt, ge_iff_le, h1, h2]

/-- Over exact arithmetic `convertGeodeticToEcef` is the embedding in a
field. -/
theorem machine_convertGeodeticToEcef_exact (m : MathFunctions R) (a e2 lat lon alt : R) :
    Machine.convertGeodeticToEcef (exactArithmetic R) m a e2 lat lon alt =
      convertGeodeticToEcef m a e2 lat lon alt := by
  simp only [Machine.convertGeodeticToEcef, convertGeodeticToEcef, Machine.curvatureTerms,
    curvatureTerms]
  simp only [exactArithmetic, decide_eq_true_eq, Bool.and_eq_true, Rat.cast_zero,
    Rat.cast_one, gt_iff_lt]

end MachineExact

/-! ## Rounding to binary64 -/

section Rounding

variable {K : Type} [LinearOrderedField K] [FloorRing K]

/-- A number within less than `1/2` of an integer rounds to that integer. -/
theorem roundHalfEven_of_abs_sub_lt (s : K) (n : ℤ) (h : |s - n| < 1 / 2) :
    roundHalfEven s = n := by
  rw [abs_lt] at h
  unfold roundHalfEven
  by_cases hs : (n : K) ≤ s
  · have hfl : ⌊s⌋ = n := by
      rw [Int.floor_eq_iff]
      exact ⟨hs, by linarith [h.2]⟩
    have hfr : Int.fract s = s - n := by rw [← hfl]; rfl
    have hlt : Int.fract s < 1 / 2 := by rw [hfr]; linarith [h.2]
    rw [if_pos hlt, hfl]
  · push_neg at hs
    have hfl : ⌊s⌋ = n - 1 := by
      rw [Int.floor_eq_iff]
      push_cast
      exact ⟨by linarith [h.1], by linarith⟩
    have hfr : Int.fract s = s - (n - 1) := by
      have : Int.fract s = s - ((n - 1 : ℤ) : K) := by rw [← hfl]; rfl
      rw [this]
      push_cast
      ring
    have h1 : ¬ Int.fract s < 1 / 2 := by rw [hfr]; linarith [h.1]
    have h2 : 1 / 2 < Int.fract s := by rw [hfr]; linarith [h.1]
    rw [if_neg h1, if_pos h2, hfl]
    ring

/-- An integer rounds to itself. -/
theorem roundHalfEven_intCast (n : ℤ) : roundHalfEven (n : K) = n :=
  roundHalfEven_of_abs_sub_lt (n : K) n (by rw [sub_self, abs_zero]; norm_num)

/-- Rounding does not go below an integer that the number is not below. -/
theorem le_roundHalfEven (s : K) (k : ℤ) (h : (k : K) ≤ s) : k ≤ roundHalfEven s := by
  have hk : k ≤ ⌊s⌋ := Int.le_floor.mpr h
  unfold roundHalfEven
  split_ifs <;> omega

/-- Rounding does not go above an integer that the number is not above. -/
theorem roundHalfEven_le (s : K) (k : ℤ) (h : s ≤ (k : K)) : roundHalfEven s ≤ k := by
  rcases eq_or_lt_of_le h with h | h
  · rw [h, roundHalfEven_intCast]
  · have hk : ⌊s⌋ < k := Int.floor_lt.mpr h
    unfold roundHalfEven
    split_ifs <;> omega

/-- Rounding to the nearest integer, ties to even, is an odd function. -/
theorem roundHalfEven_neg (s : K) : roundHalfEven (-s) = -roundHalfEven s := by
  by_cases h0 : Int.fract s = 0
  · have hs : s = ((⌊s⌋ : ℤ) : K) := by
      have := Int.floor_add_fract s
      rw [h0, add_zero] at this
      exact this.symm
    rw [hs, ← Int.cast_neg, roundHalfEven_intCast, roundHalfEven_intCast]
  · have hpos : 0 < Int.fract s := lt_of_le_of_ne (Int.fract_nonneg s) (Ne.symm h0)
    have hfl : ⌊-s⌋ = -⌊s⌋ - 1 := by
      rw [Int.floor_eq_iff]
      have h1 := Int.floor_le s
      have h2 := Int.lt_floor_add_one s
      have h3 : (⌊s⌋ : K) < s := by
        have : Int.fract s = s - ⌊s⌋ := rfl
        linarith
      push_cast
      exact ⟨by linarith, by linarith⟩
    have hfr : Int.fract (-s) = 1 - Int.fract s := by
      have e1 : Int.fract (-s) = -s - ((⌊-s⌋ : ℤ) : K) := rfl
      have e2 : Int.fract s = s - ((⌊s⌋ : ℤ) : K) := rfl
      rw [e1, e2, hfl]
      push_cast
      ring
    unfold roundHalfEven
    rw [hfr, hfl]
    by_cases hlt : Int.fract s < 1 / 2
    · have h1 : ¬ 1 - Int.fract s < 1 / 2 := by linarith
      have h2 : 1 / 2 < 1 - Int.fract s := by linarith
      rw [if_neg h1, if_pos h2, if_pos hlt]
      ring
    · by_cases hgt : 1 / 2 < Int.fract s
      · have h1 : 1 - Int.fract s < 1 / 2 := by linarith
        rw [if_pos h1, if_neg hlt, if_pos hgt]
        ring
      · have h1 : ¬ 1 - Int.fract s < 1 / 2 := by linarith
        have h2 : ¬ 1 / 2 < 1 - Int.fract s := by linarith
        rw [if_neg h1, if_neg h2, if_neg hlt, if_neg hgt]
        split_ifs <;> omega

/-- The rounded value of zero is zero. -/
theorem Binary64.roundValue_zero : Binary64.roundValue (0 : K) = 0 := by
  unfold Binary64.roundValue
  rw [zero_div, ← Int.cast_zero, roundHalfEven_intCast, Int.cast_zero, zero_mul]

/-- Rounding is an odd function. -/
theorem Binary64.roundValue_neg (x : K) :
    Binary64.roundValue (-x) = -Binary64.roundValue x := by
  unfold Binary64.roundValue
  rw [abs_neg, neg_div, roundHalfEven_neg]
  push_cast
  ring

/-- The binary logarithm, rounded down, of a number between two consecutive
powers of two. -/
theorem int_log_two_eq (x : K) (k : ℤ) (hx : 0 < x) (h1 : (2 : K) ^ k ≤ x)
    (h2 : x < (2 : K) ^ (k + 1)) : Int.log 2 x = k := by
  have hc : ((2 : ℕ) : K) = 2 := by norm_num
  have hlt : Int.log 2 x < k + 1 :=
    (Int.lt_zpow_iff_log_lt one_lt_two hx).mp (by rw [hc]; exact h2)
  have hle : k ≤ Int.log 2 x :=
    (Int.zpow_le_iff_le_log one_lt_two hx).mp (by rw [hc]; exact h1)
  omega

/-- The rounded value of a positive number whose binade and nearest multiple
of the last bit are known. -/
theorem Binary64.roundValue_eq (x : K) (k e n : ℤ) (h1 : (2 : K) ^ k ≤ x)
    (h2 : x < (2 : K) ^ (k + 1)) (he : e = max (k - 52) (-1074))
    (hn : |x / (2 : K) ^ e - n| < 1 / 2) :
    Binary64.roundValue x = n * (2 : ℚ) ^ e := by
  have hx : 0 < x := lt_of_lt_of_le (zpow_pos two_pos k) h1
  have hlog : Int.log 2 |x| = k := by
    rw [abs_of_pos hx]
    exact int_log_two_eq x k hx h1 h2
  unfold Binary64.roundValue
  rw [hlog, ← he, roundHalfEven_of_abs_sub_lt _ n hn]

/-- The rounded value of a positive number is not below a positive binary64
value `m * 2^j` that the number is not below. -/
theorem Binary64.le_roundValue_of_pos (x : K) (m j : ℤ) (hm0 : 0 < m) (hm : m < 2 ^ 53)
    (hj : -1074 ≤ j) (h : (m : K) * (2 : K) ^ j ≤ x) :
    (m : ℚ) * (2 : ℚ) ^ j ≤ Binary64.roundValue x := by
  have h2K : (0 : K) < 2 := two_pos
  have hc : ((2 : ℕ) : K) = 2 := by norm_num
  have hcpos : (0 : K) < (m : K) * (2 : K) ^ j :=
    mul_pos (Int.cast_pos.mpr hm0) (zpow_pos h2K j)
  have hx : 0 < x := lt_of_lt_of_le hcpos h
  unfold Binary64.roundValue
  rw [abs_of_pos hx]
  have hpow : (2 : K) ^ Int.log 2 x ≤ x := by
    have := Int.zpow_log_le_self one_lt_two hx
    rw [hc] at this
    exact this
  generalize Int.log 2 x = k at hpow
  by_cases hej : max (k - 52) (-1074) ≤ j
  · generalize max (k - 52) (-1074) = e at hej
    obtain ⟨d, hd⟩ : ∃ d : ℕ, j = e + d := ⟨(j - e).toNat, by omega⟩
    have hs : ((m * 2 ^ d : ℤ) : K) ≤ x / (2 : K) ^ e := by
      rw [le_div_iff₀ (zpow_pos h2K e)]
      have e1 : ((m * 2 ^ d : ℤ) : K) * (2 : K) ^ e = (m : K) * (2 : K) ^ j := by
        rw [hd, zpow_add₀ h2K.ne', zpow_natCast]
        push_cast
        ring
      rw [e1]
      exact h
    have hn := le_roundHalfEven _ _ hs
    generalize roundHalfEven (x / (2 : K) ^ e) = n at hn
    have hnQ : ((m * 2 ^ d : ℤ) : ℚ) ≤ (n : ℚ) := Int.cast_le.mpr hn
    have e2 : (m : ℚ) * (2 : ℚ) ^ j = ((m * 2 ^ d : ℤ) : ℚ) * (2 : ℚ) ^ e := by
      rw [hd, zpow_add₀ (two_ne_zero), zpow_natCast]
      push_cast
      ring
    rw [e2]
    exact mul_le_mul_of_nonneg_right hnQ (zpow_pos two_pos e).le
  · push_neg at hej
    have hk : max (k - 52) (-1074) = k - 52 := max_eq_left (by omega)
    rw [hk] at hej ⊢
    have hs : ((2 ^ 52 : ℤ) : K) ≤ x / (2 : K) ^ (k - 52) := by
      rw [le_div_iff₀ (zpow_pos h2K _)]
      have e : ((2 ^ 52 : ℤ) : K) * (2 : K) ^ (k - 52) = (2 : K) ^ k := by
        have : ((2 ^ 52 : ℤ) : K) = (2 : K) ^ (52 : ℤ) := by norm_num
        rw [this, ← zpow_add₀ h2K.ne']
        congr 1
        ring
      rw [e]
      exact hpow
    have hn := le_roundHalfEven _ _ hs
    generalize roundHalfEven (x / (2 : K) ^ (k - 52)) = n at hn
    have hnQ : (2 : ℚ) ^ (52 : ℤ) ≤ (n : ℚ) := by
      have : ((2 ^ 52 : ℤ) : ℚ) ≤ (n : ℚ) := Int.cast_le.mpr hn
      have e : ((2 ^ 52 : ℤ) : ℚ) = (2 : ℚ) ^ (52 : ℤ) := by norm_num
      rw [← e]
      exact this
    have hpos : (0 : ℚ) < (2 : ℚ) ^ (k - 52) := zpow_pos two_pos _
    have h1 : (2 : ℚ) ^ (52 : ℤ) * (2 : ℚ) ^ (k - 52) ≤ (n : ℚ) * (2 : ℚ) ^ (k - 52) :=
      mul_le_mul_of_nonneg_right hnQ hpos.le
    have h2 : (2 : ℚ) ^ (52 : ℤ) * (2 : ℚ) ^ (k - 52) = (2 : ℚ) ^ k := by
      rw [← zpow_add₀ (two_ne_zero)]
      congr 1
      ring
    have h3 : (m : ℚ) * (2 : ℚ) ^ j ≤ (2 : ℚ) ^ k := by
      have hmQ : (m : ℚ) ≤ (2 : ℚ) ^ (53 : ℤ) := by
        have : ((m : ℤ) : ℚ) ≤ ((2 ^ 53 : ℤ) : ℚ) := Int.cast_le.mpr hm.le
        have e : ((2 ^ 53 : ℤ) : ℚ) = (2 : ℚ) ^ (53 : ℤ) := by norm_num
        rw [← e]
        exact this
      have h4 : (m : ℚ) * (2 : ℚ) ^ j ≤ (2 : ℚ) ^ (53 : ℤ) * (2 : ℚ) ^ j :=
        mul_le_mul_of_nonneg_right hmQ (zpow_pos two_pos j).le
      have h5 : (2 : ℚ) ^ (53 : ℤ) * (2 : ℚ) ^ j = (2 : ℚ) ^ (53 + j) := by
        rw [← zpow_add₀ (two_ne_zero)]
      have h6 : (2 : ℚ) ^ (53 + j) ≤ (2 : ℚ) ^ k :=
        zpow_le_zpow_right₀ (by norm_num) (by omega)
      linarith
    linarith

/-- The rounded value of a positive number is not above a binary64 value
`m * 2^j` that the number is not above. -/
theorem Binary64.roundValue_le_of_pos (x : K) (m j : ℤ) (hx : 0 < x) (hm : m < 2 ^ 53)
    (hj : -1074 ≤ j) (h : x ≤ (m : K) * (2 : K) ^ j) :
    Binary64.roundValue x ≤ (m : ℚ) * (2 : ℚ) ^ j := by
  have h2K : (0 : K) < 2 := two_pos
  have hc : ((2 : ℕ) : K) = 2 := by norm_num
  unfold Binary64.roundValue
  rw [abs_of_pos hx]
  have hpow : (2 : K) ^ Int.log 2 x ≤ x := by
    have := Int.zpow_log_le_self one_lt_two hx
    rw [hc] at this
    exact this
  generalize Int.log 2 x = k at hpow
  have hej : max (k - 52) (-1074) ≤ j := by
    by_contra hlt
    push_neg at hlt
    have hkj : 53 + j ≤ k := by
      rcases max_cases (k - 52) (-1074) with ⟨h1, -⟩ | ⟨h1, -⟩ <;> omega
    have hmK : (m : K) < (2 : K) ^ (53 : ℤ) := by
      have : ((m : ℤ) : K) < ((2 ^ 53 : ℤ) : K) := Int.cast_lt.mpr hm
      have e : ((2 ^ 53 : ℤ) : K) = (2 : K) ^ (53 : ℤ) := by norm_num
      rw [← e]
      exact this
    have h4 : (m : K) * (2 : K) ^ j < (2 : K) ^ (53 : ℤ) * (2 : K) ^ j :=
      mul_lt_mul_of_pos_right hmK (zpow_pos h2K j)
    have h5 : (2 : K) ^ (53 : ℤ) * (2 : K) ^ j = (2 : K) ^ (53 + j) := by
      rw [← zpow_add₀ h2K.ne']
    have h6 : (2 : K) ^ (53 + j) ≤ (2 : K) ^ k :=
      zpow_le_zpow_right₀ (by norm_num) hkj
    linarith
  generalize max (k - 52) (-1074) = e at hej
  obtain ⟨d, hd⟩ : ∃ d : ℕ, j = e + d := ⟨(j - e).toNat, by omega⟩
  have hs : x / (2 : K) ^ e ≤ ((m * 2 ^ d : ℤ) : K) := by
    rw [div_le_iff₀ (zpow_pos h2K e)]
    have e1 : ((m * 2 ^ d : ℤ) : K) * (2 : K) ^ e = (m : K) * (2 : K) ^ j := by
      rw [hd, zpow_add₀ h2K.ne', zpow_natCast]
      push_cast
      ring
    rw [e1]
    exact h
  have hn := roundHalfEven_le _ _ hs
  generalize roundHalfEven (x / (2 : K) ^ e) = n at hn
  have hnQ : (n : ℚ) ≤ ((m * 2 ^ d : ℤ) : ℚ) := Int.cast_le.mpr hn
  have e2 : (m : ℚ) * (2 : ℚ) ^ j = ((m * 2 ^ d : ℤ) : ℚ) * (2 : ℚ) ^ e := by
    rw [hd, zpow_add₀ (two_ne_zero), zpow_natCast]
    push_cast
    ring
  rw [e2]
  exact mul_le_mul_of_nonneg_right hnQ (zpow_pos two_pos e).le

/-- The rounded value of a number that is not negative is not negative. -/
theorem Binary64.roundValue_nonneg (x : K) (hx : 0 ≤ x) : 0 ≤ Binary64.roundValue x := by
  unfold Binary64.roundValue
  have h : ((0 : ℤ) : K) ≤ x / (2 : K) ^ (max (Int.log 2 |x| - 52) (-1074)) := by
    rw [Int.cast_zero]
    exact div_nonneg hx (zpow_pos two_pos _).le
  have hn := le_roundHalfEven _ _ h
  exact mul_nonneg (Int.cast_nonneg.mpr hn) (zpow_pos two_pos _).le

end Rounding

section RoundingValues

variable {K : Type} [LinearOrderedField K] [FloorRing K]

/-- A binary64 value `m * 2^j` (`|m| < 2^53`, `j ≥ -1074`) is its own rounded
value. -/
theorem Binary64.roundValue_of_representable (m j : ℤ) (hm1 : -(2 ^ 53) < m)
    (hm2 : m < 2 ^ 53) (hj : -1074 ≤ j) :
    Binary64.roundValue ((m : K) * (2 : K) ^ j) = (m : ℚ) * (2 : ℚ) ^ j := by
  rcases lt_trichotomy m 0 with h | h | h
  · have hpos : (0 : K) < ((-m : ℤ) : K) * (2 : K) ^ j :=
      mul_pos (Int.cast_pos.mpr (by omega)) (zpow_pos two_pos j)
    have h1 := Binary64.le_roundValue_of_pos (((-m : ℤ) : K) * (2 : K) ^ j) (-m) j
      (by omega) (by omega) hj le_rfl
    have h2 := Binary64.roundValue_le_of_pos (((-m : ℤ) : K) * (2 : K) ^ j) (-m) j hpos
      (by omega) hj le_rfl
    have h3 := le_antisymm h2 h1
    have e : (m : K) * (2 : K) ^ j = -(((-m : ℤ) : K) * (2 : K) ^ j) := by
      push_cast
      ring
    rw [e, Binary64.roundValue_neg, h3]
    push_cast
    ring
  · rw [h, Int.cast_zero, zero_mul, Int.cast_zero, zero_mul]
    exact Binary64.roundValue_zero
  · have hpos : (0 : K) < (m : K) * (2 : K) ^ j :=
      mul_pos (Int.cast_pos.mpr h) (zpow_pos two_pos j)
    have h1 := Binary64.le_roundValue_of_pos ((m : K) * (2 : K) ^ j) m j h hm2 hj le_rfl
    have h2 := Binary64.roundValue_le_of_pos ((m : K) * (2 : K) ^ j) m j hpos hm2 hj le_rfl
    exact le_antisymm h2 h1

/-- A rounded value below `2^1024` in absolute value is the result of the
rounding. -/
theorem Binary64.round_of_roundValue (x : K) (r : ℚ) (h : Binary64.roundValue x = r)
    (h1 : -(2 : ℚ) ^ (1024 : ℤ) < r) (h2 : r < (2 : ℚ) ^ (1024 : ℤ)) :
    Binary64.round x = Binary64.finite r := by
  unfold Binary64.round
  rw [h, if_neg (not_le.mpr (abs_lt.mpr ⟨h1, h2⟩))]

/-- A binary64 value `m * 2^j` with `j ≤ 970` rounds to itself. -/
theorem Binary64.round_of_representable (m j : ℤ) (hm1 : -(2 ^ 53) < m)
    (hm2 : m < 2 ^ 53) (hj : -1074 ≤ j) (hj2 : j ≤ 970) :
    Binary64.round ((m : K) * (2 : K) ^ j) = Binary64.finite ((m : ℚ) * (2 : ℚ) ^ j) := by
  have hb : |(m : ℚ) * (2 : ℚ) ^ j| < (2 : ℚ) ^ (1024 : ℤ) := by
    have hpos : (0 : ℚ) < (2 : ℚ) ^ j := zpow_pos two_pos j
    rw [abs_mul, abs_of_pos hpos]
    have hmQ : |(m : ℚ)| < (2 : ℚ) ^ (53 : ℤ) := by
      rw [abs_lt]
      have e : ((2 ^ 53 : ℤ) : ℚ) = (2 : ℚ) ^ (53 : ℤ) := by norm_num
      constructor
      · have : ((-(2 ^ 53) : ℤ) : ℚ) < (m : ℚ) := Int.cast_lt.mpr hm1
        rw [Int.cast_neg, e] at this
        exact this
      · have : (m : ℚ) < ((2 ^ 53 : ℤ) : ℚ) := Int.cast_lt.mpr hm2
        rw [e] at this
        exact this
    have h4 : |(m : ℚ)| * (2 : ℚ) ^ j < (2 : ℚ) ^ (53 : ℤ) * (2 : ℚ) ^ j :=
      mul_lt_mul_of_pos_right hmQ hpos
    have h5 : (2 : ℚ) ^ (53 : ℤ) * (2 : ℚ) ^ j = (2 : ℚ) ^ (53 + j) := by
      rw [← zpow_add₀ (two_ne_zero)]
    have h6 : (2 : ℚ) ^ (53 + j) ≤ (2 : ℚ) ^ (1024 : ℤ) :=
      zpow_le_zpow_right₀ (by norm_num) (by omega)
    linarith
  rw [abs_lt] at hb
  exact Binary64.round_of_roundValue _ _
    (Binary64.roundValue_of_representable m j hm1 hm2 hj) hb.1 hb.2

/-- An integer below `2^53` in absolute value rounds to itself. -/
theorem Binary64.round_intCast (m : ℤ) (hm1 : -(2 ^ 53) < m) (hm2 : m < 2 ^ 53) :
    Binary64.round (m : K) = Binary64.finite (m : ℚ) := by
  have h := @Binary64.round_of_representable K _ _ m 0 hm1 hm2 (by norm_num) (by norm_num)
  rw [zpow_zero, mul_one, zpow_zero, mul_one] at h
  exact h

/-- Zero rounds to zero. -/
theorem Binary64.round_zero : Binary64.round (0 : K) = Binary64.finite 0 := by
  have h := @Binary64.round_intCast K _ _ 0 (by norm_num) (by norm_num)
  rw [Int.cast_zero, Int.cast_zero] at h
  exact h

/-- One rounds to one. -/
theorem Binary64.round_one : Binary64.round (1 : K) = Binary64.finite 1 := by
  have h := @Binary64.round_intCast K _ _ 1 (by norm_num) (by norm_num)
  rw [Int.cast_one, Int.cast_one] at h
  exact h

/-- Underflow: a number below `2^(-1075)` in absolute value rounds to zero. -/
theorem Binary64.round_underflow (x : K) (h : |x| < (2 : K) ^ (-1075 : ℤ)) :
    Binary64.round x = Binary64.finite 0 := by
  by_cases hx0 : x = 0
  · rw [hx0]
    exact Binary64.round_zero
  have h2K : (0 : K) < 2 := two_pos
  have hc : ((2 : ℕ) : K) = 2 := by norm_num
  have hlog : Int.log 2 |x| < -1075 :=
    (Int.lt_zpow_iff_log_lt one_lt_two (abs_pos.mpr hx0)).mp (by rw [hc]; exact h)
  have he : max (Int.log 2 |x| - 52) (-1074) = -1074 := max_eq_right (by omega)
  have hs : |x / (2 : K) ^ (-1074 : ℤ) - ((0 : ℤ) : K)| < 1 / 2 := by
    rw [Int.cast_zero, sub_zero, abs_div, abs_of_pos (zpow_pos h2K _),
      div_lt_iff₀ (zpow_pos h2K _)]
    have e : (1 / 2 : K) * (2 : K) ^ (-1074 : ℤ) = (2 : K) ^ (-1075 : ℤ) := by
      have : (-1074 : ℤ) = -1075 + 1 := by norm_num
      rw [this, zpow_add₀ h2K.ne', zpow_one]
      ring
    rw [e]
    exact h
  have hv : Binary64.roundValue x = 0 := by
    unfold Binary64.roundValue
    rw [he, roundHalfEven_of_abs_sub_lt _ 0 hs, Int.cast_zero, zero_mul]
  exact Binary64.round_of_roundValue x 0 hv (neg_lt_zero.mpr (zpow_pos two_pos _))
    (zpow_pos two_pos _)

/-- Overflow: a number from `2^1024` on rounds to the positive infinity. -/
theorem Binary64.round_overflow (x : K) (h : (2 : K) ^ (1024 : ℤ) ≤ x) :
    Binary64.round x = Binary64.inf false := by
  have hx : 0 < x := lt_of_lt_of_le (zpow_pos two_pos _) h
  have h1 := Binary64.le_roundValue_of_pos x 1 1024 (by norm_num) (by norm_num) (by norm_num)
    (by rw [Int.cast_one, one_mul]; exact h)
  rw [Int.cast_one, one_mul] at h1
  unfold Binary64.round
  rw [if_pos (le_trans h1 (le_abs_self _))]
  simp [not_lt.mpr hx.le]

/-- The rounding of a positive number between two positive binary64 values is
finite and lies between them. -/
theorem Binary64.round_between (x : K) (m1 j1 m2 j2 : ℤ) (h1 : 0 < m1) (h1b : m1 < 2 ^ 53)
    (hj1 : -1074 ≤ j1) (h2b : m2 < 2 ^ 53) (hj2 : -1074 ≤ j2) (hj2b : j2 ≤ 970)
    (hlo : (m1 : K) * (2 : K) ^ j1 ≤ x) (hhi : x ≤ (m2 : K) * (2 : K) ^ j2) :
    ∃ r : ℚ, Binary64.round x = Binary64.finite r ∧
      (m1 : ℚ) * (2 : ℚ) ^ j1 ≤ r ∧ r ≤ (m2 : ℚ) * (2 : ℚ) ^ j2 := by
  have hx : 0 < x :=
    lt_of_lt_of_le (mul_pos (Int.cast_pos.mpr h1) (zpow_pos two_pos j1)) hlo
  have hA := Binary64.le_roundValue_of_pos x m1 j1 h1 h1b hj1 hlo
  have hB := Binary64.roundValue_le_of_pos x m2 j2 hx h2b hj2 hhi
  have hpos : (0 : ℚ) < (m1 : ℚ) * (2 : ℚ) ^ j1 :=
    mul_pos (Int.cast_pos.mpr h1) (zpow_pos two_pos j1)
  have hb : (m2 : ℚ) * (2 : ℚ) ^ j2 < (2 : ℚ) ^ (1024 : ℤ) := by
    have hp : (0 : ℚ) < (2 : ℚ) ^ j2 := zpow_pos two_pos j2
    have hmQ : (m2 : ℚ) < (2 : ℚ) ^ (53 : ℤ) := by
      have e : ((2 ^ 53 : ℤ) : ℚ) = (2 : ℚ) ^ (53 : ℤ) := by norm_num
      have : (m2 : ℚ) < ((2 ^ 53 : ℤ) : ℚ) := Int.cast_lt.mpr h2b
      rw [e] at this
      exact this
    have h4 : (m2 : ℚ) * (2 : ℚ) ^ j2 < (2 : ℚ) ^ (53 : ℤ) * (2 : ℚ) ^ j2 :=
      mul_lt_mul_of_pos_right hmQ hp
    have h5 : (2 : ℚ) ^ (53 : ℤ) * (2 : ℚ) ^ j2 = (2 : ℚ) ^ (53 + j2) := by
      rw [← zpow_add₀ (two_ne_zero)]
    have h6 : (2 : ℚ) ^ (53 + j2) ≤ (2 : ℚ) ^ (1024 : ℤ) :=
      zpow_le_zpow_right₀ (by norm_num) (by omega)
    linarith
  refine ⟨Binary64.roundValue x, ?_, hA, hB⟩
  exact Binary64.round_of_roundValue x _ rfl
    (by linarith [zpow_pos (two_pos : (0 : ℚ) < 2) (1024 : ℤ)]) (by linarith)

/-- The rounding of a negative number between two negative binary64 values is
finite and lies between them. -/
theorem Binary64.round_between_neg (x : K) (m1 j1 m2 j2 : ℤ) (h1 : 0 < m1)
    (h1b : m1 < 2 ^ 53) (hj1 : -1074 ≤ j1) (h2b : m2 < 2 ^ 53) (hj2 : -1074 ≤ j2)
    (hj2b : j2 ≤ 970)
    (hlo : -((m2 : K) * (2 : K) ^ j2) ≤ x) (hhi : x ≤ -((m1 : K) * (2 : K) ^ j1)) :
    ∃ r : ℚ, Binary64.round x = Binary64.finite r ∧
      -((m2 : ℚ) * (2 : ℚ) ^ j2) ≤ r ∧ r ≤ -((m1 : ℚ) * (2 : ℚ) ^ j1) := by
  have hx : 0 < -x := by
    have := mul_pos (Int.cast_pos.mpr h1 : (0 : K) < m1) (zpow_pos two_pos j1)
    linarith
  have hA := Binary64.le_roundValue_of_pos (-x) m1 j1 h1 h1b hj1 (by linarith)
  have hB := Binary64.roundValue_le_of_pos (-x) m2 j2 hx h2b hj2 (by linarith)
  rw [Binary64.roundValue_neg] at hA hB
  have hpos : (0 : ℚ) < (m1 : ℚ) * (2 : ℚ) ^ j1 :=
    mul_pos (Int.cast_pos.mpr h1) (zpow_pos two_pos j1)
  have hb : (m2 : ℚ) * (2 : ℚ) ^ j2 < (2 : ℚ) ^ (1024 : ℤ) := by
    have hp : (0 : ℚ) < (2 : ℚ) ^ j2 := zpow_pos two_pos j2
    have hmQ : (m2 : ℚ) < (2 : ℚ) ^ (53 : ℤ) := by
      have e : ((2 ^ 53 : ℤ) : ℚ) = (2 : ℚ) ^ (53 : ℤ) := by norm_num
      have : (m2 : ℚ) < ((2 ^ 53 : ℤ) : ℚ) := Int.cast_lt.mpr h2b
      rw [e] at this
      exact this
    have h4 : (m2 : ℚ) * (2 : ℚ) ^ j2 < (2 : ℚ) ^ (53 : ℤ) * (2 : ℚ) ^ j2 :=
      mul_lt_mul_of_pos_right hmQ hp
    have h5 : (2 : ℚ) ^ (53 : ℤ) * (2 : ℚ) ^ j2 = (2 : ℚ) ^ (53 + j2) := by
      rw [← zpow_add₀ (two_ne_zero)]
    have h6 : (2 : ℚ) ^ (53 + j2) ≤ (2 : ℚ) ^ (1024 : ℤ) :=
      zpow_le_zpow_right₀ (by norm_num) (by omega)
    linarith
  refine ⟨Binary64.roundValue x, ?_, by linarith, by linarith⟩
  exact Binary64.round_of_roundValue x _ rfl (by linarith)
    (by linarith [zpow_pos (two_pos : (0 : ℚ) < 2) (1024 : ℤ)])

end RoundingValues

/-! ## The validity checks in binary64 -/

section Binary64Checks

open Binary64

/-- A rational that is written `m * 2^j` with `|m| < 2^53` and
`-1074 ≤ j ≤ 970` rounds to itself. -/
theorem Binary64.round_rat (x : ℚ) (m j : ℤ) (hx : x = (m : ℚ) * (2 : ℚ) ^ j)
    (hm1 : -(2 ^ 53) < m) (hm2 : m < 2 ^ 53) (hj : -1074 ≤ j) (hj2 : j ≤ 970) :
    Binary64.round x = Binary64.finite x := by
  rw [hx]
  exact Binary64.round_of_representable m j hm1 hm2 hj hj2

/-- The literals `0.0`, `1.0` and `2.0` in binary64. -/
theorem binary64_literals :
    binary64.literal 0 = finite 0 ∧ binary64.literal 1 = finite 1 ∧
      binary64.literal 2 = finite 2 :=
  ⟨Binary64.round_rat 0 0 0 (by norm_num) (by norm_num) (by norm_num) (by norm_num)
      (by norm_num),
    Binary64.round_rat 1 1 0 (by norm_num) (by norm_num) (by norm_num) (by norm_num)
      (by norm_num),
    Binary64.round_rat 2 2 0 (by norm_num) (by norm_num) (by norm_num) (by norm_num)
      (by norm_num)⟩

/-- In binary64, for `f = 1 - 2^(-30)`: `2.0 - f` is `1 + 2^(-30)` exactly, the
product `(2.0 - f) * f`, exactly `1 - 2^(-60)`, rounds to `1.0`, and
`1.0 - (2.0 - f) * f` is `0`. -/
theorem binary64_recheck_near_one :
    binary64.sub (binary64.literal 2) (finite (1 - 1 / 2 ^ 30)) = finite (1 + 1 / 2 ^ 30) ∧
      binary64.mul (binary64.sub (binary64.literal 2) (finite (1 - 1 / 2 ^ 30)))
        (finite (1 - 1 / 2 ^ 30)) = finite 1 ∧
      binary64.sub (binary64.literal 1)
        (binary64.mul (binary64.sub (binary64.literal 2) (finite (1 - 1 / 2 ^ 30)))
          (finite (1 - 1 / 2 ^ 30))) = finite 0 := by
  obtain ⟨-, h1, h2⟩ := binary64_literals
  have hs : binary64.sub (binary64.literal 2) (finite (1 - 1 / 2 ^ 30)) =
      finite (1 + 1 / 2 ^ 30) := by
    rw [h2]
    show Binary64.round ((2 : ℚ) + -(1 - 1 / 2 ^ 30)) = finite (1 + 1 / 2 ^ 30)
    have e : (2 : ℚ) + -(1 - 1 / 2 ^ 30) = 1 + 1 / 2 ^ 30 := by norm_num
    rw [e]
    exact Binary64.round_rat _ (2 ^ 30 + 1) (-30) (by norm_num) (by norm_num) (by norm_num)
      (by norm_num) (by norm_num)
  have hm : binary64.mul (finite (1 + 1 / 2 ^ 30)) (finite (1 - 1 / 2 ^ 30)) = finite 1 := by
    show Binary64.round ((1 + 1 / 2 ^ 30 : ℚ) * (1 - 1 / 2 ^ 30)) = finite 1
    have hv : Binary64.roundValue ((1 + 1 / 2 ^ 30 : ℚ) * (1 - 1 / 2 ^ 30)) =
        ((2 ^ 53 : ℤ) : ℚ) * (2 : ℚ) ^ (-53 : ℤ) :=
      Binary64.roundValue_eq _ (-1) (-53) (2 ^ 53) (by norm_num) (by norm_num) (by norm_num)
        (by
          rw [abs_lt]
          constructor <;> norm_num)
    have e : ((2 ^ 53 : ℤ) : ℚ) * (2 : ℚ) ^ (-53 : ℤ) = 1 := by norm_num
    rw [e] at hv
    exact Binary64.round_of_roundValue _ 1 hv (by norm_num) (by norm_num)
  refine ⟨hs, by rw [hs, hm], ?_⟩
  rw [hs, hm, h1]
  show Binary64.round ((1 : ℚ) + -1) = finite 0
  have e : (1 : ℚ) + -1 = 0 := by norm_num
  rw [e]
  exact Binary64.round_zero

/-- The status of `convertEcefToGeodetic` over any arithmetic of `double`:
successful exactly when the three checks pass, the flattening in `[0, 1)`,
the radius positive, and the computed `1 - (2 - f) * f` positive. -/
theorem machine_status_successful_iff {D : Type} (ar : DoubleArithmetic D)
    (m : MathFunctions D) (a f x y z : D) (out : GeodeticOutputs D) :
    (Machine.convertEcefToGeodetic ar m a f x y z out).1 = SUCCESSFUL_CONVERSION ↔
      (ar.le (ar.literal 0) f = true ∧ ar.lt f (ar.literal 1) = true ∧
        ar.lt (ar.literal 0) a = true ∧
        ar.lt (ar.literal 0)
          (ar.sub (ar.literal 1) (ar.mul (ar.sub (ar.literal 2) f) f)) = true) := by
  unfold Machine.convertEcefToGeodetic
  simp only []
  by_cases h1 : ar.le (ar.literal 0) f = true
  · by_cases h2 : ar.lt f (ar.literal 1) = true
    · by_cases h3 : ar.lt (ar.literal 0) a = true
      · by_cases h4 : ar.lt (ar.literal 0)
            (ar.sub (ar.literal 1) (ar.mul (ar.sub (ar.literal 2) f) f)) = true
        · simp [h1, h2, h3, h4]
        · simp [h1, h2, h3, h4]
      · simp [h1, h2, h3]
    · simp [h1, h2]
  · simp [h1]

/-- The defensive branch of `convertEcefToGeodetic` over any arithmetic of
`double`: when the flattening and radius checks pass and the computed
`1 - (2 - f) * f` is not positive, the status is
`INVALID_ELLIPSOIDAL_FLATTENING` and the outputs are unchanged. -/
theorem machine_defensive_branch {D : Type} (ar : DoubleArithmetic D)
    (m : MathFunctions D) (a f x y z : D) (out : GeodeticOutputs D)
    (h1 : ar.le (ar.literal 0) f = true) (h2 : ar.lt f (ar.literal 1) = true)
    (h3 : ar.lt (ar.literal 0) a = true)
    (h4 : ar.lt (ar.literal 0)
      (ar.sub (ar.literal 1) (ar.mul (ar.sub (ar.literal 2) f) f)) = false) :
    Machine.convertEcefToGeodetic ar m a f x y z out =
      (INVALID_ELLIPSOIDAL_FLATTENING, out) := by
  unfold Machine.convertEcefToGeodetic
  simp [h1, h2, h3, h4]

end Binary64Checks

/-! ## Operations of binary64 on particular values -/

section Binary64Values

open Binary64

/-- Not-a-number as right operand of the operations. -/
theorem Binary64.op_nan_right (x : Binary64) :
    binary64.add x nan = nan ∧ binary64.mul x nan = nan ∧ binary64.div x nan = nan ∧
      binary64.sub x nan = nan ∧ binary64.lt x nan = false ∧ binary64.le x nan = false := by
  cases x <;> exact ⟨rfl, rfl, rfl, rfl, rfl, rfl⟩

/-- Not-a-number as left operand of the operations. -/
theorem Binary64.op_nan_left (x : Binary64) :
    binary64.add nan x = nan ∧ binary64.mul nan x = nan ∧ binary64.div nan x = nan ∧
      binary64.sub nan x = nan ∧ binary64.lt nan x = false ∧ binary64.le nan x = false := by
  cases x <;> exact ⟨rfl, rfl, rfl, rfl, rfl, rfl⟩

/-- The product of a finite value and zero. -/
theorem Binary64.mul_zero_right (p : ℚ) : binary64.mul (finite p) (finite 0) = finite 0 := by
  show Binary64.round (p * 0) = finite 0
  rw [mul_zero]
  exact Binary64.round_zero

/-- The product of zero and a finite value. -/
theorem Binary64.mul_zero_left (p : ℚ) : binary64.mul (finite 0) (finite p) = finite 0 := by
  show Binary64.round (0 * p) = finite 0
  rw [zero_mul]
  exact Binary64.round_zero

/-- Sums, differences, products and quotients of `0`, `1` and `2`. -/
theorem binary64_small_values :
    binary64.mul (finite 1) (finite 1) = finite 1 ∧
      binary64.add (finite 0) (finite 0) = finite 0 ∧
      binary64.add (finite 1) (finite 0) = finite 1 ∧
      binary64.add (finite 0) (finite 1) = finite 1 ∧
      binary64.sub (finite 1) (finite 0) = finite 1 ∧
      binary64.sub (finite 2) (finite 0) = finite 2 ∧
      binary64.sub (finite 1) (finite 1) = finite 0 ∧
      binary64.div (finite 0) (finite 1) = finite 0 ∧
      binary64.div (finite 1) (finite 1) = finite 1 ∧
      binary64.neg (finite 0) = finite 0 ∧
      binary64.abs (finite 0) = finite 0 := by
  have h0 : Binary64.round (0 : ℚ) = finite 0 := Binary64.round_zero
  have h1 : Binary64.round (1 : ℚ) = finite 1 := Binary64.round_one
  have h2 : Binary64.round (2 : ℚ) = finite 2 := binary64_literals.2.2
  refine ⟨?_, ?_, ?_, ?_, ?_, ?_, ?_, ?_, ?_, ?_, ?_⟩
  · show Binary64.round ((1 : ℚ) * 1) = finite 1
    rw [mul_one, h1]
  · show Binary64.round ((0 : ℚ) + 0) = finite 0
    rw [add_zero, h0]
  · show Binary64.round ((1 : ℚ) + 0) = finite 1
    rw [add_zero, h1]
  · show Binary64.round ((0 : ℚ) + 1) = finite 1
    rw [zero_add, h1]
  · show Binary64.round ((1 : ℚ) + -0) = finite 1
    rw [neg_zero, add_zero, h1]
  · show Binary64.round ((2 : ℚ) + -0) = finite 2
    rw [neg_zero, add_zero, h2]
  · show Binary64.round ((1 : ℚ) + -1) = finite 0
    rw [add_neg_cancel, h0]
  · show Binary64.div (finite 0) (finite 1) = finite 0
    simp only [Binary64.div]
    rw [if_neg one_ne_zero, div_one, h0]
  · show Binary64.div (finite 1) (finite 1) = finite 1
    simp only [Binary64.div]
    rw [if_neg one_ne_zero, div_one, h1]
  · show finite (-(0 : ℚ)) = finite 0
    rw [neg_zero]
  · show finite |(0 : ℚ)| = finite 0
    rw [abs_zero]

/-- The square roots of `1` and of the positive infinity in binary64. -/
theorem binary64Math_sqrt_values :
    binary64Math.sqrt (finite 1) = finite 1 ∧
      binary64Math.sqrt (inf false) = inf false ∧ binary64Math.sqrt nan = nan := by
  refine ⟨?_, rfl, rfl⟩
  show (if (1 : ℚ) < 0 then nan else Binary64.round (Real.sqrt ((1 : ℚ) : ℝ))) = finite 1
  rw [if_neg (by norm_num), Rat.cast_one, Real.sqrt_one]
  exact Binary64.round_one

/-- The literal `1.0e-16` in binary64 is a finite value between `2^(-54)` and
`2^(-53)`. -/
theorem binary64_literal_eps :
    ∃ q : ℚ, binary64.literal 1.0e-16 = finite q ∧
      (2 : ℚ) ^ (-54 : ℤ) ≤ q ∧ q ≤ (2 : ℚ) ^ (-53 : ℤ) := by
  obtain ⟨r, hr, h1, h2⟩ := Binary64.round_between (1.0e-16 : ℚ) 1 (-54) 1 (-53)
    (by norm_num) (by norm_num) (by norm_num) (by norm_num) (by norm_num) (by norm_num)
    (by norm_num) (by norm_num)
  rw [Int.cast_one, one_mul] at h1 h2
  exact ⟨r, hr, h1, h2⟩

/-- The product of two positive finite values whose exact product lies
between two powers of two is finite and lies between them. -/
theorem Binary64.mul_between (p q : ℚ) (j1 j2 : ℤ) (hj1 : -1074 ≤ j1) (hj2 : -1074 ≤ j2)
    (hj2b : j2 ≤ 970) (hlo : (2 : ℚ) ^ j1 ≤ p * q) (hhi : p * q ≤ (2 : ℚ) ^ j2) :
    ∃ r : ℚ, binary64.mul (finite p) (finite q) = finite r ∧
      (2 : ℚ) ^ j1 ≤ r ∧ r ≤ (2 : ℚ) ^ j2 := by
  obtain ⟨r, hr, h1, h2⟩ := Binary64.round_between (p * q) 1 j1 1 j2
    (by norm_num) (by norm_num) hj1 (by norm_num) hj2 hj2b
    (by rw [Int.cast_one, one_mul]; exact hlo) (by rw [Int.cast_one, one_mul]; exact hhi)
  rw [Int.cast_one, one_mul] at h1 h2
  exact ⟨r, hr, h1, h2⟩

end Binary64Values

section Overflow

open Binary64

/-- The square of `2^600` overflows in binary64. -/
theorem binary64_square_overflow :
    binary64.mul (finite (2 ^ 600)) (finite (2 ^ 600)) = inf false := by
  show Binary64.round ((2 : ℚ) ^ 600 * 2 ^ 600) = inf false
  apply Binary64.round_overflow
  rw [← pow_add, ← zpow_natCast]
  exact zpow_le_zpow_right₀ (by norm_num) (by norm_num)

/-- C10 as stated fails in binary64 when the square of a coordinate
overflows.  On the unit sphere (`a = 1`, `f = 0`), at the point
`(2^600, 0, 0)`, `x * x` is `+inf`, the Halley terms are not numbers, and the
call returns `SUCCESSFUL_CONVERSION` with a latitude that is not a number,
hence not in `[-π/2, π/2]`. -/
theorem C10_counterexample_overflow :
    binary64.le (binary64.literal 0) (finite 0) = true ∧
      binary64.lt (finite 0) (binary64.literal 1) = true ∧
      binary64.lt (binary64.literal 0) (finite 1) = true ∧
      (Machine.convertEcefToGeodetic binary64 binary64Math (finite 1) (finite 0)
        (finite (2 ^ 600)) (finite 0) (finite 0) ⟨finite 0, finite 0, finite 0⟩).1 =
          SUCCESSFUL_CONVERSION ∧
      (Machine.convertEcefToGeodetic binary64 binary64Math (finite 1) (finite 0)
        (finite (2 ^ 600)) (finite 0) (finite 0) ⟨finite 0, finite 0, finite 0⟩).2.latitude =
          nan := by
  obtain ⟨h0, h1, h2⟩ := binary64_literals
  obtain ⟨hm11, ha00, ha10, ha01, hs10, hs20, hs11, hd01, hd11, hn0, hab0⟩ :=
    binary64_small_values
  obtain ⟨hsq1, hsqinf, hsqnan⟩ := binary64Math_sqrt_values
  obtain ⟨q0, heps, hq0a, hq0b⟩ := binary64_literal_eps
  have hq0pos : (0 : ℚ) < q0 := lt_of_lt_of_le (zpow_pos two_pos _) hq0a
  obtain ⟨q1, haEps, hq1a, hq1b⟩ := Binary64.mul_between 1 q0 (-54) (-53) (by norm_num)
    (by norm_num) (by norm_num) (by rw [one_mul]; exact hq0a) (by rw [one_mul]; exact hq0b)
  have hq1pos : (0 : ℚ) < q1 := lt_of_lt_of_le (zpow_pos two_pos _) hq1a
  obtain ⟨q2, haEps2, -, -⟩ := Binary64.mul_between q1 q1 (-108) (-106) (by norm_num)
    (by norm_num) (by norm_num)
    (by
      have e : (2 : ℚ) ^ (-108 : ℤ) = (2 : ℚ) ^ (-54 : ℤ) * (2 : ℚ) ^ (-54 : ℤ) := by
        rw [← zpow_add₀ (two_ne_zero)]
        norm_num
      rw [e]
      exact mul_le_mul hq1a hq1a (zpow_pos two_pos _).le hq1pos.le)
    (by
      have e : (2 : ℚ) ^ (-106 : ℤ) = (2 : ℚ) ^ (-53 : ℤ) * (2 : ℚ) ^ (-53 : ℤ) := by
        rw [← zpow_add₀ (two_ne_zero)]
        norm_num
      rw [e]
      exact mul_le_mul hq1b hq1b hq1pos.le (zpow_pos two_pos _).le)
  have hle00 : binary64.le (finite 0) (finite 0) = true := by
    show decide ((0 : ℚ) ≤ 0) = true
    exact decide_eq_true le_rfl
  have hlt01 : binary64.lt (finite 0) (finite 1) = true := by
    show decide ((0 : ℚ) < 1) = true
    exact decide_eq_true one_pos
  have hlt00 : binary64.lt (finite 0) (finite 0) = false := by
    show decide ((0 : ℚ) < 0) = false
    exact decide_eq_false (lt_irrefl _)
  have hltinf : ∀ q : ℚ, binary64.lt (finite q) (inf false) = true := fun _ => rfl
  have hinf0 : binary64.add (inf false) (finite 0) = inf false := rfl
  have hdivinf : binary64.div (inf false) (finite 1) = inf false := by
    show inf (xor false (decide ((1 : ℚ) < 0))) = inf false
    rw [decide_eq_false (by norm_num)]
    rfl
  have hm1inf : binary64.mul (finite 1) (inf false) = inf false := by
    show (if (1 : ℚ) = 0 then nan else inf (xor (decide ((1 : ℚ) < 0)) false)) = inf false
    rw [if_neg one_ne_zero, decide_eq_false (by norm_num)]
    rfl
  have hinfinf : binary64.mul (inf false) (inf false) = inf false := rfl
  have hm0inf : binary64.mul (finite 0) (inf false) = nan := by
    show Binary64.mul (finite 0) (inf false) = nan
    simp only [Binary64.mul, if_true]
  have hnanl := fun x => (Binary64.op_nan_left x)
  have hnanr := fun x => (Binary64.op_nan_right x)
  have hatan2 : binary64Math.atan2 nan nan = nan := rfl
  have h15 : ∀ q : ℚ, binary64.mul (binary64.literal 1.5) (finite 0) = finite 0 := by
    intro _
    obtain ⟨r, hr⟩ : ∃ r : ℚ, binary64.literal 1.5 = finite r :=
      ⟨_, Binary64.round_rat (1.5 : ℚ) 3 (-1) (by norm_num) (by norm_num) (by norm_num)
        (by norm_num) (by norm_num)⟩
    rw [hr]
    exact Binary64.mul_zero_right r
  refine ⟨by rw [h0]; exact hle00, by rw [h1]; exact hlt01, by rw [h0]; exact hlt01, ?_, ?_⟩
  · rw [(machine_status_successful_iff binary64 binary64Math _ _ _ _ _ _)]
    refine ⟨by rw [h0]; exact hle00, by rw [h1]; exact hlt01, by rw [h0]; exact hlt01, ?_⟩
    rw [h0, h1, h2, hs20, Binary64.mul_zero_right, hs10]
    exact hlt01
  · simp only [Machine.convertEcefToGeodetic, Machine.geodeticComputation,
      Machine.halleyTerms, h0, h1, h2, hle00, hlt01, hlt00, heps, haEps, haEps2, hs20,
      Binary64.mul_zero_right, Binary64.mul_zero_left, h15 0, hs10, hsq1, hm11,
      binary64_square_overflow, hinf0, hltinf, hsqinf, hab0, hd01, hdivinf, hm1inf, hinfinf,
      hm0inf, hn0, (hnanl _).1, (hnanl _).2.1, (hnanr _).1, (hnanr _).2.1, hatan2,
      Bool.and_self, Bool.false_eq_true, if_true, if_false]

end Overflow

section Underflow

open Binary64

/-- The angle of the point `(1, 0)` is `0`, also after rounding. -/
theorem binary64Math_atan2_zero_one : binary64Math.atan2 (finite 0) (finite 1) = finite 0 := by
  show Binary64.round (Complex.arg ⟨((1 : ℚ) : ℝ), ((0 : ℚ) : ℝ)⟩) = finite 0
  have e : (⟨((1 : ℚ) : ℝ), ((0 : ℚ) : ℝ)⟩ : ℂ) = 1 := by
    apply Complex.ext <;> simp
  rw [e, Complex.arg_one]
  exact Binary64.round_zero

/-- The value `2.0 * atan(1.0)` of the polar branch is a finite value from `1`
to `2` in binary64 (it is `π/2` rounded). -/
theorem binary64_piOverTwo :
    ∃ r : ℚ, binary64.mul (finite 2) (binary64Math.atan (finite 1)) = finite r ∧
      1 ≤ r ∧ r ≤ 2 := by
  have hpi1 := Real.pi_gt_three
  have hpi2 := Real.pi_le_four
  obtain ⟨q, hq, hq1, hq2⟩ := Binary64.round_between (Real.arctan ((1 : ℚ) : ℝ)) 1 (-1) 1 0
    (by norm_num) (by norm_num) (by norm_num) (by norm_num) (by norm_num) (by norm_num)
    (by
      rw [Rat.cast_one, Real.arctan_one]
      norm_num
      linarith)
    (by
      rw [Rat.cast_one, Real.arctan_one]
      norm_num
      linarith)
  have hq1' : (1 / 2 : ℚ) ≤ q := by
    have e : ((1 : ℤ) : ℚ) * (2 : ℚ) ^ (-1 : ℤ) = 1 / 2 := by norm_num
    rw [e] at hq1
    exact hq1
  have hq2' : q ≤ 1 := by
    have e : ((1 : ℤ) : ℚ) * (2 : ℚ) ^ (0 : ℤ) = 1 := by norm_num
    rw [e] at hq2
    exact hq2
  have hatan : binary64Math.atan (finite 1) = finite q := hq
  rw [hatan]
  obtain ⟨r, hr, hr1, hr2⟩ := Binary64.mul_between 2 q 0 1 (by norm_num) (by norm_num)
    (by norm_num) (by norm_num; linarith) (by norm_num; linarith)
  exact ⟨r, hr, by simpa using hr1, by simpa using hr2⟩

/-- The call on the unit sphere at the point `(1, 0, 0)` in binary64: the
normal branch, latitude `0`, longitude `0`, altitude `0`. -/
theorem machine_unit_sphere_equator :
    Machine.convertEcefToGeodetic binary64 binary64Math (finite 1) (finite 0)
        (finite 1) (finite 0) (finite 0) ⟨finite 0, finite 0, finite 0⟩ =
      (SUCCESSFUL_CONVERSION, ⟨finite 0, finite 0, finite 0⟩) := by
  obtain ⟨h0, h1, h2⟩ := binary64_literals
  obtain ⟨hm11, ha00, ha10, ha01, hs10, hs20, hs11, hd01, hd11, hn0, hab0⟩ :=
    binary64_small_values
  obtain ⟨hsq1, -, -⟩ := binary64Math_sqrt_values
  obtain ⟨q0, heps, hq0a, hq0b⟩ := binary64_literal_eps
  obtain ⟨q1, haEps, hq1a, hq1b⟩ := Binary64.mul_between 1 q0 (-54) (-53) (by norm_num)
    (by norm_num) (by norm_num) (by rw [one_mul]; exact hq0a) (by rw [one_mul]; exact hq0b)
  have hq1pos : (0 : ℚ) < q1 := lt_of_lt_of_le (zpow_pos two_pos _) hq1a
  obtain ⟨q2, haEps2, -, hq2b⟩ := Binary64.mul_between q1 q1 (-108) (-106) (by norm_num)
    (by norm_num) (by norm_num)
    (by
      have e : (2 : ℚ) ^ (-108 : ℤ) = (2 : ℚ) ^ (-54 : ℤ) * (2 : ℚ) ^ (-54 : ℤ) := by
        rw [← zpow_add₀ (two_ne_zero)]
        norm_num
      rw [e]
      exact mul_le_mul hq1a hq1a (zpow_pos two_pos _).le hq1pos.le)
    (by
      have e : (2 : ℚ) ^ (-106 : ℤ) = (2 : ℚ) ^ (-53 : ℤ) * (2 : ℚ) ^ (-53 : ℤ) := by
        rw [← zpow_add₀ (two_ne_zero)]
        norm_num
      rw [e]
      exact mul_le_mul hq1b hq1b hq1pos.le (zpow_pos two_pos _).le)
  have hq2lt : binary64.lt (finite q2) (finite 1) = true := by
    show decide (q2 < 1) = true
    apply decide_eq_true
    have : (2 : ℚ) ^ (-106 : ℤ) < 1 := by norm_num
    linarith
  have hle00 : binary64.le (finite 0) (finite 0) = true := by
    show decide ((0 : ℚ) ≤ 0) = true
    exact decide_eq_true le_rfl
  have hlt01 : binary64.lt (finite 0) (finite 1) = true := by
    show decide ((0 : ℚ) < 1) = true
    exact decide_eq_true one_pos
  have hlt00 : binary64.lt (finite 0) (finite 0) = false := by
    show decide ((0 : ℚ) < 0) = false
    exact decide_eq_false (lt_irrefl _)
  have h15 : binary64.mul (binary64.literal 1.5) (finite 0) = finite 0 := by
    obtain ⟨r, hr⟩ : ∃ r : ℚ, binary64.literal 1.5 = finite r :=
      ⟨_, Binary64.round_rat (1.5 : ℚ) 3 (-1) (by norm_num) (by norm_num) (by norm_num)
        (by norm_num) (by norm_num)⟩
    rw [hr]
    exact Binary64.mul_zero_right r
  have hneg1 : binary64.neg (finite 1) = finite (-1) := rfl
  have hmneg : binary64.mul (finite (-1)) (finite 1) = finite (-1) := by
    show Binary64.round ((-1 : ℚ) * 1) = finite (-1)
    rw [mul_one]
    exact Binary64.round_rat (-1) (-1) 0 (by norm_num) (by norm_num) (by norm_num)
      (by norm_num) (by norm_num)
  have hadd : binary64.add (finite 1) (finite (-1)) = finite 0 := by
    show Binary64.round ((1 : ℚ) + -1) = finite 0
    rw [add_neg_cancel]
    exact Binary64.round_zero
  simp only [Machine.convertEcefToGeodetic, Machine.geodeticComputation,
    Machine.halleyTerms, h0, h1, h2, hle00, hlt01, hlt00, heps, haEps, haEps2, hq2lt, hs20,
    Binary64.mul_zero_right, Binary64.mul_zero_left, h15, hs10, hs11, hsq1, hm11, ha00,
    ha10, ha01, hab0, hd01, hd11, hn0, hneg1, hmneg, hadd, binary64Math_atan2_zero_one,
    Bool.and_self, Bool.false_eq_true, if_true, if_false]

/-- The same call with every length multiplied by `2^(-600)`: the squares
`aEps * aEps` and `x * x` underflow to `0`, the test of the normal branch
fails, and the polar branch returns the latitude `2.0 * atan(1.0)` and the
altitude `-2^(-600)`. -/
theorem machine_unit_sphere_equator_scaled :
    Machine.convertEcefToGeodetic binary64 binary64Math (finite (1 / 2 ^ 600)) (finite 0)
        (finite (1 / 2 ^ 600)) (finite 0) (finite 0) ⟨finite 0, finite 0, finite 0⟩ =
      (SUCCESSFUL_CONVERSION,
        ⟨binary64.mul (finite 2) (binary64Math.atan (finite 1)), finite 0,
          finite (-(1 / 2 ^ 600))⟩) := by
  obtain ⟨h0, h1, h2⟩ := binary64_literals
  obtain ⟨hm11, ha00, ha10, ha01, hs10, hs20, hs11, hd01, hd11, hn0, hab0⟩ :=
    binary64_small_values
  obtain ⟨hsq1, -, -⟩ := binary64Math_sqrt_values
  obtain ⟨q0, heps, hq0a, hq0b⟩ := binary64_literal_eps
  have hq0pos : (0 : ℚ) < q0 := lt_of_lt_of_le (zpow_pos two_pos _) hq0a
  have hk : (1 / 2 ^ 600 : ℚ) = (2 : ℚ) ^ (-600 : ℤ) := by
    rw [zpow_neg, one_div, zpow_ofNat]
  have hkpos : (0 : ℚ) < 1 / 2 ^ 600 := by positivity
  obtain ⟨q1, haEps, hq1a, hq1b⟩ := Binary64.mul_between (1 / 2 ^ 600) q0 (-654) (-653)
    (by norm_num) (by norm_num) (by norm_num)
    (by
      have e : (2 : ℚ) ^ (-654 : ℤ) = (2 : ℚ) ^ (-600 : ℤ) * (2 : ℚ) ^ (-54 : ℤ) := by
        rw [← zpow_add₀ (two_ne_zero)]
        norm_num
      rw [e, hk]
      exact mul_le_mul_of_nonneg_left hq0a (zpow_pos two_pos _).le)
    (by
      have e : (2 : ℚ) ^ (-653 : ℤ) = (2 : ℚ) ^ (-600 : ℤ) * (2 : ℚ) ^ (-53 : ℤ) := by
        rw [← zpow_add₀ (two_ne_zero)]
        norm_num
      rw [e, hk]
      exact mul_le_mul_of_nonneg_left hq0b (zpow_pos two_pos _).le)
  have hq1pos : (0 : ℚ) < q1 := lt_of_lt_of_le (zpow_pos two_pos _) hq1a
  have haEps2 : binary64.mul (finite q1) (finite q1) = finite 0 := by
    show Binary64.round (q1 * q1) = finite 0
    apply Binary64.round_underflow
    rw [abs_of_pos (mul_pos hq1pos hq1pos)]
    have h3 : q1 * q1 ≤ (2 : ℚ) ^ (-653 : ℤ) * (2 : ℚ) ^ (-653 : ℤ) :=
      mul_le_mul hq1b hq1b hq1pos.le (zpow_pos two_pos _).le
    have h4 : (2 : ℚ) ^ (-653 : ℤ) * (2 : ℚ) ^ (-653 : ℤ) = (2 : ℚ) ^ (-1306 : ℤ) := by
      rw [← zpow_add₀ (two_ne_zero)]
      norm_num
    have h5 : (2 : ℚ) ^ (-1306 : ℤ) < (2 : ℚ) ^ (-1075 : ℤ) :=
      zpow_lt_zpow_right₀ (by norm_num) (by norm_num)
    linarith
  have hxx : binary64.mul (finite (1 / 2 ^ 600)) (finite (1 / 2 ^ 600)) = finite 0 := by
    show Binary64.round ((1 / 2 ^ 600 : ℚ) * (1 / 2 ^ 600)) = finite 0
    apply Binary64.round_underflow
    rw [abs_of_pos (mul_pos hkpos hkpos), hk, ← zpow_add₀ (two_ne_zero)]
    exact zpow_lt_zpow_right₀ (by norm_num) (by norm_num)
  have hb : binary64.mul (finite 1) (finite (1 / 2 ^ 600)) = finite (1 / 2 ^ 600) := by
    show Binary64.round ((1 : ℚ) * (1 / 2 ^ 600)) = finite (1 / 2 ^ 600)
    rw [one_mul]
    exact Binary64.round_rat _ 1 (-600) (by rw [hk]; norm_num) (by norm_num) (by norm_num)
      (by norm_num) (by norm_num)
  have halt : binary64.sub (finite 0) (finite (1 / 2 ^ 600)) = finite (-(1 / 2 ^ 600)) := by
    show Binary64.round ((0 : ℚ) + -(1 / 2 ^ 600)) = finite (-(1 / 2 ^ 600))
    rw [zero_add]
    exact Binary64.round_rat _ (-1) (-600) (by rw [hk]; norm_num) (by norm_num)
      (by norm_num) (by norm_num) (by norm_num)
  have hle00 : binary64.le (finite 0) (finite 0) = true := by
    show decide ((0 : ℚ) ≤ 0) = true
    exact decide_eq_true le_rfl
  have hlt01 : binary64.lt (finite 0) (finite 1) = true := by
    show decide ((0 : ℚ) < 1) = true
    exact decide_eq_true one_pos
  have hlt0k : binary64.lt (finite 0) (finite (1 / 2 ^ 600)) = true := by
    show decide ((0 : ℚ) < 1 / 2 ^ 600) = true
    exact decide_eq_true hkpos
  have hlt00 : binary64.lt (finite 0) (finite 0) = false := by
    show decide ((0 : ℚ) < 0) = false
    exact decide_eq_false (lt_irrefl _)
  have h15 : binary64.mul (binary64.literal 1.5) (finite 0) = finite 0 := by
    obtain ⟨r, hr⟩ : ∃ r : ℚ, binary64.literal 1.5 = finite r :=
      ⟨_, Binary64.round_rat (1.5 : ℚ) 3 (-1) (by norm_num) (by norm_num) (by norm_num)
        (by norm_num) (by norm_num)⟩
    rw [hr]
    exact Binary64.mul_zero_right r
  simp only [Machine.convertEcefToGeodetic, Machine.geodeticComputation,
    h0, h1, h2, hle00, hlt01, hlt0k, hlt00, heps, haEps, haEps2, hs20,
    Binary64.mul_zero_right, Binary64.mul_zero_left, h15, hs10, hsq1, hxx, hb, halt, ha00,
    hab0, Bool.and_self, Bool.false_eq_true, if_true, if_false]

end Underflow

section ForwardBinary64

open Binary64

/-- In binary64, with `e2 = 2` and the latitude `1` radian, the radicand
`1 - e2 * sin(lat)^2` is negative, its square root is not a number, and
neither are `N`, `rho` and `rhoz`. -/
theorem machine_curvatureTerms_negative_radicand :
    (Machine.curvatureTerms binary64 binary64Math (finite 1) (finite 2)
        (binary64Math.sin (finite 1)) (finite 0)).rho = nan ∧
      (Machine.curvatureTerms binary64 binary64Math (finite 1) (finite 2)
        (binary64Math.sin (finite 1)) (finite 0)).rhoz = nan := by
  obtain ⟨-, h1, -⟩ := binary64_literals
  have hsin1 : (3 / 4 : ℝ) ≤ Real.sin 1 := by
    have := @Real.sin_gt_sub_cube 1 one_pos le_rfl
    norm_num at this
    linarith
  obtain ⟨s, hs, hs1, hs2⟩ := Binary64.round_between (Real.sin ((1 : ℚ) : ℝ)) 3 (-2) 1 0
    (by norm_num) (by norm_num) (by norm_num) (by norm_num) (by norm_num) (by norm_num)
    (by
      rw [Rat.cast_one]
      norm_num
      linarith)
    (by
      rw [Rat.cast_one]
      norm_num
      exact Real.sin_le_one 1)
  have hs1' : (3 / 4 : ℚ) ≤ s := by
    have e : ((3 : ℤ) : ℚ) * (2 : ℚ) ^ (-2 : ℤ) = 3 / 4 := by norm_num
    rw [e] at hs1
    exact hs1
  have hs2' : s ≤ 1 := by
    have e : ((1 : ℤ) : ℚ) * (2 : ℚ) ^ (0 : ℤ) = 1 := by norm_num
    rw [e] at hs2
    exact hs2
  have hsin : binary64Math.sin (finite 1) = finite s := hs
  obtain ⟨r1, hr1, hr1a, hr1b⟩ := Binary64.round_between_neg ((-2 : ℚ) * s) 3 (-1) 1 1
    (by norm_num) (by norm_num) (by norm_num) (by norm_num) (by norm_num) (by norm_num)
    (by norm_num; linarith) (by norm_num; linarith)
  have hr1a' : (-2 : ℚ) ≤ r1 := by
    have e : -(((1 : ℤ) : ℚ) * (2 : ℚ) ^ (1 : ℤ)) = -2 := by norm_num
    rw [e] at hr1a
    exact hr1a
  have hr1b' : r1 ≤ -(3 / 2 : ℚ) := by
    have e : -(((3 : ℤ) : ℚ) * (2 : ℚ) ^ (-1 : ℤ)) = -(3 / 2) := by norm_num
    rw [e] at hr1b
    exact hr1b
  have hm1 : binary64.mul (binary64.neg (finite 2)) (finite s) = finite r1 := hr1
  obtain ⟨r2, hr2, hr2a, hr2b⟩ := Binary64.round_between_neg (r1 * s) 9 (-3) 1 1
    (by norm_num) (by norm_num) (by norm_num) (by norm_num) (by norm_num) (by norm_num)
    (by norm_num; nlinarith) (by norm_num; nlinarith)
  have hr2b' : r2 ≤ -(9 / 8 : ℚ) := by
    have e : -(((9 : ℤ) : ℚ) * (2 : ℚ) ^ (-3 : ℤ)) = -(9 / 8) := by norm_num
    rw [e] at hr2b
    exact hr2b
  have hr2a' : (-2 : ℚ) ≤ r2 := by
    have e : -(((1 : ℤ) : ℚ) * (2 : ℚ) ^ (1 : ℤ)) = -2 := by norm_num
    rw [e] at hr2a
    exact hr2a
  have hm2 : binary64.mul (finite r1) (finite s) = finite r2 := hr2
  obtain ⟨r3, hr3, -, hr3b⟩ := Binary64.round_between_neg ((1 : ℚ) + r2) 1 (-3) 1 1
    (by norm_num) (by norm_num) (by norm_num) (by norm_num) (by norm_num) (by norm_num)
    (by norm_num; linarith)
    (by norm_num; linarith)
  have hr3b' : r3 < 0 := by
    have e : -(((1 : ℤ) : ℚ) * (2 : ℚ) ^ (-3 : ℤ)) = -(1 / 8) := by norm_num
    rw [e] at hr3b
    linarith
  have ha : binary64.add (finite 1) (finite r2) = finite r3 := hr3
  have hsqrt : binary64Math.sqrt (finite r3) = nan := by
    show (if r3 < 0 then nan else _) = nan
    rw [if_pos hr3b']
  simp only [Machine.curvatureTerms, hsin, hm1, hm2, h1, ha, hsqrt,
    (Binary64.op_nan_right _).2.1, (Binary64.op_nan_right _).2.2.1,
    (Binary64.op_nan_left _).1, and_self]

/-- C15 as stated fails in binary64 when a radius is not a number.  With
`a = 1`, `e2 = 2`, latitude `1` radian, longitude `0` and altitude `0`, the
square root of the negative radicand is not a number, `rho` and `rhoz` are
not numbers, so that neither `rho <= 0` nor `rhoz <= 0` holds, and yet the
failure path is taken. -/
theorem C15_counterexample_radii_not_numbers :
    Machine.convertGeodeticToEcef binary64 binary64Math (finite 1) (finite 2) (finite 1)
        (finite 0) (finite 0) = none ∧
      (Machine.curvatureTerms binary64 binary64Math (finite 1) (finite 2)
        (binary64Math.sin (finite 1)) (finite 0)).rho = nan ∧
      (Machine.curvatureTerms binary64 binary64Math (finite 1) (finite 2)
        (binary64Math.sin (finite 1)) (finite 0)).rhoz = nan ∧
      binary64.le (Machine.curvatureTerms binary64 binary64Math (finite 1) (finite 2)
        (binary64Math.sin (finite 1)) (finite 0)).rho (binary64.literal 0) = false ∧
      binary64.le (Machine.curvatureTerms binary64 binary64Math (finite 1) (finite 2)
        (binary64Math.sin (finite 1)) (finite 0)).rhoz (binary64.literal 0) = false := by
  obtain ⟨hrho, hrhoz⟩ := machine_curvatureTerms_negative_radicand
  refine ⟨?_, hrho, hrhoz, ?_, ?_⟩
  · unfold Machine.convertGeodeticToEcef
    simp only [hrho, hrhoz, (Binary64.op_nan_right _).2.2.2.2.1, Bool.and_self,
      Bool.false_eq_true, if_false]
  · rw [hrho]
    exact (Binary64.op_nan_left _).2.2.2.2.2
  · rw [hrhoz]
    exact (Binary64.op_nan_left _).2.2.2.2.2

/-- A binary64 value is above zero exactly when it is a number and not at or
below zero. -/
theorem Binary64.lt_zero_iff (x : Binary64) :
    binary64.lt (binary64.literal 0) x = true ↔
      ¬ (binary64.le x (binary64.literal 0) = true ∨ x = nan) := by
  rw [binary64_literals.1]
  cases x with
  | nan => exact ⟨fun h => Bool.noConfusion h, fun h => absurd (Or.inr rfl) h⟩
  | inf s =>
    cases s
    · exact ⟨fun _ h => h.elim (fun h => Bool.noConfusion h) (fun h => Binary64.noConfusion h),
        fun _ => rfl⟩
    · exact ⟨fun h => Bool.noConfusion h, fun h => absurd (Or.inl rfl) h⟩
  | finite q =>
    show decide ((0 : ℚ) < q) = true ↔ ¬ (decide (q ≤ 0) = true ∨ finite q = nan)
    rw [decide_eq_true_iff, decide_eq_true_iff]
    constructor
    · intro h hc
      rcases hc with hc | hc
      · exact absurd h (not_lt.mpr hc)
      · exact Binary64.noConfusion hc
    · intro h
      exact not_le.mp (fun hc => h (Or.inl hc))

/-- The forward call in binary64 on the unit sphere at latitude `0` and
altitude `-2`: `rho` and `rhoz` are `-1`. -/
theorem machine_curvatureTerms_deep :
    (Machine.curvatureTerms binary64 binary64Math (finite 1) (finite 0)
        (binary64Math.sin (finite 0)) (finite (-2))).rho = finite (-1) ∧
      (Machine.curvatureTerms binary64 binary64Math (finite 1) (finite 0)
        (binary64Math.sin (finite 0)) (finite (-2))).rhoz = finite (-1) := by
  obtain ⟨-, h1, -⟩ := binary64_literals
  obtain ⟨hm11, ha00, ha10, ha01, hs10, hs20, hs11, hd01, hd11, hn0, hab0⟩ :=
    binary64_small_values
  obtain ⟨hsq1, -, -⟩ := binary64Math_sqrt_values
  have hsin : binary64Math.sin (finite 0) = finite 0 := by
    show Binary64.round (Real.sin ((0 : ℚ) : ℝ)) = finite 0
    rw [Rat.cast_zero, Real.sin_zero]
    exact Binary64.round_zero
  have hadd : binary64.add (finite 1) (finite (-2)) = finite (-1) := by
    show Binary64.round ((1 : ℚ) + -2) = finite (-1)
    have e : (1 : ℚ) + -2 = -1 := by norm_num
    rw [e]
    exact Binary64.round_rat (-1) (-1) 0 (by norm_num) (by norm_num) (by norm_num)
      (by norm_num) (by norm_num)
  simp only [Machine.curvatureTerms, hsin, hn0, Binary64.mul_zero_left, h1, ha10, hsq1, hd11,
    hs10, hm11, hadd, and_self]

end ForwardBinary64

/-! ## The claims that turn on the arithmetic of `double` -/

section MachineClaims

open Binary64

/-- C1 as stated fails in binary64 for a flattening factor close to `1`.
With `a = 1` and `f = 1 - 2^(-30)` the ellipsoid is valid (`0 ≤ f < 1`,
`a > 0`), but `(2.0 - f) * f` rounds to `1.0`, the re-check
`1.0 - (2.0 - f) * f > 0.0` fails, and the status is
`INVALID_ELLIPSOIDAL_FLATTENING`, not `SUCCESSFUL_CONVERSION`. -/
theorem C1_counterexample_flattening_near_one :
    binary64.le (binary64.literal 0) (finite (1 - 1 / 2 ^ 30)) = true ∧
      binary64.lt (finite (1 - 1 / 2 ^ 30)) (binary64.literal 1) = true ∧
      binary64.lt (binary64.literal 0) (finite 1) = true ∧
      (Machine.convertEcefToGeodetic binary64 binary64Math (finite 1)
        (finite (1 - 1 / 2 ^ 30)) (finite 0) (finite 0) (finite 0)
        ⟨finite 0, finite 0, finite 0⟩).1 = INVALID_ELLIPSOIDAL_FLATTENING ∧
      (Machine.convertEcefToGeodetic binary64 binary64Math (finite 1)
        (finite (1 - 1 / 2 ^ 30)) (finite 0) (finite 0) (finite 0)
        ⟨finite 0, finite 0, finite 0⟩).1 ≠ SUCCESSFUL_CONVERSION := by
  obtain ⟨h0, h1, -⟩ := binary64_literals
  obtain ⟨-, -, hre⟩ := binary64_recheck_near_one
  have hA : binary64.le (binary64.literal 0) (finite (1 - 1 / 2 ^ 30)) = true := by
    rw [h0]
    show decide ((0 : ℚ) ≤ 1 - 1 / 2 ^ 30) = true
    exact decide_eq_true (by norm_num)
  have hB : binary64.lt (finite (1 - 1 / 2 ^ 30)) (binary64.literal 1) = true := by
    rw [h1]
    show decide ((1 - 1 / 2 ^ 30 : ℚ) < 1) = true
    exact decide_eq_true (by norm_num)
  have hC : binary64.lt (binary64.literal 0) (finite 1) = true := by
    rw [h0]
    show decide ((0 : ℚ) < 1) = true
    exact decide_eq_true one_pos
  have hD : binary64.lt (binary64.literal 0)
      (binary64.sub (binary64.literal 1)
        (binary64.mul (binary64.sub (binary64.literal 2) (finite (1 - 1 / 2 ^ 30)))
          (finite (1 - 1 / 2 ^ 30)))) = false := by
    rw [hre, h0]
    show decide ((0 : ℚ) < 0) = false
    exact decide_eq_false (lt_irrefl _)
  have hres := machine_defensive_branch binary64 binary64Math (finite 1)
    (finite (1 - 1 / 2 ^ 30)) (finite 0) (finite 0) (finite 0) ⟨finite 0, finite 0, finite 0⟩
    hA hB hC hD
  refine ⟨hA, hB, hC, by rw [hres], ?_⟩
  rw [hres]
  exact fun h => ECEF_TO_GEODETIC_CONVERSION_STATUS.noConfusion h

/-- C1, as the code has it: over the arithmetic of `double`, whatever the
point is, `convertEcefToGeodetic` returns `SUCCESSFUL_CONVERSION` if and only
if its three checks pass: the flattening factor in `[0, 1)`, the radius
positive, and the computed `1.0 - (2.0 - f) * f` positive.  Over exact
arithmetic the third check follows from `f < 1`, and the status is successful
if and only if `0 ≤ f < 1` and `a > 0`. -/
theorem C1_successful_iff_checks_pass {D : Type} (ar : DoubleArithmetic D)
    (m : MathFunctions D) (a f x y z : D) (out : GeodeticOutputs D) :
    ((Machine.convertEcefToGeodetic ar m a f x y z out).1 = SUCCESSFUL_CONVERSION ↔
        (ar.le (ar.literal 0) f = true ∧ ar.lt f (ar.literal 1) = true ∧
          ar.lt (ar.literal 0) a = true ∧
          ar.lt (ar.literal 0)
            (ar.sub (ar.literal 1) (ar.mul (ar.sub (ar.literal 2) f) f)) = true)) ∧
      ∀ (R : Type) [LinearOrderedField R] (m2 : MathFunctions R) (a2 f2 x2 y2 z2 : R)
        (out2 : GeodeticOutputs R),
        (Machine.convertEcefToGeodetic (exactArithmetic R) m2 a2 f2 x2 y2 z2 out2).1 =
            SUCCESSFUL_CONVERSION ↔
          (0 ≤ f2 ∧ f2 < 1 ∧ 0 < a2) := by
  refine ⟨machine_status_successful_iff ar m a f x y z out, ?_⟩
  intro R _ m2 a2 f2 x2 y2 z2 out2
  rw [machine_convertEcefToGeodetic_exact]
  constructor
  · intro hs
    by_cases hf : 0 ≤ f2 ∧ f2 < 1
    · by_cases ha : 0 < a2
      · exact ⟨hf.1, hf.2, ha⟩
      · rw [convertEcefToGeodetic_of_radius_invalid m2 a2 f2 x2 y2 z2 out2 hf.1 hf.2 ha] at hs
        exact ECEF_TO_GEODETIC_CONVERSION_STATUS.noConfusion hs
    · rw [convertEcefToGeodetic_of_flattening_invalid m2 a2 f2 x2 y2 z2 out2 hf] at hs
      exact ECEF_TO_GEODETIC_CONVERSION_STATUS.noConfusion hs
  · rintro ⟨h0, h1, ha⟩
    rw [convertEcefToGeodetic_valid m2 a2 f2 x2 y2 z2 out2 h0 h1 ha]

/-- C20 as stated fails in binary64: the defensive branch is reached.  With
`a = 1` and `f = 1 - 2^(-30)`, both in range, the exact `1 - (2 - f) * f` is
`2^(-60) > 0`, but the computed value is `0`, and the call leaves through the
defensive branch: `INVALID_ELLIPSOIDAL_FLATTENING`, outputs unchanged. -/
theorem C20_counterexample_defensive_branch_reached :
    (0 : ℚ) ≤ 1 - 1 / 2 ^ 30 ∧ (1 - 1 / 2 ^ 30 : ℚ) < 1 ∧
      (0 : ℚ) < 1 - (2 - (1 - 1 / 2 ^ 30)) * (1 - 1 / 2 ^ 30) ∧
      binary64.sub (binary64.literal 1)
        (binary64.mul (binary64.sub (binary64.literal 2) (finite (1 - 1 / 2 ^ 30)))
          (finite (1 - 1 / 2 ^ 30))) = finite 0 ∧
      Machine.convertEcefToGeodetic binary64 binary64Math (finite 1)
          (finite (1 - 1 / 2 ^ 30)) (finite 3) (finite 4) (finite 5)
          ⟨finite 7, finite 8, finite 9⟩ =
        (INVALID_ELLIPSOIDAL_FLATTENING, ⟨finite 7, finite 8, finite 9⟩) := by
  obtain ⟨h0, h1, -⟩ := binary64_literals
  obtain ⟨-, -, hre⟩ := binary64_recheck_near_one
  refine ⟨by norm_num, by norm_num, by norm_num, hre, ?_⟩
  apply machine_defensive_branch
  · rw [h0]
    show decide ((0 : ℚ) ≤ 1 - 1 / 2 ^ 30) = true
    exact decide_eq_true (by norm_num)
  · rw [h1]
    show decide ((1 - 1 / 2 ^ 30 : ℚ) < 1) = true
    exact decide_eq_true (by norm_num)
  · rw [h0]
    show decide ((0 : ℚ) < 1) = true
    exact decide_eq_true one_pos
  · rw [hre, h0]
    show decide ((0 : ℚ) < 0) = false
    exact decide_eq_false (lt_irrefl _)

/-- C20, as the code has it.  Over the arithmetic of `double`, once the
flattening and radius checks have passed, the call returns
`INVALID_ELLIPSOIDAL_FLATTENING` exactly when the computed
`1.0 - (2.0 - f) * f` is not positive, and it then leaves the outputs
unchanged.  Over exact arithmetic that never happens: for `0 ≤ f < 1` the
eccentricity squared `(2 - f) * f` lies in `[0, 1)`, `1 - (2 - f) * f` is
strictly positive, and with `a > 0` the status is not
`INVALID_ELLIPSOIDAL_FLATTENING`. -/
theorem C20_defensive_branch_iff_recheck_fails {D : Type} (ar : DoubleArithmetic D)
    (m : MathFunctions D) (a f x y z : D) (out : GeodeticOutputs D)
    (h1 : ar.le (ar.literal 0) f = true) (h2 : ar.lt f (ar.literal 1) = true)
    (h3 : ar.lt (ar.literal 0) a = true) :
    ((Machine.convertEcefToGeodetic ar m a f x y z out).1 = INVALID_ELLIPSOIDAL_FLATTENING ↔
        ar.lt (ar.literal 0)
          (ar.sub (ar.literal 1) (ar.mul (ar.sub (ar.literal 2) f) f)) = false) ∧
      (ar.lt (ar.literal 0)
          (ar.sub (ar.literal 1) (ar.mul (ar.sub (ar.literal 2) f) f)) = false →
        Machine.convertEcefToGeodetic ar m a f x y z out =
          (INVALID_ELLIPSOIDAL_FLATTENING, out)) ∧
      ∀ (R : Type) [LinearOrderedField R] (m2 : MathFunctions R) (a2 f2 x2 y2 z2 : R)
        (out2 : GeodeticOutputs R), 0 ≤ f2 → f2 < 1 → 0 < a2 →
        0 ≤ (2 - f2) * f2 ∧ (2 - f2) * f2 < 1 ∧ 0 < 1 - (2 - f2) * f2 ∧
          (Machine.convertEcefToGeodetic (exactArithmetic R) m2 a2 f2 x2 y2 z2 out2).1 ≠
            INVALID_ELLIPSOIDAL_FLATTENING := by
  refine ⟨?_, machine_defensive_branch ar m a f x y z out h1 h2 h3, ?_⟩
  · constructor
    · intro hs
      by_contra hc
      have hc2 : ar.lt (ar.literal 0)
          (ar.sub (ar.literal 1) (ar.mul (ar.sub (ar.literal 2) f) f)) = true := by
        cases hb : ar.lt (ar.literal 0)
          (ar.sub (ar.literal 1) (ar.mul (ar.sub (ar.literal 2) f) f))
        · exact absurd hb hc
        · rfl
      have hok := (machine_status_successful_iff ar m a f x y z out).mpr ⟨h1, h2, h3, hc2⟩
      rw [hok] at hs
      exact ECEF_TO_GEODETIC_CONVERSION_STATUS.noConfusion hs
    · intro h4
      rw [machine_defensive_branch ar m a f x y z out h1 h2 h3 h4]
  · intro R _ m2 a2 f2 x2 y2 z2 out2 hf0 hf1 ha
    have hc := complimentaryEllipticitySquared_pos hf1
    refine ⟨mul_nonneg (by linarith) hf0, by linarith, hc, ?_⟩
    rw [machine_convertEcefToGeodetic_exact,
      convertEcefToGeodetic_valid m2 a2 f2 x2 y2 z2 out2 hf0 hf1 ha]
    exact fun h => ECEF_TO_GEODETIC_CONVERSION_STATUS.noConfusion h

/-- C20 (amended) in binary64 on the unit sphere (`a = 1`, `f = 0`), where the
re-check passes. -/
theorem C20_defensive_branch_iff_recheck_fails_witness :
    binary64.le (binary64.literal 0) (finite 0) = true ∧
      binary64.lt (finite 0) (binary64.literal 1) = true ∧
      binary64.lt (binary64.literal 0) (finite 1) = true ∧
      ((Machine.convertEcefToGeodetic binary64 binary64Math (finite 1) (finite 0)
          (finite 1) (finite 0) (finite 0) ⟨finite 0, finite 0, finite 0⟩).1 =
            INVALID_ELLIPSOIDAL_FLATTENING ↔
        binary64.lt (binary64.literal 0)
          (binary64.sub (binary64.literal 1)
            (binary64.mul (binary64.sub (binary64.literal 2) (finite 0)) (finite 0))) =
              false) :=
  have hA : binary64.le (binary64.literal 0) (finite 0) = true := by
    rw [binary64_literals.1]
    show decide ((0 : ℚ) ≤ 0) = true
    exact decide_eq_true le_rfl
  have hB : binary64.lt (finite 0) (binary64.literal 1) = true := by
    rw [binary64_literals.2.1]
    show decide ((0 : ℚ) < 1) = true
    exact decide_eq_true one_pos
  have hC : binary64.lt (binary64.literal 0) (finite 1) = true := by
    rw [binary64_literals.1]
    show decide ((0 : ℚ) < 1) = true
    exact decide_eq_true one_pos
  ⟨hA, hB, hC,
    (C20_defensive_branch_iff_recheck_fails binary64 binary64Math (finite 1) (finite 0)
      (finite 1) (finite 0) (finite 0) ⟨finite 0, finite 0, finite 0⟩ hA hB hC).1⟩

/-- C15, as the code has it.  In binary64, `convertGeodeticToEcef` takes its
failure path (the three outputs set to `NAN` together) if and only if the
computed radii are not both positive, that is if and only if `rho <= 0`, or
`rhoz <= 0`, or one of the two is not a number; and there is a valid
ellipsoid (`a = 1`, `e2 = 0`) with an altitude so negative (`-2`) that
`rhoz <= 0` and the failure path is taken. -/
theorem C15_failure_iff_not_both_positive (a e2 lat lon alt : Binary64) :
    (Machine.convertGeodeticToEcef binary64 binary64Math a e2 lat lon alt = none ↔
        (binary64.le (Machine.curvatureTerms binary64 binary64Math a e2
            (binary64Math.sin lat) alt).rho (binary64.literal 0) = true ∨
          binary64.le (Machine.curvatureTerms binary64 binary64Math a e2
            (binary64Math.sin lat) alt).rhoz (binary64.literal 0) = true ∨
          (Machine.curvatureTerms binary64 binary64Math a e2
            (binary64Math.sin lat) alt).rho = nan ∨
          (Machine.curvatureTerms binary64 binary64Math a e2
            (binary64Math.sin lat) alt).rhoz = nan)) ∧
      (binary64.lt (binary64.literal 0) (finite 1) = true ∧
        binary64.le (binary64.literal 0) (finite 0) = true ∧
        binary64.lt (finite 0) (binary64.literal 1) = true ∧
        binary64.le (Machine.curvatureTerms binary64 binary64Math (finite 1) (finite 0)
          (binary64Math.sin (finite 0)) (finite (-2))).rhoz (binary64.literal 0) = true ∧
        Machine.convertGeodeticToEcef binary64 binary64Math (finite 1) (finite 0) (finite 0)
          (finite 0) (finite (-2)) = none) := by
  obtain ⟨h0, h1, -⟩ := binary64_literals
  constructor
  · have hrho := Binary64.lt_zero_iff (Machine.curvatureTerms binary64 binary64Math a e2
      (binary64Math.sin lat) alt).rho
    have hrhoz := Binary64.lt_zero_iff (Machine.curvatureTerms binary64 binary64Math a e2
      (binary64Math.sin lat) alt).rhoz
    unfold Machine.convertGeodeticToEcef
    simp only []
    generalize (Machine.curvatureTerms binary64 binary64Math a e2
      (binary64Math.sin lat) alt).rho = rho at hrho ⊢
    generalize (Machine.curvatureTerms binary64 binary64Math a e2
      (binary64Math.sin lat) alt).rhoz = rhoz at hrhoz ⊢
    by_cases h1 : binary64.lt (binary64.literal 0) rho = true
    · by_cases h2 : binary64.lt (binary64.literal 0) rhoz = true
      · have n1 := hrho.mp h1
        have n2 := hrhoz.mp h2
        simp only [h1, h2, Bool.and_self, if_true]
        constructor
        · intro h
          exact Option.noConfusion h
        · intro h
          rcases h with h | h | h | h
          · exact absurd (Or.inl h) n1
          · exact absurd (Or.inl h) n2
          · exact absurd (Or.inr h) n1
          · exact absurd (Or.inr h) n2
      · have n2 : binary64.le rhoz (binary64.literal 0) = true ∨ rhoz = nan := by
          by_contra hc
          exact h2 (hrhoz.mpr hc)
        simp only [h1, h2, Bool.true_and, if_false]
        refine ⟨fun _ => ?_, fun _ => rfl⟩
        rcases n2 with n2 | n2
        · exact Or.inr (Or.inl n2)
        · exact Or.inr (Or.inr (Or.inr n2))
    · have n1 : binary64.le rho (binary64.literal 0) = true ∨ rho = nan := by
        by_contra hc
        exact h1 (hrho.mpr hc)
      simp only [h1, Bool.false_and, Bool.false_eq_true, if_false]
      refine ⟨fun _ => ?_, fun _ => trivial⟩
      rcases n1 with n1 | n1
      · exact Or.inl n1
      · exact Or.inr (Or.inr (Or.inl n1))
  · obtain ⟨hrho, hrhoz⟩ := machine_curvatureTerms_deep
    have hneg : binary64.lt (finite 0) (finite (-1)) = false := by
      show decide ((0 : ℚ) < -1) = false
      exact decide_eq_false (by norm_num)
    refine ⟨?_, ?_, ?_, ?_, ?_⟩
    · rw [h0]
      show decide ((0 : ℚ) < 1) = true
      exact decide_eq_true one_pos
    · rw [h0]
      show decide ((0 : ℚ) ≤ 0) = true
      exact decide_eq_true le_rfl
    · rw [h1]
      show decide ((0 : ℚ) < 1) = true
      exact decide_eq_true one_pos
    · rw [hrhoz, h0]
      show decide ((-1 : ℚ) ≤ 0) = true
      exact decide_eq_true (by norm_num)
    · unfold Machine.convertGeodeticToEcef
      simp only [hrho, hrhoz, h0, hneg, Bool.and_self, Bool.false_eq_true, if_false]

/-- C19 as stated fails in binary64 when a square underflows.  On the unit
sphere (`a = 1`, `f = 0`) the point `(1, 0, 0)` is in the normal branch and
gets latitude `0`, longitude `0` and altitude `0`.  With the scale factor
`k = 2^(-600)` the products `k * a` and `k * x` are exact, but the call with
the scaled lengths takes the polar branch: its latitude is
`2.0 * atan(1.0)`, not `0`, and its altitude is `-2^(-600)`, not `k * 0`. -/
theorem C19_counterexample_underflow :
    binary64.lt (binary64.literal 0) (finite (1 / 2 ^ 600)) = true ∧
      binary64.mul (finite (1 / 2 ^ 600)) (finite 1) = finite (1 / 2 ^ 600) ∧
      binary64.mul (finite (1 / 2 ^ 600)) (finite 0) = finite 0 ∧
      Machine.convertEcefToGeodetic binary64 binary64Math (finite 1) (finite 0)
          (finite 1) (finite 0) (finite 0) ⟨finite 0, finite 0, finite 0⟩ =
        (SUCCESSFUL_CONVERSION, ⟨finite 0, finite 0, finite 0⟩) ∧
      (Machine.convertEcefToGeodetic binary64 binary64Math (finite (1 / 2 ^ 600))
          (finite 0) (finite (1 / 2 ^ 600)) (finite 0) (finite 0)
          ⟨finite 0, finite 0, finite 0⟩).2.altitude = finite (-(1 / 2 ^ 600)) ∧
      (Machine.convertEcefToGeodetic binary64 binary64Math (finite (1 / 2 ^ 600))
          (finite 0) (finite (1 / 2 ^ 600)) (finite 0) (finite 0)
          ⟨finite 0, finite 0, finite 0⟩).2.altitude ≠
        binary64.mul (finite (1 / 2 ^ 600))
          (Machine.convertEcefToGeodetic binary64 binary64Math (finite 1) (finite 0)
            (finite 1) (finite 0) (finite 0) ⟨finite 0, finite 0, finite 0⟩).2.altitude ∧
      (Machine.convertEcefToGeodetic binary64 binary64Math (finite (1 / 2 ^ 600))
          (finite 0) (finite (1 / 2 ^ 600)) (finite 0) (finite 0)
          ⟨finite 0, finite 0, finite 0⟩).2.latitude ≠
        (Machine.convertEcefToGeodetic binary64 binary64Math (finite 1) (finite 0)
          (finite 1) (finite 0) (finite 0) ⟨finite 0, finite 0, finite 0⟩).2.latitude := by
  have hk : (1 / 2 ^ 600 : ℚ) = (2 : ℚ) ^ (-600 : ℤ) := by
    rw [zpow_neg, one_div, zpow_ofNat]
  have hkpos : (0 : ℚ) < 1 / 2 ^ 600 := by positivity
  have hka : binary64.mul (finite (1 / 2 ^ 600)) (finite 1) = finite (1 / 2 ^ 600) := by
    show Binary64.round ((1 / 2 ^ 600 : ℚ) * 1) = finite (1 / 2 ^ 600)
    rw [mul_one]
    exact Binary64.round_rat _ 1 (-600) (by rw [hk]; norm_num) (by norm_num) (by norm_num)
      (by norm_num) (by norm_num)
  obtain ⟨r, hr, hr1, -⟩ := binary64_piOverTwo
  rw [machine_unit_sphere_equator, machine_unit_sphere_equator_scaled]
  refine ⟨?_, hka, Binary64.mul_zero_right _, rfl, rfl, ?_, ?_⟩
  · rw [binary64_literals.1]
    show decide ((0 : ℚ) < 1 / 2 ^ 600) = true
    exact decide_eq_true hkpos
  · show finite (-(1 / 2 ^ 600)) ≠ binary64.mul (finite (1 / 2 ^ 600)) (finite 0)
    rw [Binary64.mul_zero_right]
    intro h
    have h2 := Binary64.finite.inj h
    linarith
  · show binary64.mul (finite 2) (binary64Math.atan (finite 1)) ≠ finite 0
    rw [hr]
    intro h
    have h2 := Binary64.finite.inj h
    linarith

end MachineClaims

/-! ## The error of the single Halley step

The code takes one step of Halley's method from the starting point
`T0 = S0 / C0`.  The sections below bound, in exact real arithmetic, the
distance of the result from the zero of the latitude equation, and from it
the errors of the latitude and of the altitude after a round trip. -/

section HalleyError

open Real

end HalleyError

section HalleyError2

open Real

end HalleyError2

section HalleyError3

open Real

end HalleyError3

section LatitudeError

open Real

end LatitudeError

section AltitudeError

open Real

end AltitudeError

section RoundTripBound

open Real

end RoundTripBound

section RoundTripBound2

open Real

end RoundTripBound2

section RoundTripBound3

open Real

end RoundTripBound3

section PolarRoundTrip

open Real

end PolarRoundTrip

section RoundTripClaims

open Real Binary64

end RoundTripClaims

section RoundTripInstances

open Real

end RoundTripInstances

end Fukushima
